import Mathlib

/-!
# jackmidi2osc: a shallow embedding of `src/jackmidi2osc.c`

Conventions of the embedding.

* `uint8_t` values are `Nat`s; every place where the C code stores into a
  `uint8_t` reduces modulo 256 explicitly.
* `jack_nframes_t` is a 32-bit unsigned counter: `Nat` with explicit `% 2^32`.
* `int` / `int32_t` are `Int`s, wrapped into the two's complement range by `wrap32`
  after every arithmetic operation.
* C strings are `List Char` (the characters before the terminating NUL).
* A run of the C code that hits a failed `assert`, an integer division by zero or a
  null pointer is a `Fault`.
* The C library (`sscanf`, `atoi`, `strtok`, `strcasecmp`, `strncasecmp`), JACK
  (`jack_ringbuffer_*`) and liblo (`lo_message_*`) are outside the source file; they are modelled after glibc on an
  LP64 target, the JACK ring buffer and the liblo API, as far as this program uses them.
  `malloc`, `realloc`, `calloc` and `strdup` are taken to succeed; the liblo calls that can
  fail take their outcome from an environment `LoEnv`.
* The two threads, the signal handler and the JACK shutdown callback are interleaved at
  the granularity of one ring buffer operation or one test of the consumer loop, and the
  frame clock is an input.
* An array that `sscanf` fills without terminator (`%1023c` in `read_config`) is followed
  by bytes the program never wrote; they are an input `junk`.  A write beyond an array
  (`b[16]` in `read_config`) is a `Fault`.
-/

namespace JackMidi2Osc

/-! ## Data model (lines 89-112 of the source) -/

/-- A C array `uint8_t x[3]`. -/
structure Bytes3 where
  b0 : Nat
  b1 : Nat
  b2 : Nat
deriving DecidableEq, Repr

/-- Reads `x[i]` for `i < 3`. -/
def Bytes3.get (a : Bytes3) : Nat → Nat
  | 0 => a.b0
  | 1 => a.b1
  | 2 => a.b2
  | _ => 0

/-- Performs the store `x[i] = v` for `i < 3`. -/
def Bytes3.set (a : Bytes3) (i : Nat) (v : Nat) : Bytes3 :=
  match i with
  | 0 => { a with b0 := v }
  | 1 => { a with b1 := v }
  | 2 => { a with b2 := v }
  | _ => a

/-- The struct `OSCMessageTemplate`: `path`, `desc` and the `param` array.  A `param`
entry is `none` for a NULL pointer (as left by `calloc`). -/
structure OSCMessageTemplate where
  path : List Char
  desc : List Char
  param : List (Option (List Char))
deriving DecidableEq, Repr

/-- The struct `Rule`.  The field `msg` holds the allocated template slots, of which the
first `message_count` are live. -/
structure Rule where
  mask : Bytes3
  match_ : Bytes3
  len : Nat
  message_count : Nat
  msg : List OSCMessageTemplate
deriving DecidableEq, Repr

/-- The struct `MidiMessage`. -/
structure MidiMessage where
  tme : Nat
  d : Bytes3
  len : Nat
deriving DecidableEq, Repr

/-! ## The match test of the consumer loop (lines 1037-1040) -/

/-- The condition of the `if` at lines 1037-1040 of `main`. -/
def rule_matches (r : Rule) (mmsg : MidiMessage) : Bool :=
  (r.len == 0 || r.len == mmsg.len)
    && (mmsg.d.get 0 &&& r.mask.get 0) == r.match_.get 0
    && (decide (mmsg.len < 2) || (mmsg.d.get 1 &&& r.mask.get 1) == r.match_.get 1)
    && (decide (mmsg.len < 3) || (mmsg.d.get 2 &&& r.mask.get 2) == r.match_.get 2)

/-! ## Machine integers and faults -/

/-- Ways in which a run of the C program stops abnormally. -/
inductive Fault where
  | assert_failed
  | div_by_zero
  | div_overflow
  | null_deref
  | out_of_bounds
deriving DecidableEq, Repr

deriving instance DecidableEq for Except

/-- Reduces an integer to the range of a 32-bit two's complement `int`. -/
def wrap32 (x : Int) : Int := (x + 2147483648) % 4294967296 - 2147483648

/-- Reduces an integer to the range of a 64-bit `long` by saturation, as `strtol` does. -/
def sat_long (x : Int) : Int :=
  if x > 9223372036854775807 then 9223372036854775807
  else if x < -9223372036854775808 then -9223372036854775808
  else x

/-- C division of two `int`s: truncation toward zero, trapping on a zero divisor and on
`INT_MIN / -1`. -/
def c_div (a b : Int) : Except Fault Int :=
  if b = 0 then Except.error Fault.div_by_zero
  else if a = -2147483648 ∧ b = -1 then Except.error Fault.div_overflow
  else Except.ok (Int.tdiv a b)

/-! ## The C library routines the program calls (glibc, LP64) -/

/-- The C library `isspace` in the C locale. -/
def isspace (c : Char) : Bool :=
  c == ' ' || c == '\t' || c == '\n' || c == '\x0b' || c == '\x0c' || c == '\r'

/-- Drops leading white space. -/
def skip_space : List Char → List Char
  | [] => []
  | c :: cs => if isspace c then skip_space cs else c :: cs

/-- The value of a digit character, letters counting from ten. -/
def digit_val (c : Char) : Option Nat :=
  if '0' ≤ c ∧ c ≤ '9' then some (c.toNat - 48)
  else if 'a' ≤ c ∧ c ≤ 'f' then some (c.toNat - 87)
  else if 'A' ≤ c ∧ c ≤ 'F' then some (c.toNat - 55)
  else none

/-- Reads the longest run of digits of the given base: `acc` is the value read so far and
`n` the number of digits read so far; returns the value, the digit count and the unread
input. -/
def scan_digits (base : Nat) : List Char → Nat → Nat → Nat × Nat × List Char
  | [], acc, n => (acc, n, [])
  | c :: cs, acc, n =>
    match digit_val c with
    | some d => if d < base then scan_digits base cs (acc * base + d) (n + 1) else (acc, n, c :: cs)
    | none => (acc, n, c :: cs)

/-- Splits an optional sign off the input: the flag is `true` for a minus sign. -/
def scan_sign : List Char → Bool × List Char
  | [] => (false, [])
  | c :: cs => if c == '-' then (true, cs) else if c == '+' then (false, cs) else (false, c :: cs)

/-- Stores a digit string value with its sign into an `int`, through a saturated `long`. -/
def store_int (neg : Bool) (v : Nat) : Int :=
  wrap32 (sat_long (if neg then -(v : Int) else (v : Int)))

/-- The conversion `%i` of `sscanf`: white space is skipped, then an optional sign, then a
number whose base follows its prefix (`0x` hexadecimal, `0` octal, decimal otherwise).
Returns the stored `int` and the unread input, or `none` when no digit was read. -/
def scan_i (s : List Char) : Option (Int × List Char) :=
  match skip_space s with
  | [] => none
  | c :: cs =>
    let (neg, s2) := scan_sign (c :: cs)
    match s2 with
    | [] => none
    | z :: t =>
      if z == '0' then
        match t with
        | [] => some (0, [])
        | x :: u =>
          if x == 'x' || x == 'X' then
            let (v, _, rest) := scan_digits 16 u 0 1
            some (store_int neg v, rest)
          else
            let (v, _, rest) := scan_digits 8 (x :: u) 0 1
            some (store_int neg v, rest)
      else
        let (v, n, rest) := scan_digits 10 (z :: t) 0 0
        if n = 0 then none else some (store_int neg v, rest)

/-- The C library `atoi`: `(int) strtol (s, NULL, 10)`. -/
def atoi (s : List Char) : Int :=
  let (neg, s2) := scan_sign (skip_space s)
  let (v, _, _) := scan_digits 10 s2 0 0
  store_int neg v

/-- A directive of a `sscanf` format string: a literal character, white space, `%%`, `%c`,
`%i`, the scan set `%[^"]` and `%Nc` with a field width `N`. -/
inductive Directive where
  | lit (c : Char)
  | space
  | percent
  | conv_c
  | conv_i
  | conv_not_quote
  | conv_chars (n : Nat)
deriving DecidableEq, Repr

/-- A value assigned by a `sscanf` conversion.  For `%Nc` it is the characters stored, which
no terminator follows. -/
inductive ScanVal where
  | chr (c : Char)
  | int (v : Int)
  | str (s : List Char)
deriving DecidableEq, Repr

/-- The longest run of characters other than the double quote at the start of the input,
and the input after it. -/
def span_not_quote : List Char → List Char × List Char
  | [] => ([], [])
  | c :: cs =>
    if c == '"' then ([], c :: cs)
    else ((c :: (span_not_quote cs).1), (span_not_quote cs).2)

/-- The C library `sscanf` on a format given as a list of directives: returns the values
assigned, in order, up to the first directive that fails.  The C return value, when
positive, is the length of this list. -/
def sscanf : List Directive → List Char → List ScanVal
  | [], _ => []
  | Directive.lit c :: fmt, s =>
    match s with
    | [] => []
    | x :: xs => if x == c then sscanf fmt xs else []
  | Directive.space :: fmt, s => sscanf fmt (skip_space s)
  | Directive.percent :: fmt, s =>
    match skip_space s with
    | [] => []
    | x :: xs => if x == '%' then sscanf fmt xs else []
  | Directive.conv_c :: fmt, s =>
    match s with
    | [] => []
    | x :: xs => ScanVal.chr x :: sscanf fmt xs
  | Directive.conv_i :: fmt, s =>
    match scan_i s with
    | none => []
    | some (v, rest) => ScanVal.int v :: sscanf fmt rest
  | Directive.conv_not_quote :: fmt, s =>
    if (span_not_quote s).1.isEmpty then []
    else ScanVal.str (span_not_quote s).1 :: sscanf fmt (span_not_quote s).2
  | Directive.conv_chars n :: fmt, s =>
    if s.isEmpty then [] else ScanVal.str (s.take n) :: sscanf fmt (s.drop n)

/-! ## MIDI to OSC translation: `expand_int32` (lines 600-657) -/

/-- The format `"%%%c [%i,%i] [%i,%i]"` of line 609. -/
def fmt_c_target_source : List Directive :=
  [Directive.percent, Directive.conv_c, Directive.space,
   Directive.lit '[', Directive.conv_i, Directive.lit ',', Directive.conv_i, Directive.lit ']',
   Directive.space,
   Directive.lit '[', Directive.conv_i, Directive.lit ',', Directive.conv_i, Directive.lit ']']

/-- The format `"%%%c [%i,%i]"` of line 611. -/
def fmt_c_target : List Directive :=
  [Directive.percent, Directive.conv_c, Directive.space,
   Directive.lit '[', Directive.conv_i, Directive.lit ',', Directive.conv_i, Directive.lit ']']

/-- The format `"%%%c"` of line 614. -/
def fmt_c : List Directive := [Directive.percent, Directive.conv_c]

/-- The variables `x`, `target[2]` and `source[2]` of `expand_int32` after lines 606-622. -/
structure IntExpr where
  x : Char
  t0 : Int
  t1 : Int
  s0 : Int
  s1 : Int
deriving DecidableEq, Repr

/-- The `sscanf` cascade of lines 609-622: `none` is the `Invalid expression` branch. -/
def scan_int_expr (tpl : List Char) : Option IntExpr :=
  match sscanf fmt_c_target_source tpl with
  | [ScanVal.chr x, ScanVal.int t0, ScanVal.int t1, ScanVal.int s0, ScanVal.int s1] =>
    some ⟨x, t0, t1, s0, s1⟩
  | _ =>
    match sscanf fmt_c_target tpl with
    | [ScanVal.chr x, ScanVal.int t0, ScanVal.int t1] => some ⟨x, t0, t1, 0, 0x7f⟩
    | _ =>
      match sscanf fmt_c tpl with
      | [ScanVal.chr x] => some ⟨x, 0, 0x7f, 0, 0x7f⟩
      | _ => none

/-- The `switch (x)` of lines 630-651: `none` is the `default` branch. -/
def select_field (x : Char) (m : MidiMessage) : Option Int :=
  if x == '0' then some ((m.d.get 0 &&& 0xff : Nat) : Int)
  else if x == '1' then some ((m.d.get 1 &&& 0x7f : Nat) : Int)
  else if x == '2' then some ((m.d.get 2 &&& 0x7f : Nat) : Int)
  else if x == 'c' then some ((m.d.get 0 &&& 0x0f : Nat) : Int)
  else if x == 's' then some ((m.d.get 0 &&& 0xf0 : Nat) : Int)
  else none

/-- The function `expand_int32`. -/
def expand_int32 (tpl : List Char) (m : MidiMessage) : Except Fault Int :=
  match tpl with
  | [] => Except.error Fault.assert_failed
  | c0 :: _ =>
    if c0 != '%' then Except.ok (atoi tpl)
    else
      match scan_int_expr tpl with
      | none => Except.ok 0
      | some e =>
        if e.s0 ≥ e.s1 ∨ e.s0 < 0 ∨ e.s1 > 0x7f then Except.ok 0
        else
          match select_field e.x m with
          | none => Except.ok 0
          | some val =>
            if val ≤ e.s0 then Except.ok e.t0
            else if val ≥ e.s1 then Except.ok e.t1
            else
              match c_div (wrap32 (wrap32 (val - e.s0) * wrap32 (e.t1 - e.t0)))
                      (wrap32 (e.t1 - e.t0)) with
              | Except.error f => Except.error f
              | Except.ok q => Except.ok (wrap32 (e.t0 + q))

/-! ## MIDI to OSC translation: `expand_float` and `expand_and_send` (lines 659-762) -/

/-- The `float` that `expand_float (tpl, m)` returns.  Single precision arithmetic is not
modelled: the value is kept as the call that produces it. -/
structure FloatExpr where
  tpl : List Char
  m : MidiMessage
deriving DecidableEq, Repr

/-- The function `expand_float`, up to the assertion of line 660; the value it computes is
kept symbolic. -/
def expand_float (tpl : List Char) (m : MidiMessage) : Except Fault FloatExpr :=
  match tpl with
  | [] => Except.error Fault.assert_failed
  | _ :: _ => Except.ok ⟨tpl, m⟩

/-- An argument of an OSC message under construction. -/
inductive OscArg where
  | int32 (v : Int)
  | float (v : FloatExpr)
  | string (s : List Char)
deriving DecidableEq, Repr

/-- A message handed to `lo_send_message`: the address and the arguments. -/
structure OscMsg where
  path : List Char
  args : List OscArg
deriving DecidableEq, Repr

/-- The outcomes of the liblo calls that can fail for lack of memory, as the environment
decides them: `message_new i` tells whether `lo_message_new` returns a message for the
template with index `i`, and `message_add i c` is the value the `lo_message_add_*` call
for parameter `c` of that template returns (0 on success). -/
structure LoEnv where
  message_new : Nat → Bool
  message_add : Nat → Nat → Int

/-- Reads `param[c]` as a C string: a NULL array or a NULL entry cannot be read. -/
def param_at (param : List (Option (List Char))) (c : Nat) : Option (List Char) :=
  match param[c]? with
  | some (some p) => some p
  | _ => none

/-- The loop of lines 729-745 over the descriptor characters still to be visited, `c`
being the index of the first of them.  `err` tells whether the C variable `err` is non-zero
and `args` holds the arguments added to the message so far. -/
def add_params (lo : LoEnv) (i : Nat) (param : List (Option (List Char))) (m : MidiMessage) :
    List Char → Nat → Bool → List OscArg → Except Fault (Bool × List OscArg)
  | [], _, err, args => Except.ok (err, args)
  | ch :: rest, c, err, args =>
    if ch == 'i' then
      match param_at param c with
      | none => Except.error Fault.null_deref
      | some tpl =>
        match expand_int32 tpl m with
        | Except.error f => Except.error f
        | Except.ok v =>
          if lo.message_add i c = 0 then
            add_params lo i param m rest (c + 1) err (args ++ [OscArg.int32 v])
          else add_params lo i param m rest (c + 1) true args
    else if ch == 'f' then
      match param_at param c with
      | none => Except.error Fault.null_deref
      | some tpl =>
        match expand_float tpl m with
        | Except.error f => Except.error f
        | Except.ok v =>
          if lo.message_add i c = 0 then
            add_params lo i param m rest (c + 1) err (args ++ [OscArg.float v])
          else add_params lo i param m rest (c + 1) true args
    else if ch == 's' then
      match param_at param c with
      | none => Except.error Fault.null_deref
      | some p =>
        if lo.message_add i c = 0 then
          add_params lo i param m rest (c + 1) err (args ++ [OscArg.string p])
        else add_params lo i param m rest (c + 1) true args
    else add_params lo i param m rest (c + 1) true args

/-- The loop of lines 721-761 with `n` templates still to be visited, `i` being the index
of the first of them.  Returns the messages handed to `lo_send_message`, in order, and the
fault that stopped the run, if any. -/
def expand_and_send_loop (lo : LoEnv) (r : Rule) (m : MidiMessage) :
    Nat → Nat → List OscMsg → List OscMsg × Option Fault
  | 0, _, sent => (sent, none)
  | n + 1, i, sent =>
    if lo.message_new i = false then expand_and_send_loop lo r m n (i + 1) sent
    else
      match r.msg[i]? with
      | none => (sent, some Fault.out_of_bounds)
      | some t =>
        match add_params lo i t.param m t.desc 0 false [] with
        | Except.error f => (sent, some f)
        | Except.ok (err, args) =>
          if err then expand_and_send_loop lo r m n (i + 1) sent
          else expand_and_send_loop lo r m n (i + 1) (sent ++ [⟨t.path, args⟩])

/-- The function `expand_and_send`: the messages it hands to `lo_send_message`, in order,
and the fault that stopped it, if any.  The value `lo_send_message` returns only selects a
diagnostic. -/
def expand_and_send (lo : LoEnv) (r : Rule) (m : MidiMessage) : List OscMsg × Option Fault :=
  expand_and_send_loop lo r m r.message_count 0 []

/-- The loop of lines 1035-1048 of `main` with `n` rules still to be visited, `j` being the
index of the first of them.  `fired` lists the indices of the rules handed to
`expand_and_send` so far and `sent` the messages handed to the transport so far. -/
def match_rules_loop (lo : LoEnv) (rules : List Rule) (mmsg : MidiMessage) :
    Nat → Nat → List Nat → List OscMsg → List Nat × List OscMsg × Option Fault
  | 0, _, fired, sent => (fired, sent, none)
  | n + 1, j, fired, sent =>
    match rules[j]? with
    | none => (fired, sent, some Fault.out_of_bounds)
    | some r =>
      if rule_matches r mmsg then
        match expand_and_send lo r mmsg with
        | (out, some f) => (fired ++ [j], sent ++ out, some f)
        | (out, none) => match_rules_loop lo rules mmsg n (j + 1) (fired ++ [j]) (sent ++ out)
      else match_rules_loop lo rules mmsg n (j + 1) fired sent

/-- Lines 1035-1048 of `main`: every rule of the table is tried on the event. -/
def match_rules (lo : LoEnv) (rules : List Rule) (rule_count : Nat) (mmsg : MidiMessage) :
    List Nat × List OscMsg × Option Fault :=
  match_rules_loop lo rules mmsg rule_count 0 [] []

/-! ## Configuration: `new_rule` (lines 350-421) -/

/-- The C library `tolower` in the C locale. -/
def tolower (c : Char) : Char :=
  if 'A' ≤ c ∧ c ≤ 'Z' then Char.ofNat (c.toNat + 32) else c

/-- Tells whether the C library `strcasecmp` returns 0 on the two strings. -/
def strcasecmp_eq (a b : List Char) : Bool :=
  a.map tolower == b.map tolower

/-- The tokens that successive calls of `strtok (s, " ")`, `strtok (NULL, " ")`, ... return:
the maximal runs of characters other than the space.  `cur` holds the characters of the
token being read. -/
def strtok_all : List Char → List Char → List (List Char)
  | [], cur => if cur.isEmpty then [] else [cur]
  | c :: cs, cur =>
    if c == ' ' then
      if cur.isEmpty then strtok_all cs [] else cur :: strtok_all cs []
    else strtok_all cs (cur ++ [c])

/-- The format `"%i/%i"` of line 400. -/
def fmt_i_slash_i : List Directive := [Directive.conv_i, Directive.lit '/', Directive.conv_i]

/-- The format `"%i"` of line 403. -/
def fmt_i : List Directive := [Directive.conv_i]

/-- The value `p & 0xff` of an `int` as stored into a `uint8_t`. -/
def low_byte (p : Int) : Nat := (p % 256).toNat

/-- The `if` chain of lines 372-410 on the token `prt` with field index `i`: the
`(mask, match)` pair stored, or `none` in the branch `Failed to parse rule filter`. -/
def parse_field (i : Nat) (prt : List Char) : Option (Nat × Nat) :=
  if strcasecmp_eq prt "ANY".toList then some (0x00, 0x00)
  else if i = 0 ∧ strcasecmp_eq prt "NOTE".toList then some (0xe0, 0x80)
  else if i = 0 ∧ strcasecmp_eq prt "NOTEOFF".toList then some (0xf0, 0x80)
  else if i = 0 ∧ strcasecmp_eq prt "NOTEON".toList then some (0xf0, 0x90)
  else if i = 0 ∧ strcasecmp_eq prt "KeyPressure".toList then some (0xf0, 0xa0)
  else if i = 0 ∧ strcasecmp_eq prt "CC".toList then some (0xf0, 0xb0)
  else if i = 0 ∧ strcasecmp_eq prt "PGM".toList then some (0xf0, 0xc0)
  else if i = 0 ∧ strcasecmp_eq prt "ChanPressure".toList then some (0xf0, 0xd0)
  else if i = 0 ∧ strcasecmp_eq prt "Pitch".toList then some (0xf0, 0xe0)
  else if i = 0 ∧ strcasecmp_eq prt "Pos".toList then some (0xff, 0xf2)
  else if i = 0 ∧ strcasecmp_eq prt "Song".toList then some (0xff, 0xf3)
  else if i = 0 ∧ strcasecmp_eq prt "Start".toList then some (0xff, 0xfa)
  else if i = 0 ∧ strcasecmp_eq prt "Cont".toList then some (0xff, 0xfb)
  else if i = 0 ∧ strcasecmp_eq prt "Stop".toList then some (0xff, 0xfc)
  else
    match sscanf fmt_i_slash_i prt with
    | [ScanVal.int p0, ScanVal.int p1] => some (low_byte p1, low_byte p0)
    | _ =>
      match sscanf fmt_i prt with
      | [ScanVal.int p0] => some (if i = 0 then 0xff else 0x7f, low_byte p0)
      | _ => none

/-- The `for` loop of lines 367-411 over the tokens still to be read, `i` being the value
of the C variable `i` on entry.  Returns the final `i` (-1 after a `break`) and the rule. -/
def new_rule_loop : List (List Char) → Nat → Rule → Int × Rule
  | [], i, r => ((i : Int), r)
  | prt :: rest, i, r =>
    if i ≥ 3 then (-1, r)
    else
      match parse_field i prt with
      | some (mk, mt) =>
        new_rule_loop rest (i + 1) { r with mask := r.mask.set i mk, match_ := r.match_.set i mt }
      | none => (-1, r)

/-- The globals `rules` and `rule_count`.  The list holds the allocated slots, of which the
first `rule_count` are live. -/
structure RuleTable where
  rules : List Rule
  rule_count : Nat
deriving DecidableEq, Repr

/-- A `Rule` slot after `memset (r, 0, sizeof (Rule))`. -/
def zero_rule : Rule := ⟨⟨0, 0, 0⟩, ⟨0, 0, 0⟩, 0, 0, []⟩

/-- The function `new_rule`, `realloc` succeeding: the index of the new rule in the table
(`none` for the NULL result) and the table after the call. -/
def new_rule (flt : List Char) (tbl : RuleTable) : Option Nat × RuleTable :=
  let rc := tbl.rule_count
  let (i, r) := new_rule_loop (strtok_all flt []) 0 zero_rule
  let slots := tbl.rules.take rc ++ [r]
  if i < 1 ∨ i > 3 then (none, ⟨slots, rc⟩)
  else (some rc, ⟨tbl.rules.take rc ++ [{ r with len := i.toNat }], rc + 1⟩)

/-! ## The handoff queue and `process_jmidi_event` (lines 114-145) -/

/-- The value of `sizeof (MidiMessage)`: a 32-bit time stamp and four bytes. -/
def sizeof_MidiMessage : Nat := 8

/-- The macro `RINGBUF_SIZE`. -/
def RINGBUF_SIZE : Nat := 64

/-- A JACK ring buffer that is written and read in whole `MidiMessage` records, as this
program does: `space` is the number of bytes that can be written into the empty buffer and
`content` holds the stored records, oldest first. -/
structure RingBuffer where
  space : Nat
  content : List MidiMessage
deriving DecidableEq, Repr

/-- The JACK call `jack_ringbuffer_write_space`. -/
def jack_ringbuffer_write_space (rb : RingBuffer) : Nat :=
  rb.space - sizeof_MidiMessage * rb.content.length

/-- The JACK call `jack_ringbuffer_read_space`. -/
def jack_ringbuffer_read_space (rb : RingBuffer) : Nat :=
  sizeof_MidiMessage * rb.content.length

/-- The JACK call `jack_ringbuffer_write` of one record, made when the write space holds
it. -/
def jack_ringbuffer_write (rb : RingBuffer) (mmsg : MidiMessage) : RingBuffer :=
  { rb with content := rb.content ++ [mmsg] }

/-- The JACK call `jack_ringbuffer_read` of one record: the record read (`none` when the
buffer is empty and the destination is left as it was) and the buffer after the call. -/
def jack_ringbuffer_read (rb : RingBuffer) : Option MidiMessage × RingBuffer :=
  match rb.content with
  | [] => (none, rb)
  | mmsg :: rest => (some mmsg, { rb with content := rest })

/-- The smallest power of two, from 2 on, that is at least `sz`: the loop of
`jack_ringbuffer_create`, `fuel` bounding its iterations. -/
def pow2_at_least (sz : Nat) : Nat → Nat → Nat
  | 0, p => p
  | fuel + 1, p => if p < sz then pow2_at_least sz fuel (2 * p) else p

/-- The JACK call `jack_ringbuffer_create`: the size is rounded up to a power of two and
one byte of it is never written. -/
def jack_ringbuffer_create (sz : Nat) : RingBuffer :=
  ⟨pow2_at_least sz sz 2 - 1, []⟩

/-- The struct `jack_midi_event_t`: the offset `time` in the cycle, the `size` of the
event and the bytes of its `buffer`. -/
structure jack_midi_event_t where
  time : Nat
  size : Nat
  buffer : List Nat
deriving DecidableEq, Repr

/-- The globals written by the realtime thread: the ring buffer `rb` and the counter
`dropped_messages`. -/
structure Handoff where
  rb : RingBuffer
  dropped_messages : Int
deriving DecidableEq, Repr

/-- Reads `ev->buffer[k]` as a `uint8_t`. -/
def event_byte (ev : jack_midi_event_t) (k : Nat) : Nat := ev.buffer.getD k 0 % 256

/-- The function `process_jmidi_event`: the returned `int` and the globals after the
call. -/
def process_jmidi_event (ev : jack_midi_event_t) (tme : Nat) (h : Handoff) : Int × Handoff :=
  if ev.size < 1 ∨ ev.size > 3 then (0, h)
  else if jack_ringbuffer_write_space h.rb ≥ sizeof_MidiMessage then
    let mmsg : MidiMessage :=
      if ev.size = 1 then
        ⟨(tme + ev.time) % 4294967296, ⟨event_byte ev 0, 0, 0⟩, 1⟩
      else if ev.size = 2 then
        ⟨(tme + ev.time) % 4294967296, ⟨event_byte ev 0, event_byte ev 1, 0⟩, 2⟩
      else
        ⟨(tme + ev.time) % 4294967296, ⟨event_byte ev 0, event_byte ev 1, event_byte ev 2⟩, 3⟩
    (1, { h with rb := jack_ringbuffer_write h.rb mmsg })
  else (0, { h with dropped_messages := wrap32 (h.dropped_messages + 1) })

/-- The record that `process_jmidi_event` builds from an event of size 1 to 3. -/
def stored_record (ev : jack_midi_event_t) (tme : Nat) : MidiMessage :=
  ⟨(tme + ev.time) % 4294967296,
   ⟨event_byte ev 0, if 2 ≤ ev.size then event_byte ev 1 else 0,
    if 3 ≤ ev.size then event_byte ev 2 else 0⟩,
   ev.size⟩

/-- Calls `process_jmidi_event` on each event of a list in turn, each with its frame time,
and collects the returned values. -/
def push_all : List (jack_midi_event_t × Nat) → Handoff → List Int × Handoff
  | [], h => ([], h)
  | (ev, tme) :: evs, h =>
    let (w, h1) := process_jmidi_event ev tme h
    let (ws, h2) := push_all evs h1
    (w :: ws, h2)

/-! ## The consumer loop of `main` (lines 998-1054) and its environment -/

/-- The values of the global `run`. -/
inductive RunState where
  | Terminate
  | Starting
  | Running
deriving DecidableEq, Repr

/-- The values of the global `sync_mode`. -/
inductive SyncMode where
  | SyncImmediate
  | SyncRelative
  | SyncAbsolute
deriving DecidableEq, Repr

/-- What the consumer loop reads and never writes: the liblo environment, the rule table,
the sync mode, the frame count `ceil (0.0005 * samplerate)` (floating point, taken as
given) and the bytes found in an uninitialised `mmsg`. -/
structure Setup where
  lo : LoEnv
  rules : List Rule
  rule_count : Nat
  sync_mode : SyncMode
  half_ms_frames : Nat
  garbage : MidiMessage

/-- The constant `deadzone` of line 1000. -/
def Setup.deadzone (cfg : Setup) : Nat :=
  if cfg.sync_mode = SyncMode.SyncImmediate then 0 else cfg.half_ms_frames % 4294967296

/-- The places of the consumer loop between which the other threads can act.  `i` and
`mqlen` are the variables of the `for` loop, `mmsg` the record read and `now` the last
reading of the frame clock. -/
inductive Pc where
  | while_test
  | for_test (i mqlen : Nat)
  | delay_test (i mqlen : Nat) (mmsg : MidiMessage) (now : Nat)
  | after_delay (i mqlen : Nat) (mmsg : MidiMessage) (now : Nat)
  | rules (i mqlen : Nat) (mmsg : MidiMessage) (now : Option Nat)
  | cond_wait
  | exited
  | crashed (f : Fault)
deriving DecidableEq, Repr

/-- A record handed to rule matching, with the last reading of the frame clock taken for
it (`none` when the clock was not read). -/
structure Dispatch where
  mmsg : MidiMessage
  now : Option Nat
deriving DecidableEq, Repr

/-- The state of the running program.  `enqueued`, `dispatched` and `sent` are histories:
the records written to the ring buffer, the records handed to rule matching and the
messages handed to the transport, each in order of occurrence. -/
structure State where
  run : RunState
  j_client : Bool
  handoff : Handoff
  pc : Pc
  enqueued : List MidiMessage
  dispatched : List Dispatch
  sent : List OscMsg
deriving DecidableEq, Repr

/-- What can happen next: the signal handler `wearedone` runs, `jack_shutdown` runs, the
realtime thread makes one call of `process_jmidi_event`, the condition variable wakes the
consumer, or the consumer advances to its next place, `now` being what `jack_frame_time`
returns if it is called on the way. -/
inductive Input where
  | signal
  | shutdown
  | midi (ev : jack_midi_event_t) (tme : Nat)
  | wakeup
  | consumer (now : Nat)
deriving DecidableEq, Repr

/-- The return of `pthread_cond_wait`. -/
def wake (s : State) : State :=
  match s.pc with
  | Pc.cond_wait => { s with pc := Pc.while_test }
  | _ => s

/-- One advance of the consumer loop from its current place. -/
def consumer_step (cfg : Setup) (now : Nat) (s : State) : State :=
  match s.pc with
  | Pc.while_test =>
    if s.run ≠ RunState.Terminate ∧ s.j_client = true then
      { s with pc := Pc.for_test 0 (jack_ringbuffer_read_space s.handoff.rb / sizeof_MidiMessage) }
    else { s with pc := Pc.exited }
  | Pc.for_test i mqlen =>
    if i < mqlen then
      let (got, rb) := jack_ringbuffer_read s.handoff.rb
      let mmsg := got.getD cfg.garbage
      if cfg.deadzone > 0 then
        { s with handoff := { s.handoff with rb := rb },
                 pc := Pc.delay_test i mqlen mmsg (now % 4294967296) }
      else
        { s with handoff := { s.handoff with rb := rb }, pc := Pc.rules i mqlen mmsg none }
    else { s with pc := Pc.cond_wait }
  | Pc.delay_test i mqlen mmsg t =>
    if s.run ≠ RunState.Terminate ∧ s.j_client = true
        ∧ t < (mmsg.tme + cfg.deadzone) % 4294967296 then
      if (mmsg.tme &&& 0x8000000) ^^^ (t &&& 0x8000000) ≠ 0 then
        { s with pc := Pc.after_delay i mqlen mmsg t }
      else { s with pc := Pc.delay_test i mqlen mmsg (now % 4294967296) }
    else { s with pc := Pc.after_delay i mqlen mmsg t }
  | Pc.after_delay i mqlen mmsg t =>
    if s.run = RunState.Terminate then { s with pc := Pc.cond_wait }
    else { s with pc := Pc.rules i mqlen mmsg (some t) }
  | Pc.rules i mqlen mmsg t =>
    match match_rules cfg.lo cfg.rules cfg.rule_count mmsg with
    | (_, out, some f) =>
      { s with dispatched := s.dispatched ++ [⟨mmsg, t⟩], sent := s.sent ++ out,
               pc := Pc.crashed f }
    | (_, out, none) =>
      { s with dispatched := s.dispatched ++ [⟨mmsg, t⟩], sent := s.sent ++ out,
               pc := Pc.for_test (i + 1) mqlen }
  | Pc.cond_wait => s
  | Pc.exited => s
  | Pc.crashed _ => s

/-- The effect of one input on the state. -/
def step (cfg : Setup) (s : State) : Input → State
  | Input.signal => wake { s with run := RunState.Terminate }
  | Input.shutdown => wake { s with j_client := false }
  | Input.midi ev tme =>
    let h := (process_jmidi_event ev tme s.handoff).2
    { s with handoff := h,
             enqueued := s.enqueued ++ h.rb.content.drop s.handoff.rb.content.length }
  | Input.wakeup => wake s
  | Input.consumer now => consumer_step cfg now s

/-- The state after a sequence of inputs. -/
def run_inputs (cfg : Setup) : List Input → State → State
  | [], s => s
  | inp :: rest, s => run_inputs cfg rest (step cfg s inp)

/-- The state in which `main` enters its loop at line 1007. -/
def init_state : State :=
  { run := RunState.Running, j_client := true,
    handoff := ⟨jack_ringbuffer_create (RINGBUF_SIZE * sizeof_MidiMessage), 0⟩,
    pc := Pc.while_test, enqueued := [], dispatched := [], sent := [] }

/-- The records handed to rule matching so far, in order. -/
def State.dispatched_events (s : State) : List MidiMessage := s.dispatched.map Dispatch.mmsg

/-! ## The JACK process callback `process` (lines 148-173) -/

/-- The constant `frametime` of line 151: the sum is formed in `jack_nframes_t`. -/
def frametime (sync_mode : SyncMode) (nframes last_frame_time : Nat) : Nat :=
  (last_frame_time + (if sync_mode = SyncMode.SyncRelative then nframes else 0)) % 4294967296

/-- The loop of lines 158-162 over the events of the port buffer still to be visited.
`wakeup` tells whether the C variable `wakeup` is non-zero. -/
def process_loop (tme : Nat) : List jack_midi_event_t → Bool → Handoff → Bool × Handoff
  | [], wakeup, h => (wakeup, h)
  | ev :: evs, wakeup, h =>
    let res := process_jmidi_event ev tme h
    process_loop tme evs (wakeup || res.1 != 0) res.2

/-- The function `process` on a cycle of `nframes` frames that starts at frame
`last_frame_time` and whose port buffer holds `events`: tells whether the callback goes on
to signal `data_ready` and gives the globals after the call. -/
def process (run : RunState) (sync_mode : SyncMode) (nframes last_frame_time : Nat)
    (events : List jack_midi_event_t) (h : Handoff) : Bool × Handoff :=
  if run ≠ RunState.Running then (false, h)
  else process_loop (frametime sync_mode nframes last_frame_time) events false h

/-! ## Configuration: `append_osc_message` (lines 289-348) -/

/-- The size of the array `path` of an `OSCMessageTemplate`. -/
def PATH_SIZE : Nat := 1024

/-- The size of the array `desc` of an `OSCMessageTemplate`. -/
def DESC_SIZE : Nat := 16

/-- The loop of line 318: advances to the next double quote or to the end. -/
def skip_to_quote : List Char → List Char
  | [] => []
  | c :: cs => if c == '"' then c :: cs else skip_to_quote cs

/-- The loop of line 322: advances over blanks. -/
def skip_blanks : List Char → List Char
  | [] => []
  | c :: cs => if c == ' ' then skip_blanks cs else c :: cs

/-- The call `strchr (t0, '"')` of line 325: the characters before the first double quote
and the text after that quote, or `none` when there is no double quote. -/
def until_quote : List Char → Option (List Char × List Char)
  | [] => none
  | c :: cs =>
    if c == '"' then some ([], cs)
    else
      match until_quote cs with
      | some (p, rest) => some (c :: p, rest)
      | none => none

/-- The loop of lines 315-336 over the descriptor characters still to be served, `t0` being
the text still to be read: the parameter strings stored, in order, and whether the loop
ran to its end (`j == pl`). -/
def scan_params : List Char → List Char → List (List Char) × Bool
  | [], _ => ([], true)
  | ch :: rest, t0 =>
    match skip_to_quote t0 with
    | [] => ([], false)
    | _ :: t1 =>
      match (if ch != 's' then skip_blanks t1 else t1) with
      | [] => ([], false)
      | c2 :: t2 =>
        match until_quote (c2 :: t2) with
        | none => ([], false)
        | some (p, t3) =>
          if p.isEmpty ∧ ch != 's' then ([], false)
          else (p :: (scan_params rest t3).1, (scan_params rest t3).2)

/-- The function `append_osc_message`, `realloc` and `calloc` succeeding: the returned
`int` and the rule after the call.  `strncpy` keeps at most `PATH_SIZE` and `DESC_SIZE`
characters, and leaves the array without terminator when that many are kept.  After a
failure the slot is not live and what its `param` points to has been freed. -/
def append_osc_message (r : Rule) (path desc param : List Char) : Int × Rule :=
  let mi := r.message_count
  let pl := desc.length
  if pl = 0 then
    (0, { r with message_count := mi + 1,
                 msg := r.msg.take mi ++ [⟨path.take PATH_SIZE, desc.take DESC_SIZE, []⟩] })
  else
    let res := scan_params desc param
    let arr := res.1.map some ++ List.replicate (pl - res.1.length) none
    if res.2 then
      (0, { r with message_count := mi + 1,
                   msg := r.msg.take mi ++ [⟨path.take PATH_SIZE, desc.take DESC_SIZE, arr⟩] })
    else
      (-1, { r with message_count := mi,
                    msg := r.msg.take mi ++ [⟨path.take PATH_SIZE, desc.take DESC_SIZE, arr⟩] })

/-- Calls `append_osc_message` on each `(path, desc, param)` of a list in turn. -/
def append_all : List (List Char × List Char × List Char) → Rule → Rule
  | [], r => r
  | (path, desc, param) :: calls, r => append_all calls (append_osc_message r path desc param).2

/-! ## Configuration: `read_config` (lines 450-547) -/

/-- The macro `MAX_CFG_LINE_LEN`. -/
def MAX_CFG_LINE_LEN : Nat := 1024

/-- The format of line 501: a quoted address, a quoted descriptor and up to 1023 characters
of parameters. -/
def fmt_message : List Directive :=
  [Directive.lit '"', Directive.conv_not_quote, Directive.lit '"', Directive.space,
   Directive.lit '"', Directive.conv_not_quote, Directive.lit '"', Directive.space,
   Directive.conv_chars 1023]

/-- The format of line 506: a quoted address and an empty pair of quotes. -/
def fmt_message_empty : List Directive :=
  [Directive.lit '"', Directive.conv_not_quote, Directive.lit '"', Directive.space,
   Directive.lit '"', Directive.lit '"']

/-- Tells whether a `sscanf` of `fmt_message` has stored more characters into `a` or `b`
than the arrays `a[1024]` and `b[16]` hold with their terminator. -/
def overruns (vals : List ScanVal) : Bool :=
  match vals with
  | ScanVal.str a :: ScanVal.str b :: _ => decide (1024 ≤ a.length) || decide (16 ≤ b.length)
  | ScanVal.str a :: _ => decide (1024 ≤ a.length)
  | _ => false

/-- The branch of lines 497-513 on a line inside a rule.  The array `c` is filled by
`%1023c` without terminator; `junk` stands for the characters that follow in it what was
stored, up to the first zero byte.  The value `append_osc_message` returns only selects a
diagnostic. -/
def rule_message_line (junk : List Char) (line : List Char) (r : Rule) : Except Fault Rule :=
  if overruns (sscanf fmt_message line) then Except.error Fault.out_of_bounds
  else
    match sscanf fmt_message line with
    | [ScanVal.str a, ScanVal.str b, ScanVal.str c] =>
      Except.ok (append_osc_message r a b (c ++ junk)).2
    | _ =>
      match sscanf fmt_message_empty line with
      | [ScanVal.str a] => Except.ok (append_osc_message r a [] []).2
      | _ => Except.ok r

/-- The values of the variable `parser_state` of `read_config`. -/
inductive ParserState where
  | NoRule
  | StartRule
  | InRule
  | InConfig
deriving DecidableEq, Repr

/-- The variables of `read_config` and the globals it writes: the rule table, the pointer
`r` as an index into the table, `parser_state`, `rv` and `lineno`.  The lines met under
`[config]` go to lines 523-532, which set `osc_dest`, `j_connect` and `sync_mode` and leave
the rules alone; they are collected in `settings`. -/
structure Parser where
  tbl : RuleTable
  r : Option Nat
  parser_state : ParserState
  settings : List (List Char)
  rv : Int
  lineno : Nat
deriving DecidableEq, Repr

/-- The chunks that successive calls `fgets (line, MAX_CFG_LINE_LEN - 1, f)` return on a
file without zero byte: each ends after a newline or after 1022 characters.  `cur` holds
the characters of the chunk being read. -/
def fgets_all : List Char → List Char → List (List Char)
  | [], cur => if cur.isEmpty then [] else [cur]
  | c :: cs, cur =>
    if c == '\n' ∨ cur.length + 1 = MAX_CFG_LINE_LEN - 2 then (cur ++ [c]) :: fgets_all cs []
    else fgets_all cs (cur ++ [c])

/-- The loop of lines 475-477: removes newlines, carriage returns, blanks and tabs from the
end of the line. -/
def rtrim (line : List Char) : List Char :=
  (line.reverse.dropWhile (fun c => c == '\n' || c == '\r' || c == ' ' || c == '\t')).reverse

/-- The body of the loop of lines 467-536 on one chunk, `lineno` already counted. -/
def read_config_line (junk : List Char) (raw : List Char) (st : Parser) : Except Fault Parser :=
  if raw.length = MAX_CFG_LINE_LEN - 1 then Except.ok st
  else
    let line := rtrim raw
    if line.isEmpty ∨ line.head? = some '#' then Except.ok st
    else if line = "[config]".toList then
      if st.parser_state = ParserState.StartRule then Except.ok { st with rv := -1 }
      else Except.ok { st with parser_state := ParserState.InConfig }
    else if line = "[rule]".toList then
      if st.parser_state = ParserState.StartRule then Except.ok { st with rv := -1 }
      else Except.ok { st with parser_state := ParserState.StartRule }
    else if st.parser_state = ParserState.InRule then
      match st.r with
      | none => Except.error Fault.assert_failed
      | some idx =>
        match st.tbl.rules[idx]? with
        | none => Except.error Fault.out_of_bounds
        | some r =>
          match rule_message_line junk line r with
          | Except.error f => Except.error f
          | Except.ok r2 =>
            Except.ok { st with tbl := { st.tbl with rules := st.tbl.rules.set idx r2 } }
    else if st.parser_state = ParserState.StartRule then
      match new_rule line st.tbl with
      | (some idx, tbl) =>
        Except.ok { st with tbl := tbl, r := some idx, parser_state := ParserState.InRule }
      | (none, tbl) =>
        Except.ok { st with tbl := tbl, r := none, parser_state := ParserState.NoRule }
    else if st.parser_state = ParserState.InConfig then
      Except.ok { st with settings := st.settings ++ [line] }
    else Except.ok st

/-- The loop of lines 467-536 over the chunks still to be read; `junk n` stands for the
characters left in the array `c` at line `n`. -/
def read_config_loop (junk : Nat → List Char) : List (List Char) → Parser → Except Fault Parser
  | [], st => Except.ok st
  | raw :: rest, st =>
    match read_config_line (junk (st.lineno + 1)) raw { st with lineno := st.lineno + 1 } with
    | Except.error f => Except.error f
    | Except.ok st2 => if st2.rv ≠ 0 then Except.ok st2 else read_config_loop junk rest st2

/-- The function `read_config` on a file that opens and holds `text`, the rule table being
`tbl` on entry. -/
def read_config (junk : Nat → List Char) (text : List Char) (tbl : RuleTable) :
    Except Fault Parser :=
  read_config_loop junk (fgets_all text []) ⟨tbl, none, ParserState.NoRule, [], 0, 0⟩

/-! ## Configuration: `dump_cfg` (lines 549-594) -/

/-- The conversion `%02x` of `printf`: lower case hexadecimal digits, at least two. -/
def print_02x (v : Nat) : List Char :=
  if (Nat.toDigits 16 v).length < 2 then '0' :: Nat.toDigits 16 v else Nat.toDigits 16 v

/-- The output of `" 0x%02x/0x%02x"` without its leading blank. -/
def print_field (mt mk : Nat) : List Char :=
  "0x".toList ++ print_02x mt ++ "/0x".toList ++ print_02x mk

/-- The conversion `%s` of `printf` on `param[k]`; glibc prints `(null)` for NULL. -/
def print_param (param : List (Option (List Char))) (k : Nat) : List Char :=
  match param_at param k with
  | some p => p
  | none => "(null)".toList

/-- The output of lines 583-589 for one template. -/
def dump_template (t : OSCMessageTemplate) : List Char :=
  "\"".toList ++ t.path ++ "\" \"".toList ++ t.desc ++ "\"".toList
    ++ ((List.range t.desc.length).map
          (fun k => " \"".toList ++ print_param t.param k ++ "\"".toList)).flatten
    ++ "\n".toList

/-- The output of lines 568-591 for the rule with index `j`; the templates printed are the
live ones. -/
def dump_rule (j : Nat) (r : Rule) : List Char :=
  "# rule ".toList ++ Nat.toDigits 10 j ++ "\n".toList
    ++ "[rule]\n".toList ++ print_field (r.match_.get 0) (r.mask.get 0)
    ++ (if r.len > 1 then " ".toList ++ print_field (r.match_.get 1) (r.mask.get 1) else [])
    ++ (if r.len > 2 then " ".toList ++ print_field (r.match_.get 1) (r.mask.get 1) else [])
    ++ "\n".toList
    ++ ((r.msg.take r.message_count).map dump_template).flatten
    ++ "\n".toList

/-- The loop of lines 565-592 over the rules still to be printed, `j` being the index of
the first of them. -/
def dump_rules : Nat → List Rule → List Char
  | _, [] => []
  | j, r :: rest => dump_rule j r ++ dump_rules (j + 1) rest

/-- The function `dump_cfg`: the text it prints.  `osc` holds the host name and the port of
`osc_dest` as liblo reports them and `j_connect` the port name, each `none` for NULL; the
rules printed are the live ones. -/
def dump_cfg (osc : Option (List Char × List Char)) (j_connect : Option (List Char))
    (tbl : RuleTable) : List Char :=
  "\n# ----- CFG DUMP -----\n".toList ++ "[config]\n".toList
    ++ (match osc with
        | some (host, port) =>
          "# OSC destination\n".toList ++ "osc=".toList ++ host ++ ":".toList ++ port
            ++ "\n\n".toList
        | none => [])
    ++ (match j_connect with
        | some name =>
          "# auto-connect to jack-midi capture port\n".toList ++ "input=".toList ++ name
            ++ "\n\n".toList
        | none => [])
    ++ "\n".toList
    ++ dump_rules 0 (tbl.rules.take tbl.rule_count)
    ++ "# --------------------\n".toList

/-! ## Configuration: `parse_sync_mode` (lines 440-448) -/

/-- Tells whether `strncasecmp (a, b, n)` returns 0: the first `n` characters agree after
`tolower`, the comparison ending early where both strings end. -/
def strncasecmp_eq : List Char → List Char → Nat → Bool
  | _, _, 0 => true
  | [], [], _ + 1 => true
  | [], _ :: _, _ + 1 => false
  | _ :: _, [], _ + 1 => false
  | a :: as, b :: bs, n + 1 => tolower a == tolower b && strncasecmp_eq as bs n

/-- The function `parse_sync_mode`: the returned `int` and the global `sync_mode` after the
call, `none` being the NULL argument. -/
def parse_sync_mode (arg : Option (List Char)) (sync_mode : SyncMode) : Int × SyncMode :=
  match arg with
  | none => (-1, sync_mode)
  | some a =>
    if a.length < 1 then (-1, sync_mode)
    else
      let cl := a.length
      if strncasecmp_eq a "Immediate".toList cl then (0, SyncMode.SyncImmediate)
      else if strncasecmp_eq a "Absolute".toList cl then (0, SyncMode.SyncAbsolute)
      else if strncasecmp_eq a "Relative".toList cl then (0, SyncMode.SyncRelative)
      else (-1, sync_mode)


/-! ## Vocabulary of the statements -/

/-- Tells whether a type descriptor uses only the characters `i`, `f` and `s`. -/
def desc_known (desc : List Char) : Bool :=
  desc.all (fun ch => ch == 'i' || ch == 'f' || ch == 's')

/-- The argument that a parameter expression contributes under a descriptor character:
`none` when the character is not one of `i`, `f`, `s` or the expansion stops on a fault. -/
def arg_of (m : MidiMessage) (ch : Char) (p : List Char) : Option OscArg :=
  if ch == 'i' then
    match expand_int32 p m with
    | Except.ok v => some (OscArg.int32 v)
    | Except.error _ => none
  else if ch == 'f' then
    match expand_float p m with
    | Except.ok v => some (OscArg.float v)
    | Except.error _ => none
  else if ch == 's' then some (OscArg.string p)
  else none

/-- The message a template stands for on an event: its address and, for each descriptor
character and its parameter in order, the argument the parameter contributes. -/
def message_of (t : OSCMessageTemplate) (m : MidiMessage) : OscMsg :=
  ⟨t.path, (List.zip t.desc t.param).filterMap (fun x => x.2.bind (arg_of m x.1))⟩

/-- Tells whether a parameter can be expanded under its descriptor character without a
fault: under `i`, `f` or `s` it is stored and `arg_of` yields an argument. -/
def param_ready (m : MidiMessage) (ch : Char) (po : Option (List Char)) : Bool :=
  if ch == 'i' || ch == 'f' || ch == 's' then
    match po with
    | some p => (arg_of m ch p).isSome
    | none => false
  else true

/-- Tells whether a template has one parameter slot per descriptor character, each ready
for expansion on the event. -/
def template_ready (t : OSCMessageTemplate) (m : MidiMessage) : Bool :=
  t.param.length == t.desc.length
    && (List.zip t.desc t.param).all (fun x => param_ready m x.1 x.2)

/-- The rule at index `j`, when live, matches the event. -/
def rule_at_matches (rules : List Rule) (m : MidiMessage) (j : Nat) : Bool :=
  match rules[j]? with
  | some r => rule_matches r m
  | none => false

/-- The records written to the ring buffer are those handed to rule matching followed by
the record `mmsg` the consumer holds and the records still stored, and the `for` loop has
no more iterations left than records are stored. -/
def holding (s : State) (i mqlen : Nat) (mmsg : MidiMessage) : Prop :=
  s.enqueued = s.dispatched_events ++ mmsg :: s.handoff.rb.content
    ∧ mqlen - (i + 1) ≤ s.handoff.rb.content.length

/-- The records written to the ring buffer are those handed to rule matching followed by
the records still stored, or termination was requested and one record read in between was
given up. -/
def idle (s : State) : Prop :=
  s.enqueued = s.dispatched_events ++ s.handoff.rb.content
    ∨ (s.run = RunState.Terminate
        ∧ ∃ x, s.enqueued = s.dispatched_events ++ x :: s.handoff.rb.content)

/-- The invariant of the running program that relates the three sequences of records:
written, handed to rule matching, still stored. -/
def Inv (s : State) : Prop :=
  match s.pc with
  | Pc.for_test i mqlen =>
    s.enqueued = s.dispatched_events ++ s.handoff.rb.content
      ∧ mqlen - i ≤ s.handoff.rb.content.length
  | Pc.delay_test i mqlen mmsg _ => holding s i mqlen mmsg
  | Pc.after_delay i mqlen mmsg _ => holding s i mqlen mmsg
  | Pc.rules i mqlen mmsg _ => holding s i mqlen mmsg
  | Pc.while_test => idle s
  | Pc.cond_wait => idle s
  | Pc.exited => idle s
  | Pc.crashed _ => idle s

/-- What holds of a record handed to rule matching with the clock reading `now`, `jc`
telling whether `j_client` is still set: without dead zone the clock was not read; with a
dead zone it was read and the reading has reached the deadline, or the test of line 1024
ended the wait, or `j_client` was cleared. -/
def dispatch_timed (cfg : Setup) (jc : Bool) (mmsg : MidiMessage) (now : Option Nat) : Prop :=
  (cfg.deadzone = 0 → now = none)
    ∧ (0 < cfg.deadzone → ∃ t, now = some t
        ∧ ((mmsg.tme + cfg.deadzone) % 4294967296 ≤ t
            ∨ (mmsg.tme &&& 0x8000000) ^^^ (t &&& 0x8000000) ≠ 0
            ∨ jc = false))

/-- The invariant of the running program on the clock readings: every record handed to
rule matching so far satisfies `dispatch_timed`, and so does the record the consumer is
about to hand over. -/
def Timed (cfg : Setup) (s : State) : Prop :=
  (∀ rec ∈ s.dispatched, dispatch_timed cfg s.j_client rec.mmsg rec.now)
    ∧ match s.pc with
      | Pc.delay_test _ _ _ _ => 0 < cfg.deadzone
      | Pc.after_delay _ _ mmsg t =>
        0 < cfg.deadzone
          ∧ ((mmsg.tme + cfg.deadzone) % 4294967296 ≤ t
              ∨ (mmsg.tme &&& 0x8000000) ^^^ (t &&& 0x8000000) ≠ 0
              ∨ s.j_client = false ∨ s.run = RunState.Terminate)
      | Pc.rules _ _ mmsg now => dispatch_timed cfg s.j_client mmsg now
      | _ => True

/-- The consumer has seen the termination request and hands nothing over any more: it is
at the test of line 1030, waiting, at the test of line 1007 or out of the loop. -/
def winding_down (s : State) : Prop :=
  s.run = RunState.Terminate
    ∧ ((∃ i mqlen mmsg t, s.pc = Pc.after_delay i mqlen mmsg t)
        ∨ s.pc = Pc.cond_wait ∨ s.pc = Pc.while_test ∨ s.pc = Pc.exited)

/-- Every live template of the rule has one stored parameter string for each character of
its descriptor, and none when the descriptor is empty. -/
def templates_sound (r : Rule) : Prop :=
  r.message_count ≤ r.msg.length
    ∧ ∀ t ∈ r.msg.take r.message_count,
        t.param.length = t.desc.length ∧ ∀ po ∈ t.param, po ≠ none

/-- The string `arg` is not empty and agrees, case aside, with the first characters of
`name`. -/
def abbreviates (arg name : List Char) : Prop :=
  arg ≠ [] ∧ arg.map tolower = (name.take arg.length).map tolower

instance (arg name : List Char) : Decidable (abbreviates arg name) := by
  unfold abbreviates
  infer_instance


/-- Every live template of the rule has, for each character of its descriptor, a stored
parameter string, and that string is not empty unless the character is `s`. -/
def params_ready (r : Rule) : Prop :=
  r.message_count ≤ r.msg.length
    ∧ ∀ t ∈ r.msg.take r.message_count, ∀ (c : Nat) (ch : Char), t.desc[c]? = some ch →
        ∃ p, param_at t.param c = some p ∧ (ch ≠ 's' → p ≠ [])


/-- The class names of the field-spec grammar of the specification. -/
def spec_class_names : List (List Char) :=
  ["NOTE".toList, "NOTEOFF".toList, "NOTEON".toList, "CC".toList, "PGM".toList,
   "KeyPressure".toList, "ChanPressure".toList, "Pitch".toList, "Pos".toList, "Song".toList,
   "Start".toList, "Cont".toList, "Stop".toList, "ANY".toList]

/-- A number of the field-spec grammar of the specification, read as the whole string: one
or more decimal digits, or `0x` followed by one or more hexadecimal digits. -/
def spec_number (s : List Char) : Bool :=
  (!s.isEmpty && s.all (fun c => decide ('0' ≤ c ∧ c ≤ '9')))
    || ((s.take 2 == "0x".toList || s.take 2 == "0X".toList)
        && !(s.drop 2).isEmpty && (s.drop 2).all (fun c => (digit_val c).isSome))

/-- The field-spec grammar of the specification: a class name (letter case apart), a pair
`<match>/<mask>` of numbers, or a bare number. -/
def spec_valid_field (tok : List Char) : Bool :=
  spec_class_names.any (fun n => strcasecmp_eq tok n)
    || spec_number tok
    || (match tok.dropWhile (fun c => c != '/') with
        | [] => false
        | _ :: mask => spec_number (tok.takeWhile (fun c => c != '/')) && spec_number mask)

/-- The class names that `new_rule` looks for in the first field only. -/
def first_field_names : List (List Char) :=
  ["NOTE".toList, "NOTEOFF".toList, "NOTEON".toList, "KeyPressure".toList, "CC".toList,
   "PGM".toList, "ChanPressure".toList, "Pitch".toList, "Pos".toList, "Song".toList,
   "Start".toList, "Cont".toList, "Stop".toList]

/-- The string starts, after optional white space and an optional sign, with a decimal
digit; what follows the digit is not looked at. -/
def begins_with_number (tok : List Char) : Bool :=
  match tok.dropWhile isspace with
  | [] => false
  | c :: cs =>
    if c == '-' || c == '+' then
      match cs with
      | [] => false
      | d :: _ => decide ('0' ≤ d ∧ d ≤ '9')
    else decide ('0' ≤ c ∧ c ≤ '9')

/-- The tokens that `new_rule` takes at field index `i`: `ANY` in every field, the other
class names in the first field only, both letter case apart, and every token that begins
with a number. -/
def accepted_field (i : Nat) (tok : List Char) : Bool :=
  strcasecmp_eq tok "ANY".toList
    || (decide (i = 0) && first_field_names.any (fun n => strcasecmp_eq tok n))
    || begins_with_number tok


/-! ## Sample data -/

/-- A liblo environment in which no call fails. -/
def lo_ok : LoEnv := ⟨fun _ => true, fun _ _ => 0⟩

/-- A rule with one template of three integer parameters: an expression that cannot be
scanned, one with an invalid source range and one with an unknown placeholder. -/
def failing_rule : Rule :=
  ⟨⟨0xf0, 0, 0⟩, ⟨0x90, 0, 0⟩, 3, 1,
    [⟨"/x".toList, "iii".toList,
      [some "%".toList, some "%1 [5,10] [3,2]".toList, some "%q [5,10]".toList]⟩]⟩

/-- A rule for note-on events with three templates, the second with the descriptor `ix`. -/
def demo_rule : Rule :=
  ⟨⟨0xf0, 0, 0⟩, ⟨0x90, 0, 0⟩, 3, 3,
    [⟨"/a".toList, "i".toList, [some "%1".toList]⟩,
     ⟨"/b".toList, "ix".toList, [some "1".toList, some "2".toList]⟩,
     ⟨"/c".toList, "s".toList, [some "on".toList]⟩]⟩

/-- A note-on event on channel 2: key 60, velocity 127. -/
def demo_event : MidiMessage := ⟨0, ⟨0x91, 0x3C, 0x7F⟩, 3⟩

/-- A rule table of four rules: `demo_rule`, a control change rule, a note-on rule without
templates and a rule for any three-byte event. -/
def demo_table : List Rule :=
  [demo_rule,
   ⟨⟨0xf0, 0, 0⟩, ⟨0xb0, 0, 0⟩, 3, 1, [⟨"/cc".toList, "i".toList, [some "%2".toList]⟩]⟩,
   ⟨⟨0xf0, 0, 0⟩, ⟨0x90, 0, 0⟩, 3, 0, []⟩,
   ⟨⟨0, 0, 0⟩, ⟨0, 0, 0⟩, 3, 1, [⟨"/any".toList, "i".toList, [some "%c".toList]⟩]⟩]

/-- A setup with `demo_table`, liblo succeeding and 24 frames of dead zone outside the
immediate mode (48 kHz). -/
def demo_setup (mode : SyncMode) : Setup :=
  ⟨lo_ok, demo_table, 4, mode, 24, ⟨0, ⟨0, 0, 0⟩, 0⟩⟩

/-! ## Theorems -/

/-- C1: for an event of length `L` in 1..3 the match test accepts `(r, e)` exactly when
`r.len` is 0 or `L` and every byte with index below `L` masked by the rule mask equals the
rule match byte; a rule that differs from `r` only in mask/match entries at indices at or
above `L` gets the same verdict. -/
theorem C1_match_iff (r : Rule) (e : MidiMessage) (hL : 1 ≤ e.len ∧ e.len ≤ 3) :
    (rule_matches r e = true ↔
      ((r.len = 0 ∨ r.len = e.len) ∧
        ∀ i, i < e.len → (e.d.get i &&& r.mask.get i) = r.match_.get i)) ∧
    (∀ r2 : Rule, r2.len = r.len →
      (∀ i, i < e.len → r2.mask.get i = r.mask.get i ∧ r2.match_.get i = r.match_.get i) →
      rule_matches r2 e = rule_matches r e) := by
  obtain ⟨h1, h3⟩ := hL
  have hcases : e.len = 1 ∨ e.len = 2 ∨ e.len = 3 := by omega
  refine ⟨?_, ?_⟩
  · rcases hcases with h | h | h
    · simp only [rule_matches, h]
      constructor
      · intro hm
        simp at hm
        refine ⟨hm.1, ?_⟩
        intro i hi
        have : i = 0 := by omega
        subst this
        exact hm.2
      · rintro ⟨hl, hb⟩
        have := hb 0 (by omega)
        simp [hl, this]
    · simp only [rule_matches, h]
      constructor
      · intro hm
        simp at hm
        refine ⟨hm.1.1, ?_⟩
        intro i hi
        have : i = 0 ∨ i = 1 := by omega
        rcases this with rfl | rfl
        · exact hm.1.2
        · exact hm.2
      · rintro ⟨hl, hb⟩
        have h0 := hb 0 (by omega)
        have h1 := hb 1 (by omega)
        simp [hl, h0, h1]
    · simp only [rule_matches, h]
      constructor
      · intro hm
        simp at hm
        refine ⟨hm.1.1.1, ?_⟩
        intro i hi
        have : i = 0 ∨ i = 1 ∨ i = 2 := by omega
        rcases this with rfl | rfl | rfl
        · exact hm.1.1.2
        · exact hm.1.2
        · exact hm.2
      · rintro ⟨hl, hb⟩
        have h0 := hb 0 (by omega)
        have h1 := hb 1 (by omega)
        have h2 := hb 2 (by omega)
        simp [hl, h0, h1, h2]
  · intro r2 hlen hagree
    rcases hcases with h | h | h
    · have a0 := hagree 0 (by omega)
      simp [rule_matches, h, hlen, a0.1, a0.2]
    · have a0 := hagree 0 (by omega)
      have a1 := hagree 1 (by omega)
      simp [rule_matches, h, hlen, a0.1, a0.2, a1.1, a1.2]
    · have a0 := hagree 0 (by omega)
      have a1 := hagree 1 (by omega)
      have a2 := hagree 2 (by omega)
      simp [rule_matches, h, hlen, a0.1, a0.2, a1.1, a1.2, a2.1, a2.2]

/-- C1 at a two-byte program change event and the rule `PGM 5`. -/
theorem C1_match_iff_witness :
    (rule_matches ⟨⟨0xf0, 0x7f, 0⟩, ⟨0xc0, 5, 0⟩, 2, 0, []⟩ ⟨0, ⟨0xc3, 5, 0⟩, 2⟩ = true ↔
      (((2 : Nat) = 0 ∨ (2 : Nat) = 2) ∧
        ∀ i, i < 2 → ((Bytes3.mk 0xc3 5 0).get i &&& (Bytes3.mk 0xf0 0x7f 0).get i)
          = (Bytes3.mk 0xc0 5 0).get i)) ∧
    (∀ r2 : Rule, r2.len = 2 →
      (∀ i, i < 2 → r2.mask.get i = (Bytes3.mk 0xf0 0x7f 0).get i
        ∧ r2.match_.get i = (Bytes3.mk 0xc0 5 0).get i) →
      rule_matches r2 ⟨0, ⟨0xc3, 5, 0⟩, 2⟩
        = rule_matches ⟨⟨0xf0, 0x7f, 0⟩, ⟨0xc0, 5, 0⟩, 2, 0, []⟩ ⟨0, ⟨0xc3, 5, 0⟩, 2⟩) :=
  C1_match_iff ⟨⟨0xf0, 0x7f, 0⟩, ⟨0xc0, 5, 0⟩, 2, 0, []⟩ ⟨0, ⟨0xc3, 5, 0⟩, 2⟩ (by decide)

/-- C2: on the expression `%1 [0,100]` (source range 0..127 by default) and an event whose
second byte is 64, `expand_int32` returns 64, because line 656 divides by `t1 - t0`; the
interpolation formula `t0 + (val - s0) * (t1 - t0) / (s1 - s0)` gives 50. -/
theorem C2_interpolation_divides_by_target_span :
    scan_int_expr "%1 [0,100]".toList = some ⟨'1', 0, 100, 0, 127⟩
    ∧ select_field '1' ⟨0, ⟨0x90, 64, 0x7f⟩, 3⟩ = some 64
    ∧ expand_int32 "%1 [0,100]".toList ⟨0, ⟨0x90, 64, 0x7f⟩, 3⟩ = Except.ok 64
    ∧ (0 + Int.tdiv ((64 - 0) * (100 - 0)) (127 - 0) : Int) = 50 := by
  decide

/-- The result of `expand_int32` on a placeholder expression, in terms of the scanned
expression. -/
theorem expand_int32_placeholder (tpl : List Char) (m : MidiMessage)
    (h0 : tpl.head? = some '%') :
    expand_int32 tpl m =
      match scan_int_expr tpl with
      | none => Except.ok 0
      | some e =>
        if e.s0 ≥ e.s1 ∨ e.s0 < 0 ∨ e.s1 > 0x7f then Except.ok 0
        else
          match select_field e.x m with
          | none => Except.ok 0
          | some val =>
            if val ≤ e.s0 then Except.ok e.t0
            else if val ≥ e.s1 then Except.ok e.t1
            else
              match c_div (wrap32 (wrap32 (val - e.s0) * wrap32 (e.t1 - e.t0)))
                      (wrap32 (e.t1 - e.t0)) with
              | Except.error f => Except.error f
              | Except.ok q => Except.ok (wrap32 (e.t0 + q)) := by
  cases tpl with
  | nil => simp at h0
  | cons c cs =>
    simp only [List.head?_cons, Option.some.injEq] at h0
    subst h0
    simp [expand_int32]

/-- C3: for a placeholder expression with a valid source range, `expand_int32` returns the
target lower bound when the selected field value is at or below `s0` and the target upper
bound when it is at or above `s1`. -/
theorem C3_clamps_at_bounds (tpl : List Char) (m : MidiMessage) (e : IntExpr) (val : Int)
    (h0 : tpl.head? = some '%') (hscan : scan_int_expr tpl = some e)
    (hrange : e.s0 < e.s1 ∧ 0 ≤ e.s0 ∧ e.s1 ≤ 127)
    (hval : select_field e.x m = some val) :
    (val ≤ e.s0 → expand_int32 tpl m = Except.ok e.t0)
    ∧ (e.s1 ≤ val → expand_int32 tpl m = Except.ok e.t1) := by
  obtain ⟨h1, h2, h3⟩ := hrange
  have hr : ¬ (e.s0 ≥ e.s1 ∨ e.s0 < 0 ∨ e.s1 > 0x7f) := by
    intro h
    rcases h with h | h | h
    · omega
    · omega
    · have : (0x7f : Int) = 127 := by norm_num
      omega
  rw [expand_int32_placeholder tpl m h0, hscan]
  simp only [hr, if_false, hval]
  constructor
  · intro hle
    simp [hle]
  · intro hge
    have hnot : ¬ val ≤ e.s0 := by omega
    simp [hnot, hge]

/-- C3 at the expression `%1 [10,20] [32,96]`: the second byte 32 maps to 10 and the second
byte 96 and above to 20. -/
theorem C3_clamps_at_bounds_witness :
    ((32 : Int) ≤ 32 →
        expand_int32 "%1 [10,20] [32,96]".toList ⟨0, ⟨0x90, 32, 0⟩, 3⟩ = Except.ok 10)
    ∧ ((96 : Int) ≤ 32 →
        expand_int32 "%1 [10,20] [32,96]".toList ⟨0, ⟨0x90, 32, 0⟩, 3⟩ = Except.ok 20) :=
  C3_clamps_at_bounds "%1 [10,20] [32,96]".toList ⟨0, ⟨0x90, 32, 0⟩, 3⟩
    ⟨'1', 10, 20, 32, 96⟩ 32 (by decide) (by decide) (by decide) (by decide)

/-- C5, refuted as stated: the expression `%1 [5,10] [3,2]` has an invalid source range and
the target lower bound 5, and `expand_int32` returns 0 on it. -/
theorem C5_counterexample :
    ¬ (∀ (tpl : List Char) (m : MidiMessage) (e : IntExpr),
        tpl.head? = some '%' → scan_int_expr tpl = some e →
        (e.s0 ≥ e.s1 ∨ e.s0 < 0 ∨ e.s1 > 127 ∨ select_field e.x m = none) →
        expand_int32 tpl m = Except.ok e.t0) := by
  intro h
  have := h "%1 [5,10] [3,2]".toList ⟨0, ⟨0x90, 64, 0x7f⟩, 3⟩ ⟨'1', 5, 10, 3, 2⟩
    (by decide) (by decide) (by decide)
  revert this
  decide

/-- On a placeholder expression that cannot be scanned, or whose source range is invalid,
or whose placeholder character is unknown, `expand_int32` returns 0. -/
theorem expand_int32_failure (tpl : List Char) (m : MidiMessage)
    (h0 : tpl.head? = some '%')
    (hbad : scan_int_expr tpl = none ∨ ∃ e, scan_int_expr tpl = some e ∧
      (e.s0 ≥ e.s1 ∨ e.s0 < 0 ∨ e.s1 > 127 ∨ select_field e.x m = none)) :
    expand_int32 tpl m = Except.ok 0 := by
  rw [expand_int32_placeholder tpl m h0]
  rcases hbad with hnone | ⟨e, hscan, hbad⟩
  · rw [hnone]
  · rw [hscan]
    by_cases hr : e.s0 ≥ e.s1 ∨ e.s0 < 0 ∨ e.s1 > 0x7f
    · simp only [hr, if_true]
    · have hsel : select_field e.x m = none := by
        rcases hbad with h | h | h | h
        · exact absurd (Or.inl h) hr
        · exact absurd (Or.inr (Or.inl h)) hr
        · exact absurd (Or.inr (Or.inr h)) hr
        · exact h
      simp only [hr, if_false, hsel]

/-- C5, amended: on a placeholder expression whose source range is invalid or whose
placeholder character is not one of `0`, `1`, `2`, `c`, `s`, `expand_int32` returns 0,
whatever the target range. -/
theorem C5_invalid_expression_gives_zero (tpl : List Char) (m : MidiMessage) (e : IntExpr)
    (h0 : tpl.head? = some '%') (hscan : scan_int_expr tpl = some e)
    (hbad : e.s0 ≥ e.s1 ∨ e.s0 < 0 ∨ e.s1 > 127 ∨ select_field e.x m = none) :
    expand_int32 tpl m = Except.ok 0 :=
  expand_int32_failure tpl m h0 (Or.inr ⟨e, hscan, hbad⟩)

/-- C5 amended, at the expression `%1 [5,10] [3,2]`. -/
theorem C5_invalid_expression_gives_zero_witness :
    expand_int32 "%1 [5,10] [3,2]".toList ⟨0, ⟨0x90, 64, 0x7f⟩, 3⟩ = Except.ok 0 :=
  C5_invalid_expression_gives_zero "%1 [5,10] [3,2]".toList ⟨0, ⟨0x90, 64, 0x7f⟩, 3⟩
    ⟨'1', 5, 10, 3, 2⟩ (by decide) (by decide) (by decide)

/-- C4, refuted as stated: the rule that `new_rule` builds from `NOTEON` has mask 0xf0, match
0x90 and length 1, and the match test rejects the three-byte event `[0x91, 0x3C, 0x7F]`
for it. -/
theorem C4_counterexample :
    ∃ r : Rule, new_rule "NOTEON".toList ⟨[], 0⟩ = (some 0, ⟨[r], 1⟩)
      ∧ r.mask.get 0 = 0xf0 ∧ r.match_.get 0 = 0x90 ∧ r.len = 1
      ∧ rule_matches r ⟨0, ⟨0x91, 0x3C, 0x7F⟩, 3⟩ = false :=
  ⟨⟨⟨0xf0, 0, 0⟩, ⟨0x90, 0, 0⟩, 1, 0, []⟩, by decide, by decide, by decide, by decide, by decide⟩

/-- The status byte of a note-on event on any channel passes the `NOTEON` mask test. -/
theorem noteon_status_masked (c : Nat) (hc : c < 16) : (0x90 ||| c) &&& 0xf0 = 0x90 := by
  interval_cases c <;> decide

/-- C4, amended: for every channel nibble `c` the rule built from the one-field line
`NOTEON` (mask 0xf0, match 0x90, length 1) is matched against the one-byte event `[0x90|c]`
and not against the three-byte event `[0x90|c, 0x3C, 0x7F]`, whose length differs from the
rule length; the rule built from the three-field line `NOTEON ANY ANY` is matched against
that three-byte event. -/
theorem C4_noteon_rule_needs_equal_length (c : Nat) (hc : c < 16) (tbl : RuleTable) (tme : Nat) :
    (∃ r : Rule,
      new_rule "NOTEON".toList tbl
        = (some tbl.rule_count, ⟨tbl.rules.take tbl.rule_count ++ [r], tbl.rule_count + 1⟩)
      ∧ r.mask.get 0 = 0xf0 ∧ r.match_.get 0 = 0x90 ∧ r.len = 1
      ∧ rule_matches r ⟨tme, ⟨0x90 ||| c, 0, 0⟩, 1⟩ = true
      ∧ rule_matches r ⟨tme, ⟨0x90 ||| c, 0x3C, 0x7F⟩, 3⟩ = false)
    ∧ (∃ r : Rule,
      new_rule "NOTEON ANY ANY".toList tbl
        = (some tbl.rule_count, ⟨tbl.rules.take tbl.rule_count ++ [r], tbl.rule_count + 1⟩)
      ∧ r.len = 3
      ∧ rule_matches r ⟨tme, ⟨0x90 ||| c, 0x3C, 0x7F⟩, 3⟩ = true) := by
  have hm := noteon_status_masked c hc
  have h1 : new_rule_loop (strtok_all "NOTEON".toList []) 0 zero_rule
      = (1, ⟨⟨0xf0, 0, 0⟩, ⟨0x90, 0, 0⟩, 0, 0, []⟩) := by decide
  have h3 : new_rule_loop (strtok_all "NOTEON ANY ANY".toList []) 0 zero_rule
      = (3, ⟨⟨0xf0, 0, 0⟩, ⟨0x90, 0, 0⟩, 0, 0, []⟩) := by decide
  refine ⟨⟨⟨⟨0xf0, 0, 0⟩, ⟨0x90, 0, 0⟩, 1, 0, []⟩, ?_, rfl, rfl, rfl, ?_, ?_⟩,
    ⟨⟨⟨0xf0, 0, 0⟩, ⟨0x90, 0, 0⟩, 3, 0, []⟩, ?_, rfl, ?_⟩⟩
  · unfold new_rule
    rw [h1]
    simp
  · simp [rule_matches, Bytes3.get, hm]
  · simp [rule_matches]
  · unfold new_rule
    rw [h3]
    simp
  · simp [rule_matches, Bytes3.get, hm]

/-- C4 amended, at channel nibble 1 and the empty rule table. -/
theorem C4_noteon_rule_needs_equal_length_witness :
    (∃ r : Rule,
      new_rule "NOTEON".toList ⟨[], 0⟩ = (some 0, ⟨List.take 0 [] ++ [r], 0 + 1⟩)
      ∧ r.mask.get 0 = 0xf0 ∧ r.match_.get 0 = 0x90 ∧ r.len = 1
      ∧ rule_matches r ⟨0, ⟨0x90 ||| 1, 0, 0⟩, 1⟩ = true
      ∧ rule_matches r ⟨0, ⟨0x90 ||| 1, 0x3C, 0x7F⟩, 3⟩ = false)
    ∧ (∃ r : Rule,
      new_rule "NOTEON ANY ANY".toList ⟨[], 0⟩ = (some 0, ⟨List.take 0 [] ++ [r], 0 + 1⟩)
      ∧ r.len = 3
      ∧ rule_matches r ⟨0, ⟨0x90 ||| 1, 0x3C, 0x7F⟩, 3⟩ = true) :=
  C4_noteon_rule_needs_equal_length 1 (by decide) ⟨[], 0⟩ 0

/-- Reading `param[c]` reads the head of the parameters from index `c` on. -/
theorem param_at_of_drop (param : List (Option (List Char))) (c : Nat)
    (po : Option (List Char)) (ps : List (Option (List Char)))
    (h : param.drop c = po :: ps) : param_at param c = po ∧ param.drop (c + 1) = ps := by
  have hlt : c < param.length := by
    by_contra hge
    have : param.drop c = [] := List.drop_eq_nil_of_le (by omega)
    rw [this] at h
    cases h
  have hd := List.drop_eq_getElem_cons hlt
  rw [hd] at h
  injection h with h1 h2
  refine ⟨?_, h2⟩
  unfold param_at
  rw [List.getElem?_eq_getElem hlt, h1]
  cases po <;> rfl

/-- With liblo succeeding and the parameters ready, the loop over the descriptor characters
ends without fault, adds the argument of every parameter in order and sets `err` exactly
when an unknown descriptor character is met. -/
theorem add_params_ready (lo : LoEnv) (i : Nat) (param : List (Option (List Char)))
    (m : MidiMessage) (hlo : ∀ k c, lo.message_new k = true ∧ lo.message_add k c = 0) :
    ∀ (desc : List Char) (ps : List (Option (List Char))) (c : Nat) (err : Bool)
      (args : List OscArg),
      param.drop c = ps → ps.length = desc.length →
      (List.zip desc ps).all (fun x => param_ready m x.1 x.2) = true →
      add_params lo i param m desc c err args
        = Except.ok (err || !desc_known desc,
            args ++ (List.zip desc ps).filterMap (fun x => x.2.bind (arg_of m x.1))) := by
  intro desc
  induction desc with
  | nil =>
    intro ps c err args _ _ _
    simp [add_params, desc_known]
  | cons ch rest ih =>
    intro ps c err args hdrop hlen hall
    cases ps with
    | nil => simp at hlen
    | cons po ps2 =>
      obtain ⟨hat, hdrop2⟩ := param_at_of_drop param c po ps2 hdrop
      have hlen2 : ps2.length = rest.length := by simpa using hlen
      simp only [List.zip_cons_cons, List.all_cons, Bool.and_eq_true] at hall
      obtain ⟨hr, hall2⟩ := hall
      have hadd : lo.message_add i c = 0 := (hlo i c).2
      have ih2 := fun e a => ih ps2 (c + 1) e a hdrop2 hlen2 hall2
      by_cases hi : ch = 'i'
      · subst hi
        cases po with
        | none => simp [param_ready] at hr
        | some p =>
          have hr2 : (arg_of m 'i' p).isSome = true := by simpa [param_ready] using hr
          cases hx : expand_int32 p m with
          | error f => simp [arg_of, hx] at hr2
          | ok v =>
            simp [add_params, hat, hx, hadd, ih2, desc_known, arg_of, List.filterMap_cons]
      · by_cases hf : ch = 'f'
        · subst hf
          cases po with
          | none => simp [param_ready] at hr
          | some p =>
            have hr2 : (arg_of m 'f' p).isSome = true := by simpa [param_ready] using hr
            cases hx : expand_float p m with
            | error f => simp [arg_of, hx] at hr2
            | ok v =>
              simp [add_params, hat, hx, hadd, ih2, desc_known, arg_of, List.filterMap_cons]
        · by_cases hs : ch = 's'
          · subst hs
            cases po with
            | none => simp [param_ready] at hr
            | some p =>
              simp [add_params, hat, hadd, ih2, desc_known, arg_of, List.filterMap_cons]
          · have hnone : po.bind (arg_of m ch) = none := by
              cases po with
              | none => rfl
              | some p => simp [arg_of, hi, hf, hs]
            simp [add_params, hi, hf, hs, ih2, desc_known, List.filterMap_cons, hnone]

/-- With liblo succeeding and every live template ready, the loop over the templates ends
without fault and hands over the messages of the remaining templates with a known
descriptor, in order. -/
theorem expand_and_send_loop_ready (lo : LoEnv) (r : Rule) (m : MidiMessage)
    (hlo : ∀ k c, lo.message_new k = true ∧ lo.message_add k c = 0)
    (hcount : r.message_count ≤ r.msg.length)
    (hready : ∀ t ∈ r.msg.take r.message_count, template_ready t m = true) :
    ∀ (n i : Nat) (sent : List OscMsg), i + n = r.message_count →
      expand_and_send_loop lo r m n i sent
        = (sent ++ (((r.msg.take r.message_count).drop i).filter
              (fun t => desc_known t.desc)).map (fun t => message_of t m), none) := by
  intro n
  induction n with
  | zero =>
    intro i sent hi
    have hlen : (r.msg.take r.message_count).length ≤ i := by
      simp [List.length_take]; omega
    simp [expand_and_send_loop, List.drop_eq_nil_of_le hlen]
  | succ n ih =>
    intro i sent hi
    have hlt : i < (r.msg.take r.message_count).length := by
      simp [List.length_take]; omega
    have hlt2 : i < r.msg.length := by omega
    have hget : r.msg[i]? = some (r.msg[i]) := List.getElem?_eq_getElem hlt2
    have htake : (r.msg.take r.message_count)[i] = r.msg[i] := by
      simp [List.getElem_take]
    have hdrop := List.drop_eq_getElem_cons hlt
    rw [htake] at hdrop
    have hmem : r.msg[i] ∈ r.msg.take r.message_count := by
      rw [← htake]
      exact List.getElem_mem hlt
    have hrdy := hready _ hmem
    simp only [template_ready, Bool.and_eq_true, beq_iff_eq] at hrdy
    have hadd := add_params_ready lo i (r.msg[i]).param m hlo (r.msg[i]).desc (r.msg[i]).param
      0 false [] (by simp) hrdy.1 hrdy.2
    have hnew : lo.message_new i = true := (hlo i 0).1
    rw [hdrop]
    by_cases hk : desc_known (r.msg[i]).desc = true
    · simp [expand_and_send_loop, hnew, hget, hadd, hk, ih (i + 1) _ (by omega), message_of]
    · simp only [Bool.not_eq_true] at hk
      simp [expand_and_send_loop, hnew, hget, hadd, hk, ih (i + 1) _ (by omega)]

/-- Whatever liblo does, the loop over the descriptor characters ends with `err` set when
`err` was set on entry or an unknown descriptor character is met. -/
theorem add_params_err (lo : LoEnv) (i : Nat) (param : List (Option (List Char)))
    (m : MidiMessage) :
    ∀ (desc : List Char) (c : Nat) (err : Bool) (args : List OscArg) (e : Bool)
      (a : List OscArg),
      add_params lo i param m desc c err args = Except.ok (e, a) →
      (err = true ∨ desc_known desc = false) → e = true := by
  intro desc
  induction desc with
  | nil =>
    intro c err args e a h hor
    simp [add_params] at h
    rcases hor with h1 | h1
    · rw [← h.1]; exact h1
    · simp [desc_known] at h1
  | cons ch rest ih =>
    intro c err args e a h hor
    have hor2 : ∀ b : Bool, (ch = 'i' ∨ ch = 'f' ∨ ch = 's') →
        (err = true ∨ desc_known (ch :: rest) = false) →
        ((err || b) = true ∨ desc_known rest = false) := by
      intro b hch h0
      rcases h0 with h0 | h0
      · left; simp [h0]
      · right
        rcases hch with rfl | rfl | rfl <;> simpa [desc_known] using h0
    unfold add_params at h
    split at h
    · rename_i hi
      have hch : ch = 'i' := by simpa using hi
      split at h
      · cases h
      · split at h
        · cases h
        · split at h
          · have := hor2 false (Or.inl hch) hor
            exact ih _ _ _ _ _ h (by simpa using this)
          · exact ih _ _ _ _ _ h (Or.inl rfl)
    · split at h
      · rename_i hf
        have hch : ch = 'f' := by simpa using hf
        split at h
        · cases h
        · split at h
          · cases h
          · split at h
            · have := hor2 false (Or.inr (Or.inl hch)) hor
              exact ih _ _ _ _ _ h (by simpa using this)
            · exact ih _ _ _ _ _ h (Or.inl rfl)
      · split at h
        · rename_i hs
          have hch : ch = 's' := by simpa using hs
          split at h
          · cases h
          · split at h
            · have := hor2 false (Or.inr (Or.inr hch)) hor
              exact ih _ _ _ _ _ h (by simpa using this)
            · exact ih _ _ _ _ _ h (Or.inl rfl)
        · exact ih _ _ _ _ _ h (Or.inl rfl)

/-- Whatever liblo does and whether or not the run stops on a fault, every message the loop
over the templates hands over beyond those in `sent` belongs to a template with a known
descriptor. -/
theorem expand_and_send_loop_known (lo : LoEnv) (r : Rule) (m : MidiMessage) :
    ∀ (n i : Nat) (sent : List OscMsg) (msg : OscMsg),
      msg ∈ (expand_and_send_loop lo r m n i sent).1 →
      msg ∈ sent ∨ ∃ t ∈ r.msg, desc_known t.desc = true ∧ msg.path = t.path := by
  intro n
  induction n with
  | zero =>
    intro i sent msg h
    left
    simpa [expand_and_send_loop] using h
  | succ n ih =>
    intro i sent msg h
    unfold expand_and_send_loop at h
    split at h
    · exact ih _ _ _ h
    · split at h
      · left; exact h
      · rename_i t ht
        split at h
        · left; exact h
        · rename_i err args hadd
          split at h
          · exact ih _ _ _ h
          · rename_i herr
            rcases ih _ _ _ h with h1 | h1
            · rcases List.mem_append.1 h1 with h2 | h2
              · left; exact h2
              · right
                refine ⟨t, List.getElem?_mem ht, ?_, ?_⟩
                · by_contra hk
                  have := add_params_err lo i t.param m t.desc 0 false [] err args hadd
                    (Or.inr (by simpa using hk))
                  exact herr this
                · simp at h2
                  rw [h2]
            · right; exact h1

/-- C7: whatever liblo does, every message `expand_and_send` hands to the transport belongs
to a template whose descriptor uses only `i`, `f`, `s`; and with liblo succeeding and every
live template ready for expansion, it ends without fault and hands over exactly the messages
of the templates with such a descriptor, in template order, so that a template with another
descriptor character is left out and does not stop the templates after it. -/
theorem C7_unknown_descriptor_skips_one_template (lo : LoEnv) (r : Rule) (m : MidiMessage) :
    (∀ msg ∈ (expand_and_send lo r m).1,
      ∃ t ∈ r.msg, desc_known t.desc = true ∧ msg.path = t.path)
    ∧ ((∀ k c, lo.message_new k = true ∧ lo.message_add k c = 0) →
      r.message_count ≤ r.msg.length →
      (∀ t ∈ r.msg.take r.message_count, template_ready t m = true) →
      expand_and_send lo r m
        = (((r.msg.take r.message_count).filter (fun t => desc_known t.desc)).map
            (fun t => message_of t m), none)) := by
  constructor
  · intro msg hmsg
    rcases expand_and_send_loop_known lo r m r.message_count 0 [] msg hmsg with h | h
    · simp at h
    · exact h
  · intro hlo hcount hready
    have h := expand_and_send_loop_ready lo r m hlo hcount hready r.message_count 0 []
      (by omega)
    simpa [expand_and_send] using h

/-- C7 at a rule with three templates, the second of which has the descriptor `ix`: the
first and the third are handed to the transport. -/
theorem C7_unknown_descriptor_skips_one_template_witness :
    expand_and_send lo_ok demo_rule demo_event
      = ([⟨"/a".toList, [OscArg.int32 60]⟩, ⟨"/c".toList, [OscArg.string "on".toList]⟩], none) :=
  ((C7_unknown_descriptor_skips_one_template lo_ok demo_rule demo_event).2
    (fun _ _ => ⟨rfl, rfl⟩) (by decide) (by decide)).trans (by decide)

/-- Where every element is mapped to a value, `filterMap` keeps the positions. -/
theorem filterMap_getElem?_of_all_some {α β : Type} (f : α → Option β) :
    ∀ (l : List α) (c : Nat), (∀ x ∈ l, (f x).isSome = true) →
      (l.filterMap f)[c]? = l[c]?.bind f := by
  intro l
  induction l with
  | nil => intro c _; simp
  | cons a as ih =>
    intro c h
    have ha := h a (by simp)
    obtain ⟨b, hb⟩ := Option.isSome_iff_exists.1 ha
    rw [List.filterMap_cons_some hb]
    cases c with
    | zero => simp [hb]
    | succ c =>
      simp only [List.getElem?_cons_succ]
      exact ih c (fun x hx => h x (by simp [hx]))

/-- C6, refuted as stated: the template of `failing_rule` has three integer parameters whose
expansions fail (no expression scanned, invalid source range, unknown placeholder), and
`expand_and_send` hands its message to the transport, with the arguments 0, 0, 0. -/
theorem C6_counterexample :
    scan_int_expr "%".toList = none
    ∧ scan_int_expr "%1 [5,10] [3,2]".toList = some ⟨'1', 5, 10, 3, 2⟩
    ∧ scan_int_expr "%q [5,10]".toList = some ⟨'q', 5, 10, 0, 127⟩
    ∧ select_field 'q' demo_event = none
    ∧ rule_matches failing_rule demo_event = true
    ∧ expand_and_send lo_ok failing_rule demo_event
        = ([⟨"/x".toList, [OscArg.int32 0, OscArg.int32 0, OscArg.int32 0]⟩], none) := by
  decide

/-- C6, amended: `expand_and_send` learns nothing of a failed expansion.  With liblo
succeeding and every live template ready for expansion, a template whose descriptor uses
only `i`, `f`, `s` has its message handed to the transport whether or not the expansion of
a parameter failed, and an integer parameter whose expression cannot be scanned, or has an
invalid source range, or an unknown placeholder character, is sent as 0. -/
theorem C6_failed_expansion_is_sent_as_zero (lo : LoEnv) (r : Rule) (m : MidiMessage)
    (k : Nat) (t : OSCMessageTemplate)
    (hlo : ∀ k c, lo.message_new k = true ∧ lo.message_add k c = 0)
    (hcount : r.message_count ≤ r.msg.length)
    (hready : ∀ t ∈ r.msg.take r.message_count, template_ready t m = true)
    (hk : k < r.message_count) (ht : r.msg[k]? = some t)
    (hknown : desc_known t.desc = true) :
    (expand_and_send lo r m).2 = none
    ∧ message_of t m ∈ (expand_and_send lo r m).1
    ∧ ∀ (c : Nat) (p : List Char), t.desc[c]? = some 'i' → t.param[c]? = some (some p) →
        p.head? = some '%' →
        (scan_int_expr p = none ∨ ∃ e, scan_int_expr p = some e ∧
          (e.s0 ≥ e.s1 ∨ e.s0 < 0 ∨ e.s1 > 127 ∨ select_field e.x m = none)) →
        (message_of t m).args[c]? = some (OscArg.int32 0) := by
  have hrun := expand_and_send_loop_ready lo r m hlo hcount hready r.message_count 0 []
    (by omega)
  have hmem : t ∈ r.msg.take r.message_count := by
    have hlt : k < (r.msg.take r.message_count).length := by
      simp [List.length_take]; omega
    have : (r.msg.take r.message_count)[k]? = some t := by
      rw [List.getElem?_take_of_lt hk]; exact ht
    exact List.getElem?_mem this
  refine ⟨?_, ?_, ?_⟩
  · simp [expand_and_send, hrun]
  · simp only [expand_and_send, hrun, List.nil_append, List.drop_zero]
    exact List.mem_map.2 ⟨t, List.mem_filter.2 ⟨hmem, hknown⟩, rfl⟩
  · intro c p hd hp h0 hbad
    have hx := expand_int32_failure p m h0 hbad
    have hrdy := hready t hmem
    simp only [template_ready, Bool.and_eq_true, beq_iff_eq, List.all_eq_true] at hrdy
    have hall : ∀ x ∈ List.zip t.desc t.param,
        (x.2.bind (arg_of m x.1)).isSome = true := by
      intro x hxmem
      have h1 := hrdy.2 x hxmem
      have hch : x.1 ∈ t.desc := (List.of_mem_zip hxmem).1
      have hk1 := (List.all_eq_true.1 hknown) x.1 hch
      simp only [param_ready, hk1, if_true] at h1
      cases h2 : x.2 with
      | none => simp [h2] at h1
      | some q => simpa [h2] using h1
    show ((List.zip t.desc t.param).filterMap (fun x => x.2.bind (arg_of m x.1)))[c]? = _
    rw [filterMap_getElem?_of_all_some _ _ c hall]
    have hz : (List.zip t.desc t.param)[c]? = some ('i', some p) :=
      List.getElem?_zip_eq_some.2 ⟨hd, hp⟩
    rw [hz]
    simp [arg_of, hx]

/-- C6 amended, at `failing_rule`: the message goes out and its second argument, whose
expression has an invalid source range, is 0. -/
theorem C6_failed_expansion_is_sent_as_zero_witness :
    (expand_and_send lo_ok failing_rule demo_event).2 = none
    ∧ message_of ⟨"/x".toList, "iii".toList,
        [some "%".toList, some "%1 [5,10] [3,2]".toList, some "%q [5,10]".toList]⟩ demo_event
        ∈ (expand_and_send lo_ok failing_rule demo_event).1
    ∧ (message_of ⟨"/x".toList, "iii".toList,
        [some "%".toList, some "%1 [5,10] [3,2]".toList, some "%q [5,10]".toList]⟩
        demo_event).args[1]? = some (OscArg.int32 0) :=
  have h := C6_failed_expansion_is_sent_as_zero lo_ok failing_rule demo_event 0
    ⟨"/x".toList, "iii".toList,
      [some "%".toList, some "%1 [5,10] [3,2]".toList, some "%q [5,10]".toList]⟩
    (fun _ _ => ⟨rfl, rfl⟩) (by decide) (by decide) (by decide) (by decide) (by decide)
  ⟨h.1, h.2.1, h.2.2 1 "%1 [5,10] [3,2]".toList (by decide) (by decide) (by decide)
    (Or.inr ⟨⟨'1', 5, 10, 3, 2⟩, by decide, by decide⟩)⟩

/-- A rule without templates sends nothing. -/
theorem expand_and_send_no_template (lo : LoEnv) (r : Rule) (m : MidiMessage)
    (h : r.message_count = 0) : expand_and_send lo r m = ([], none) := by
  simp [expand_and_send, h, expand_and_send_loop]

/-- When no expansion of a matching rule stops on a fault, the loop over the rules ends
without fault, having fired exactly the remaining rules that match, in order. -/
theorem match_rules_loop_all (lo : LoEnv) (rules : List Rule) (rule_count : Nat)
    (m : MidiMessage) (hcount : rule_count ≤ rules.length)
    (hsafe : ∀ r ∈ rules.take rule_count, rule_matches r m = true →
      (expand_and_send lo r m).2 = none) :
    ∀ (n j : Nat) (fired : List Nat) (sent : List OscMsg), j + n = rule_count →
      match_rules_loop lo rules m n j fired sent
        = (fired ++ (List.range' j n).filter (rule_at_matches rules m),
           sent ++ (((rules.take rule_count).drop j).filter (fun r => rule_matches r m)).flatMap
             (fun r => (expand_and_send lo r m).1),
           none) := by
  intro n
  induction n with
  | zero =>
    intro j fired sent hj
    have hlen : (rules.take rule_count).length ≤ j := by
      simp [List.length_take]; omega
    simp [match_rules_loop, List.drop_eq_nil_of_le hlen]
  | succ n ih =>
    intro j fired sent hj
    have hlt : j < (rules.take rule_count).length := by
      simp [List.length_take]; omega
    have hlt2 : j < rules.length := by omega
    have hget : rules[j]? = some (rules[j]) := List.getElem?_eq_getElem hlt2
    have htake : (rules.take rule_count)[j] = rules[j] := by
      simp [List.getElem_take]
    have hdrop := List.drop_eq_getElem_cons hlt
    rw [htake] at hdrop
    have hmem : rules[j] ∈ rules.take rule_count := by
      rw [← htake]
      exact List.getElem_mem hlt
    rw [hdrop, List.range'_succ]
    by_cases hm : rule_matches (rules[j]) m = true
    · have hnf := hsafe _ hmem hm
      have hat : rule_at_matches rules m j = true := by simp [rule_at_matches, hget, hm]
      have hpair : expand_and_send lo (rules[j]) m = ((expand_and_send lo (rules[j]) m).1, none) := by
        rw [← hnf]
      unfold match_rules_loop
      simp only [hget, hm, if_true]
      rw [hpair]
      simp only [ih (j + 1) _ _ (by omega)]
      simp [List.filter_cons, hat, hm, List.flatMap_cons]
    · simp only [Bool.not_eq_true] at hm
      have hat : rule_at_matches rules m j = false := by simp [rule_at_matches, hget, hm]
      unfold match_rules_loop
      simp [hget, hm, ih (j + 1) _ _ (by omega), List.filter_cons, hat]

/-- Whether or not an expansion stops on a fault, the rules the loop over the rules has
fired beyond `fired` are the first of the remaining rules that match, in order. -/
theorem match_rules_loop_fired (lo : LoEnv) (rules : List Rule) (m : MidiMessage) :
    ∀ (n j : Nat) (fired : List Nat) (sent : List OscMsg), j + n ≤ rules.length →
      ∃ l, (match_rules_loop lo rules m n j fired sent).1 = fired ++ l
        ∧ l <+: (List.range' j n).filter (rule_at_matches rules m) := by
  intro n
  induction n with
  | zero =>
    intro j fired sent _
    exact ⟨[], by simp [match_rules_loop]⟩
  | succ n ih =>
    intro j fired sent hj
    have hlt : j < rules.length := by omega
    have hget : rules[j]? = some (rules[j]) := List.getElem?_eq_getElem hlt
    rw [List.range'_succ]
    unfold match_rules_loop
    simp only [hget]
    by_cases hm : rule_matches (rules[j]) m = true
    · have hat : rule_at_matches rules m j = true := by simp [rule_at_matches, hget, hm]
      simp only [hm, if_true, List.filter_cons, hat]
      split
      · exact ⟨[j], rfl, by simp⟩
      · obtain ⟨l, h1, h2⟩ := ih (j + 1) (fired ++ [j]) (sent ++ (expand_and_send lo rules[j] m).1)
          (by omega)
        rename_i out heq
        have hout : (expand_and_send lo rules[j] m).1 = out := by rw [heq]
        rw [hout] at h1
        refine ⟨j :: l, by rw [h1]; simp, ?_⟩
        obtain ⟨t, ht⟩ := h2
        exact ⟨t, by rw [← ht]; simp⟩
    · simp only [Bool.not_eq_true] at hm
      have hat : rule_at_matches rules m j = false := by simp [rule_at_matches, hget, hm]
      simp only [hm, List.filter_cons, hat]
      simpa using ih (j + 1) fired sent (by omega)

/-- C8: the rules the loop over the rule table fires are at any rate the first of the rules
that match the event, in declaration order and each once; when no expansion of a matching
rule stops on a fault they are exactly the rules that match, whatever the rules before them
did, and the transport receives their messages in that order; a rule without templates
produces no message. -/
theorem C8_all_matching_rules_fire (lo : LoEnv) (rules : List Rule) (rule_count : Nat)
    (m : MidiMessage) (hcount : rule_count ≤ rules.length) :
    (match_rules lo rules rule_count m).1
      <+: (List.range rule_count).filter (rule_at_matches rules m)
    ∧ ((∀ r ∈ rules.take rule_count, rule_matches r m = true →
          (expand_and_send lo r m).2 = none) →
        match_rules lo rules rule_count m
          = ((List.range rule_count).filter (rule_at_matches rules m),
             ((rules.take rule_count).filter (fun r => rule_matches r m)).flatMap
               (fun r => (expand_and_send lo r m).1),
             none))
    ∧ ∀ r : Rule, r.message_count = 0 → expand_and_send lo r m = ([], none) := by
  refine ⟨?_, ?_, fun r h => expand_and_send_no_template lo r m h⟩
  · obtain ⟨l, h1, h2⟩ := match_rules_loop_fired lo rules m rule_count 0 [] [] (by omega)
    simp only [match_rules, List.range_eq_range']
    rw [h1]
    simpa using h2
  · intro hsafe
    have h := match_rules_loop_all lo rules rule_count m hcount hsafe rule_count 0 [] []
      (by omega)
    simpa [match_rules, List.range_eq_range'] using h

/-- C8 at `demo_table` and a note-on event: rules 0, 2 and 3 fire, in that order, rule 2
without a message. -/
theorem C8_all_matching_rules_fire_witness :
    match_rules lo_ok demo_table 4 demo_event
      = ([0, 2, 3],
         [⟨"/a".toList, [OscArg.int32 60]⟩, ⟨"/c".toList, [OscArg.string "on".toList]⟩,
          ⟨"/any".toList, [OscArg.int32 1]⟩],
         none) :=
  ((C8_all_matching_rules_fire lo_ok demo_table 4 demo_event (by decide)).2.1
    (by decide)).trans (by decide)

/-- A push of an event of size 1 to 3 into a buffer with room for a record stores the
record at the end and returns 1. -/
theorem process_jmidi_event_stores (ev : jack_midi_event_t) (tme space : Nat)
    (content : List MidiMessage) (d : Int)
    (hsz : 1 ≤ ev.size ∧ ev.size ≤ 3)
    (hroom : sizeof_MidiMessage * content.length + sizeof_MidiMessage ≤ space) :
    process_jmidi_event ev tme ⟨⟨space, content⟩, d⟩
      = (1, ⟨⟨space, content ++ [stored_record ev tme]⟩, d⟩) := by
  have h1 : ¬ (ev.size < 1 ∨ ev.size > 3) := by omega
  have h2 : jack_ringbuffer_write_space ⟨space, content⟩ ≥ sizeof_MidiMessage := by
    simp only [jack_ringbuffer_write_space]
    omega
  have hcases : ev.size = 1 ∨ ev.size = 2 ∨ ev.size = 3 := by omega
  simp only [process_jmidi_event, h1, if_false, h2, if_true, jack_ringbuffer_write]
  rcases hcases with h | h | h <;> simp [h, stored_record]

/-- A push into a buffer without room for a record changes nothing but the counter of
dropped messages and returns 0. -/
theorem process_jmidi_event_drops (ev : jack_midi_event_t) (tme space : Nat)
    (content : List MidiMessage) (d : Int)
    (hsz : 1 ≤ ev.size ∧ ev.size ≤ 3)
    (hfull : space < sizeof_MidiMessage * content.length + sizeof_MidiMessage)
    (hd : 0 ≤ d ∧ d < 2147483647) :
    process_jmidi_event ev tme ⟨⟨space, content⟩, d⟩ = (0, ⟨⟨space, content⟩, d + 1⟩) := by
  have h1 : ¬ (ev.size < 1 ∨ ev.size > 3) := by omega
  have h2 : ¬ jack_ringbuffer_write_space ⟨space, content⟩ ≥ sizeof_MidiMessage := by
    simp only [jack_ringbuffer_write_space, sizeof_MidiMessage] at hfull ⊢
    omega
  have hw : wrap32 (d + 1) = d + 1 := by
    unfold wrap32
    omega
  simp only [process_jmidi_event, h1, if_false, h2, hw]

/-- Pushes that all find room are all stored, in order. -/
theorem push_all_stores (space : Nat) (d : Int) :
    ∀ (ps : List (jack_midi_event_t × Nat)) (content : List MidiMessage),
      (∀ x ∈ ps, 1 ≤ x.1.size ∧ x.1.size ≤ 3) →
      sizeof_MidiMessage * (content.length + ps.length) ≤ space →
      push_all ps ⟨⟨space, content⟩, d⟩
        = (List.replicate ps.length 1,
           ⟨⟨space, content ++ ps.map (fun x => stored_record x.1 x.2)⟩, d⟩) := by
  intro ps
  induction ps with
  | nil => intro content _ _; simp [push_all]
  | cons x xs ih =>
    intro content hwf hroom
    obtain ⟨ev, tme⟩ := x
    have hsz := hwf (ev, tme) (by simp)
    simp only [List.length_cons] at hroom
    have hst := process_jmidi_event_stores ev tme space content d hsz (by
      simp only [sizeof_MidiMessage] at hroom ⊢
      omega)
    have hrest := ih (content ++ [stored_record ev tme])
      (fun y hy => hwf y (by simp [hy])) (by
        simp only [List.length_append, List.length_singleton]
        simp only [sizeof_MidiMessage] at hroom ⊢
        omega)
    simp [push_all, hst, hrest, List.replicate_succ]

/-- C9: into an empty queue with room for exactly `N` records, `N` pushes of events of size
1 to 3 are all stored in order, each reporting a wake-up, and the next push increments the
counter of dropped messages by one, leaves the queue content as it was and reports no
wake-up. -/
theorem C9_full_queue_drops_newest (space N : Nat) (ps : List (jack_midi_event_t × Nat))
    (p : jack_midi_event_t) (tme : Nat) (d : Int)
    (hcap : space / sizeof_MidiMessage = N) (hlen : ps.length = N)
    (hwf : ∀ x ∈ ps, 1 ≤ x.1.size ∧ x.1.size ≤ 3)
    (hp : 1 ≤ p.size ∧ p.size ≤ 3)
    (hd : 0 ≤ d ∧ d < 2147483647) :
    push_all ps ⟨⟨space, []⟩, d⟩
      = (List.replicate N 1, ⟨⟨space, ps.map (fun x => stored_record x.1 x.2)⟩, d⟩)
    ∧ process_jmidi_event p tme (push_all ps ⟨⟨space, []⟩, d⟩).2
      = (0, ⟨⟨space, ps.map (fun x => stored_record x.1 x.2)⟩, d + 1⟩) := by
  have hroom : sizeof_MidiMessage * (([] : List MidiMessage).length + ps.length) ≤ space := by
    simp only [sizeof_MidiMessage, List.length_nil] at hcap ⊢
    omega
  have hall := push_all_stores space d ps [] hwf hroom
  simp only [List.nil_append, hlen] at hall
  refine ⟨hall, ?_⟩
  rw [hall]
  apply process_jmidi_event_drops p tme space _ d hp _ hd
  simp only [sizeof_MidiMessage, List.length_map] at hcap ⊢
  omega

/-- C9 at a queue with room for two records and the pushes of a note-on, a program change
and a start event: the first two are stored and the third is dropped. -/
theorem C9_full_queue_drops_newest_witness :
    push_all [(⟨0, 3, [0x90, 60, 100]⟩, 1000), (⟨5, 2, [0xc0, 7]⟩, 1000)] ⟨⟨16, []⟩, 0⟩
      = ([1, 1], ⟨⟨16, [⟨1000, ⟨0x90, 60, 100⟩, 3⟩, ⟨1005, ⟨0xc0, 7, 0⟩, 2⟩]⟩, 0⟩)
    ∧ process_jmidi_event ⟨9, 1, [0xfa]⟩ 1000
        (push_all [(⟨0, 3, [0x90, 60, 100]⟩, 1000), (⟨5, 2, [0xc0, 7]⟩, 1000)] ⟨⟨16, []⟩, 0⟩).2
      = (0, ⟨⟨16, [⟨1000, ⟨0x90, 60, 100⟩, 3⟩, ⟨1005, ⟨0xc0, 7, 0⟩, 2⟩]⟩, 1⟩) :=
  C9_full_queue_drops_newest 16 2 [(⟨0, 3, [0x90, 60, 100]⟩, 1000), (⟨5, 2, [0xc0, 7]⟩, 1000)]
    ⟨9, 1, [0xfa]⟩ 1000 0 (by decide) (by decide) (by decide) (by decide) (by decide)

/-- A call of `process_jmidi_event` leaves the stored records in place and adds at most
one record at the end. -/
theorem process_jmidi_event_appends (ev : jack_midi_event_t) (tme : Nat) (h : Handoff) :
    ∃ extra, (process_jmidi_event ev tme h).2.rb.content = h.rb.content ++ extra := by
  unfold process_jmidi_event
  split
  · exact ⟨[], by simp⟩
  · split
    · exact ⟨_, rfl⟩
    · exact ⟨[], by simp⟩

/-- The invariant holds when `main` enters its loop. -/
theorem inv_init : Inv init_state := by
  simp [Inv, init_state, idle, State.dispatched_events, jack_ringbuffer_create]

/-- A call of `process_jmidi_event` by the realtime thread keeps the invariant. -/
theorem inv_midi (cfg : Setup) (s : State) (ev : jack_midi_event_t) (tme : Nat)
    (hinv : Inv s) : Inv (step cfg s (Input.midi ev tme)) := by
  obtain ⟨extra, hex⟩ := process_jmidi_event_appends ev tme s.handoff
  have hdrop : (process_jmidi_event ev tme s.handoff).2.rb.content.drop
      s.handoff.rb.content.length = extra := by
    rw [hex]; simp
  have hlen : s.handoff.rb.content.length
      ≤ (process_jmidi_event ev tme s.handoff).2.rb.content.length := by
    rw [hex]; simp
  unfold Inv at hinv ⊢
  simp only [step, hdrop]
  split at hinv <;> rename_i hpc <;> simp only [hpc]
  · refine ⟨?_, by omega⟩
    simp only [State.dispatched_events] at hinv ⊢
    rw [hinv.1, hex, List.append_assoc]
  all_goals first
    | (unfold holding at hinv ⊢
       obtain ⟨h1, h2⟩ := hinv
       refine ⟨?_, by simp only []; omega⟩
       simp only [State.dispatched_events] at h1 ⊢
       rw [h1, hex]; simp)
    | (unfold idle at hinv ⊢
       simp only [State.dispatched_events] at hinv ⊢
       rcases hinv with h1 | ⟨hr, x, h1⟩
       · left; rw [h1, hex, List.append_assoc]
       · right; exact ⟨hr, x, by rw [h1, hex]; simp⟩)

/-- The return of `pthread_cond_wait` keeps the invariant. -/
theorem inv_wake (s : State) (hinv : Inv s) : Inv (wake s) := by
  unfold wake
  split
  · rename_i hpc
    unfold Inv at hinv ⊢
    simp only [hpc] at hinv
    simpa [idle, State.dispatched_events] using hinv
  · exact hinv

/-- The signal handler keeps the invariant. -/
theorem inv_signal (s : State) (hinv : Inv s) :
    Inv { s with run := RunState.Terminate } := by
  unfold Inv at hinv ⊢
  simp only []
  split at hinv <;> rename_i hpc <;> simp only [hpc]
  · exact hinv
  · exact hinv
  · exact hinv
  · exact hinv
  all_goals
    unfold idle at hinv ⊢
    simp only [State.dispatched_events] at hinv ⊢
    rcases hinv with h1 | ⟨_, x, h1⟩
    · left; exact h1
    · right; exact ⟨trivial, x, h1⟩

/-- The shutdown callback keeps the invariant. -/
theorem inv_shutdown (s : State) (hinv : Inv s) : Inv { s with j_client := false } := by
  unfold Inv at hinv ⊢
  simp only []
  split at hinv <;> rename_i hpc <;> simp only [hpc] <;> exact hinv

/-- An advance of the consumer loop keeps the invariant. -/
theorem inv_consumer (cfg : Setup) (now : Nat) (s : State) (hinv : Inv s) :
    Inv (consumer_step cfg now s) := by
  unfold consumer_step
  unfold Inv at hinv
  split
  · -- line 1007
    rename_i hpc
    simp only [hpc] at hinv
    split
    · rename_i hrun
      unfold idle at hinv
      rcases hinv with h1 | ⟨hr, _⟩
      · unfold Inv
        refine ⟨h1, ?_⟩
        simp [jack_ringbuffer_read_space, sizeof_MidiMessage]
      · exact absurd hr hrun.1
    · unfold Inv
      exact hinv
  · -- line 1010
    rename_i i mqlen hpc
    simp only [hpc] at hinv
    obtain ⟨h1, h2⟩ := hinv
    split
    · rename_i hlt
      cases hc : s.handoff.rb.content with
      | nil =>
        rw [hc] at h2
        simp at h2
        omega
      | cons x rest =>
        rw [hc] at h1 h2
        simp only [List.length_cons] at h2
        simp only [jack_ringbuffer_read, hc, Option.getD_some]
        split
        · unfold Inv holding
          exact ⟨h1, by simp only []; omega⟩
        · unfold Inv holding
          exact ⟨h1, by simp only []; omega⟩
    · unfold Inv idle
      left
      exact h1
  · -- line 1023
    rename_i i mqlen mmsg t hpc
    simp only [hpc] at hinv
    split
    · split
      · unfold Inv; exact hinv
      · unfold Inv; exact hinv
    · unfold Inv; exact hinv
  · -- line 1030
    rename_i i mqlen mmsg t hpc
    simp only [hpc] at hinv
    split
    · rename_i hr
      unfold Inv idle
      right
      exact ⟨hr, mmsg, hinv.1⟩
    · unfold Inv; exact hinv
  · -- lines 1035-1048
    rename_i i mqlen mmsg t hpc
    simp only [hpc] at hinv
    obtain ⟨h1, h2⟩ := hinv
    split
    · unfold Inv idle
      left
      simp only [State.dispatched_events] at h1 ⊢
      rw [h1]; simp
    · unfold Inv
      refine ⟨?_, by simp only []; omega⟩
      simp only [State.dispatched_events] at h1 ⊢
      rw [h1]; simp
  · rename_i hpc
    unfold Inv
    simp only [hpc] at hinv ⊢
    exact hinv
  · rename_i hpc
    unfold Inv
    simp only [hpc] at hinv ⊢
    exact hinv
  · rename_i f hpc
    unfold Inv
    simp only [hpc] at hinv ⊢
    exact hinv

/-- Every input keeps the invariant. -/
theorem inv_step (cfg : Setup) (s : State) (inp : Input) (hinv : Inv s) :
    Inv (step cfg s inp) := by
  cases inp with
  | signal => exact inv_wake _ (inv_signal s hinv)
  | shutdown => exact inv_wake _ (inv_shutdown s hinv)
  | midi ev tme => exact inv_midi cfg s ev tme hinv
  | wakeup => exact inv_wake s hinv
  | consumer now => exact inv_consumer cfg now s hinv

/-- The invariant holds after every sequence of inputs. -/
theorem inv_run_inputs (cfg : Setup) :
    ∀ (inputs : List Input) (s : State), Inv s → Inv (run_inputs cfg inputs s) := by
  intro inputs
  induction inputs with
  | nil => intro s h; exact h
  | cons inp rest ih => intro s h; exact ih _ (inv_step cfg s inp h)

/-- Under the invariant the records handed to rule matching are the first of the records
written to the ring buffer, in the same order. -/
theorem inv_prefix (s : State) (hinv : Inv s) : s.dispatched_events <+: s.enqueued := by
  unfold Inv at hinv
  split at hinv
  · exact ⟨_, hinv.1.symm⟩
  · exact ⟨_, hinv.1.symm⟩
  · exact ⟨_, hinv.1.symm⟩
  · exact ⟨_, hinv.1.symm⟩
  all_goals
    unfold idle at hinv
    rcases hinv with h1 | ⟨_, x, h1⟩
    · exact ⟨_, h1.symm⟩
    · exact ⟨_, h1.symm⟩

/-- C10: in every sync mode and whatever the realtime thread, the signal handler, the
shutdown callback and the frame clock do, the records the consumer loop has handed to rule
matching are at every moment the first of the records written to the ring buffer, in the
order in which they were written: none is reordered, duplicated or passed over. -/
theorem C10_dispatch_order_is_enqueue_order (cfg : Setup) (inputs : List Input) :
    (run_inputs cfg inputs init_state).dispatched_events
      <+: (run_inputs cfg inputs init_state).enqueued :=
  inv_prefix _ (inv_run_inputs cfg inputs init_state inv_init)

/-- A run in the immediate mode: two events are written, the consumer reads and dispatches
both in that order and goes to wait. -/
theorem consumer_loop_immediate_example :
    let s := run_inputs (demo_setup SyncMode.SyncImmediate)
      [Input.midi ⟨0, 3, [0x91, 0x3C, 0x7F]⟩ 1000, Input.midi ⟨7, 1, [0xfa]⟩ 1000,
       Input.consumer 0, Input.consumer 0, Input.consumer 0, Input.consumer 0,
       Input.consumer 0, Input.consumer 0] init_state
    s.enqueued = [⟨1000, ⟨0x91, 0x3C, 0x7F⟩, 3⟩, ⟨1007, ⟨0xfa, 0, 0⟩, 1⟩]
    ∧ s.dispatched_events = [⟨1000, ⟨0x91, 0x3C, 0x7F⟩, 3⟩, ⟨1007, ⟨0xfa, 0, 0⟩, 1⟩]
    ∧ s.pc = Pc.cond_wait ∧ s.handoff.rb.content = [] := by
  decide

/-- A run in the relative mode: the event stamped 1000 is held while the frame clock reads
less than 1024 and dispatched once it reads 1030; an event written meanwhile stays
stored. -/
theorem consumer_loop_relative_example :
    let s := run_inputs (demo_setup SyncMode.SyncRelative)
      [Input.midi ⟨0, 3, [0x91, 0x3C, 0x7F]⟩ 1000,
       Input.consumer 0, Input.consumer 900, Input.consumer 1010,
       Input.midi ⟨7, 1, [0xfa]⟩ 1000, Input.consumer 1030,
       Input.consumer 0, Input.consumer 0, Input.consumer 0] init_state
    s.enqueued = [⟨1000, ⟨0x91, 0x3C, 0x7F⟩, 3⟩, ⟨1007, ⟨0xfa, 0, 0⟩, 1⟩]
    ∧ s.dispatched = [⟨⟨1000, ⟨0x91, 0x3C, 0x7F⟩, 3⟩, some 1030⟩]
    ∧ s.pc = Pc.for_test 1 1 ∧ s.handoff.rb.content = [⟨1007, ⟨0xfa, 0, 0⟩, 1⟩] := by
  decide

/-- C11: in the relative mode with a dead zone of 24 frames, the delay loop of line 1023
stops waiting for an event stamped 0x08000000 when the clock reads 0x07ffffff, although the
clock is below the deadline and the most significant bits of deadline and clock agree; and
it goes on waiting for an event stamped 0x80000000 when the clock reads 0x70000000, although
these bits differ.  Line 1024 tests bit 27 (`0x8000000`) of `mmsg.tme` and of `now`. -/
theorem C11_rollover_guard_tests_bit_27 :
    (0x07ffffff < (0x08000000 + (demo_setup SyncMode.SyncRelative).deadzone) % 4294967296
      ∧ ((0x08000000 + (demo_setup SyncMode.SyncRelative).deadzone) % 4294967296) &&& 0x80000000
          = 0x07ffffff &&& 0x80000000
      ∧ (consumer_step (demo_setup SyncMode.SyncRelative) 0x07ffffff
          { init_state with
            pc := Pc.delay_test 0 1 ⟨0x08000000, ⟨0x90, 0x3C, 0x7F⟩, 3⟩ 0x07ffffff }).pc
          = Pc.after_delay 0 1 ⟨0x08000000, ⟨0x90, 0x3C, 0x7F⟩, 3⟩ 0x07ffffff)
    ∧ (0x70000000 < (0x80000000 + (demo_setup SyncMode.SyncRelative).deadzone) % 4294967296
      ∧ ((0x80000000 + (demo_setup SyncMode.SyncRelative).deadzone) % 4294967296) &&& 0x80000000
          ≠ 0x70000000 &&& 0x80000000
      ∧ (consumer_step (demo_setup SyncMode.SyncRelative) 0x70000001
          { init_state with
            pc := Pc.delay_test 0 1 ⟨0x80000000, ⟨0x90, 0x3C, 0x7F⟩, 3⟩ 0x70000000 }).pc
          = Pc.delay_test 0 1 ⟨0x80000000, ⟨0x90, 0x3C, 0x7F⟩, 3⟩ 0x70000001) := by
  decide

/-- Bit `i` of the mask 0xf0 is set exactly for `i` from 4 to 7. -/
theorem testBit_240 (i : Nat) : Nat.testBit 240 i = (decide (4 ≤ i) && decide (i < 8)) := by
  by_cases h : i < 8
  · interval_cases i <;> decide
  · have : 240 < 2 ^ i := by
      have : 2 ^ 8 ≤ 2 ^ i := Nat.pow_le_pow_right (by norm_num) (by omega)
      omega
    rw [Nat.testBit_lt_two_pow this]
    simp [h]

/-- Masking with 0xf0 keeps bits 4 to 7 in place. -/
theorem and_0xf0 (d : Nat) : d &&& 0xf0 = 16 * (d / 16 % 16) := by
  apply Nat.eq_of_testBit_eq
  intro i
  have h16 : (16 : Nat) = 2 ^ 4 := by norm_num
  rw [Nat.testBit_and, testBit_240, h16, Nat.testBit_mul_pow_two, Nat.testBit_mod_two_pow,
    ← Nat.shiftRight_eq_div_pow, Nat.testBit_shiftRight]
  by_cases h4 : 4 ≤ i
  · by_cases h8 : i < 8
    · have : i - 4 < 4 := by omega
      have e : 4 + (i - 4) = i := by omega
      simp [h4, h8, this, e]
    · have : ¬ i - 4 < 4 := by omega
      simp [h4, h8, this]
  · simp [h4]

/-- C16, refuted as stated: on a note-on event with status byte 0x91 the placeholder `s`
selects 144, not a value from 0 to 15. -/
theorem C16_counterexample :
    ¬ (∀ m : MidiMessage, ∃ v : Int, select_field 's' m = some v ∧ 0 ≤ v ∧ v ≤ 15) := by
  intro h
  obtain ⟨v, hv, _, h15⟩ := h demo_event
  have : select_field 's' demo_event = some 144 := by decide
  rw [this] at hv
  cases hv
  omega

/-- C16, amended: the placeholder `0` selects the first byte (0..255), `1` and `2` the
second and third byte reduced to 7 bits, `c` the low nibble of the first byte (0..15) and
`s` the first byte with its low nibble cleared, that is 16 times the high nibble, a
multiple of 16 from 0 to 240. -/
theorem C16_selected_field (m : MidiMessage) :
    select_field '0' m = some ((m.d.get 0 % 256 : Nat) : Int)
    ∧ select_field '1' m = some ((m.d.get 1 % 128 : Nat) : Int)
    ∧ select_field '2' m = some ((m.d.get 2 % 128 : Nat) : Int)
    ∧ select_field 'c' m = some ((m.d.get 0 % 16 : Nat) : Int)
    ∧ select_field 's' m = some ((16 * (m.d.get 0 / 16 % 16) : Nat) : Int) := by
  have h255 : ∀ d : Nat, d &&& 0xff = d % 256 := fun d =>
    Nat.and_pow_two_sub_one_eq_mod d 8
  have h127 : ∀ d : Nat, d &&& 0x7f = d % 128 := fun d =>
    Nat.and_pow_two_sub_one_eq_mod d 7
  have h15 : ∀ d : Nat, d &&& 0x0f = d % 16 := fun d =>
    Nat.and_pow_two_sub_one_eq_mod d 4
  refine ⟨?_, ?_, ?_, ?_, ?_⟩
  · simp [select_field, h255]
  · simp [select_field, h127]
  · simp [select_field, h127]
  · simp [select_field, h15]
  · simp only [select_field]
    rw [and_0xf0]
    simp

/-- The order of two characters is the order of their codes. -/
theorem char_le_iff (a b : Char) : a ≤ b ↔ a.toNat ≤ b.toNat := Iff.rfl

/-- A character that `tolower` maps to a lower-case letter is a letter. -/
theorem tolower_letter (c : Char) (h : 'a' ≤ tolower c ∧ tolower c ≤ 'z') :
    (65 ≤ c.toNat ∧ c.toNat ≤ 90) ∨ (97 ≤ c.toNat ∧ c.toNat ≤ 122) := by
  unfold tolower at h
  split at h
  · rename_i hu
    left
    exact ⟨(char_le_iff _ _).1 hu.1, (char_le_iff _ _).1 hu.2⟩
  · right
    exact ⟨(char_le_iff _ _).1 h.1, (char_le_iff _ _).1 h.2⟩

/-- The conversion `%i` reads no number from a string that starts with a letter. -/
theorem scan_i_letter (c : Char) (cs : List Char)
    (h : (65 ≤ c.toNat ∧ c.toNat ≤ 90) ∨ (97 ≤ c.toNat ∧ c.toNat ≤ 122)) :
    scan_i (c :: cs) = none := by
  have hne : ∀ x : Char, (x.toNat < 65) → c ≠ x := by
    intro x hx hcx
    subst hcx
    omega
  have hsp : isspace c = false := by
    simp only [isspace, Bool.or_eq_false_iff, beq_eq_false_iff_ne]
    refine ⟨⟨⟨⟨⟨?_, ?_⟩, ?_⟩, ?_⟩, ?_⟩, ?_⟩ <;> exact hne _ (by decide)
  have hminus : c ≠ '-' := hne _ (by decide)
  have hplus : c ≠ '+' := hne _ (by decide)
  have hzero : c ≠ '0' := hne _ (by decide)
  have hdig : ∀ d, digit_val c = some d → ¬ d < 10 := by
    intro d hd
    unfold digit_val at hd
    split at hd
    · rename_i h1
      have := (char_le_iff _ _).1 h1.2
      have h9 : ('9' : Char).toNat = 57 := by decide
      omega
    · split at hd
      · rename_i h1
        have := (char_le_iff _ _).1 h1.1
        have ha : ('a' : Char).toNat = 97 := by decide
        cases hd
        omega
      · split at hd
        · rename_i h1
          have := (char_le_iff _ _).1 h1.1
          have ha : ('A' : Char).toNat = 65 := by decide
          cases hd
          omega
        · cases hd
  have hsd : scan_digits 10 (c :: cs) 0 0 = (0, 0, c :: cs) := by
    unfold scan_digits
    cases hd : digit_val c with
    | none => rfl
    | some d => simp [hdig d hd]
  simp [scan_i, skip_space, hsp, scan_sign, hminus, hplus, hzero, hsd]

/-- A token that `strcasecmp` finds equal to a name starting with a letter is not read as
a number by `%i`. -/
theorem scan_i_name (tok : List Char) (n0 : Char) (ns : List Char)
    (hletter : 'a' ≤ tolower n0 ∧ tolower n0 ≤ 'z')
    (heq : strcasecmp_eq tok (n0 :: ns) = true) : scan_i tok = none := by
  simp only [strcasecmp_eq, beq_iff_eq, List.map_cons] at heq
  cases tok with
  | nil => simp at heq
  | cons c cs =>
    simp only [List.map_cons, List.cons.injEq] at heq
    exact scan_i_letter c cs (tolower_letter c (by rw [heq.1]; exact hletter))

/-- Tokens that `strcasecmp` finds equal compare alike with every name. -/
theorem strcasecmp_eq_congr (tok name x : List Char) (h : strcasecmp_eq tok name = true) :
    strcasecmp_eq tok x = strcasecmp_eq name x := by
  simp only [strcasecmp_eq, beq_iff_eq] at h
  simp only [strcasecmp_eq, h]

/-- A token that `strcasecmp` finds equal to a name, neither being read as a number, is
translated like the name. -/
theorem parse_field_congr (i : Nat) (tok name : List Char)
    (h : strcasecmp_eq tok name = true) (htok : scan_i tok = none)
    (hname : scan_i name = none) : parse_field i tok = parse_field i name := by
  have hc := strcasecmp_eq_congr tok name
  simp only [parse_field, hc _ h, sscanf, fmt_i_slash_i, fmt_i, htok, hname]

/-- Outside field 0 the field index does not enter the translation of a name. -/
theorem parse_field_later (i : Nat) (tok : List Char) (hi : i ≠ 0)
    (htok : scan_i tok = none) : parse_field i tok = parse_field 1 tok := by
  simp [parse_field, hi, sscanf, fmt_i_slash_i, fmt_i, htok]

/-- A token that `strcasecmp` finds equal to a name starting with a letter is translated
like the name in field 0, and like the name in field 1 in the other fields. -/
theorem parse_field_name (i : Nat) (tok : List Char) (n0 : Char) (ns : List Char)
    (hletter : 'a' ≤ tolower n0 ∧ tolower n0 ≤ 'z')
    (heq : strcasecmp_eq tok (n0 :: ns) = true) :
    parse_field i tok
      = if i = 0 then parse_field 0 (n0 :: ns) else parse_field 1 (n0 :: ns) := by
  have htok := scan_i_name tok n0 ns hletter heq
  have hname : scan_i (n0 :: ns) = none :=
    scan_i_name (n0 :: ns) n0 ns hletter (by simp [strcasecmp_eq])
  rw [parse_field_congr i tok (n0 :: ns) heq htok hname]
  by_cases hi : i = 0
  · simp [hi]
  · simp only [hi, if_false]
    exact parse_field_later i (n0 :: ns) hi hname

/-- A token from which `%i` reads a number is none of the names. -/
theorem parse_field_number (i : Nat) (tok : List Char) (h : scan_i tok ≠ none) :
    parse_field i tok =
      match sscanf fmt_i_slash_i tok with
      | [ScanVal.int p0, ScanVal.int p1] => some (low_byte p1, low_byte p0)
      | _ =>
        match sscanf fmt_i tok with
        | [ScanVal.int p0] => some (if i = 0 then 0xff else 0x7f, low_byte p0)
        | _ => none := by
  have hno : ∀ (n0 : Char) (ns : List Char), ('a' ≤ tolower n0 ∧ tolower n0 ≤ 'z') →
      strcasecmp_eq tok (n0 :: ns) = false := by
    intro n0 ns hl
    by_contra hne
    exact h (scan_i_name tok n0 ns hl (by simpa using hne))
  have h1 := hno 'A' "NY".toList (by decide)
  have h2 := hno 'N' "OTE".toList (by decide)
  have h3 := hno 'N' "OTEOFF".toList (by decide)
  have h4 := hno 'N' "OTEON".toList (by decide)
  have h5 := hno 'K' "eyPressure".toList (by decide)
  have h6 := hno 'C' "C".toList (by decide)
  have h7 := hno 'P' "GM".toList (by decide)
  have h8 := hno 'C' "hanPressure".toList (by decide)
  have h9 := hno 'P' "itch".toList (by decide)
  have h10 := hno 'P' "os".toList (by decide)
  have h11 := hno 'S' "ong".toList (by decide)
  have h12 := hno 'S' "tart".toList (by decide)
  have h13 := hno 'C' "ont".toList (by decide)
  have h14 := hno 'S' "top".toList (by decide)
  unfold parse_field
  rw [show "ANY".toList = 'A' :: "NY".toList from rfl, h1,
    show "NOTE".toList = 'N' :: "OTE".toList from rfl, h2,
    show "NOTEOFF".toList = 'N' :: "OTEOFF".toList from rfl, h3,
    show "NOTEON".toList = 'N' :: "OTEON".toList from rfl, h4,
    show "KeyPressure".toList = 'K' :: "eyPressure".toList from rfl, h5,
    show "CC".toList = 'C' :: "C".toList from rfl, h6,
    show "PGM".toList = 'P' :: "GM".toList from rfl, h7,
    show "ChanPressure".toList = 'C' :: "hanPressure".toList from rfl, h8,
    show "Pitch".toList = 'P' :: "itch".toList from rfl, h9,
    show "Pos".toList = 'P' :: "os".toList from rfl, h10,
    show "Song".toList = 'S' :: "ong".toList from rfl, h11,
    show "Start".toList = 'S' :: "tart".toList from rfl, h12,
    show "Cont".toList = 'C' :: "ont".toList from rfl, h13,
    show "Stop".toList = 'S' :: "top".toList from rfl, h14]
  simp only [Bool.false_eq_true, and_false, if_false]

/-- The loop of `skip_space` drops the longest run of white space. -/
theorem skip_space_eq (s : List Char) : skip_space s = s.dropWhile isspace := by
  induction s with
  | nil => rfl
  | cons c cs ih =>
    simp only [skip_space, List.dropWhile_cons]
    split <;> simp_all

/-- The digit count that `scan_digits` returns is at least the count on entry. -/
theorem scan_digits_count (base : Nat) :
    ∀ (s : List Char) (acc n : Nat), n ≤ (scan_digits base s acc n).2.1 := by
  intro s
  induction s with
  | nil => intro acc n; simp [scan_digits]
  | cons c cs ih =>
    intro acc n
    unfold scan_digits
    cases hd : digit_val c with
    | none => simp
    | some d =>
      simp only []
      split
      · have := ih (acc * base + d) (n + 1)
        omega
      · simp

/-- The characters that `digit_val` gives a value below ten are the decimal digits. -/
theorem digit_val_decimal (c : Char) :
    (∃ d, digit_val c = some d ∧ d < 10) ↔ ('0' ≤ c ∧ c ≤ '9') := by
  have h0 : ('0' : Char).toNat = 48 := by decide
  have h9 : ('9' : Char).toNat = 57 := by decide
  have ha : ('a' : Char).toNat = 97 := by decide
  have hA : ('A' : Char).toNat = 65 := by decide
  constructor
  · rintro ⟨d, hd, hlt⟩
    by_contra hno
    unfold digit_val at hd
    rw [if_neg hno] at hd
    split at hd
    · rename_i h1
      have := (char_le_iff _ _).1 h1.1
      cases hd
      omega
    · split at hd
      · rename_i h1
        have := (char_le_iff _ _).1 h1.1
        cases hd
        omega
      · cases hd
  · intro h
    refine ⟨c.toNat - 48, by simp [digit_val, h], ?_⟩
    have := (char_le_iff _ _).1 h.2
    omega

/-- The loop of `scan_digits` in base ten, entered without digit read, reads no digit
exactly when the first character is not a decimal digit. -/
theorem scan_digits_none (z : Char) (t : List Char) :
    (scan_digits 10 (z :: t) 0 0).2.1 = 0 ↔ ¬ ('0' ≤ z ∧ z ≤ '9') := by
  rw [← digit_val_decimal]
  unfold scan_digits
  cases hd : digit_val z with
  | none => simp
  | some d =>
    simp only []
    by_cases hlt : d < 10
    · rw [if_pos hlt]
      have := scan_digits_count 10 t (0 * 10 + d) (0 + 1)
      constructor
      · intro h
        omega
      · intro h
        exact absurd ⟨d, rfl, hlt⟩ h
    · rw [if_neg hlt]
      simp [hlt]

/-- After the white space and the sign, the conversion `%i` reads a number exactly when
the next character is a decimal digit. -/
theorem scan_i_head (neg : Bool) (z : Char) (t : List Char) :
    (if z == '0' then
        match t with
        | [] => some ((0 : Int), ([] : List Char))
        | x :: u =>
          if x == 'x' || x == 'X' then
            some (store_int neg (scan_digits 16 u 0 1).1, (scan_digits 16 u 0 1).2.2)
          else
            some (store_int neg (scan_digits 8 (x :: u) 0 1).1,
              (scan_digits 8 (x :: u) 0 1).2.2)
      else
        if (scan_digits 10 (z :: t) 0 0).2.1 = 0 then none
        else some (store_int neg (scan_digits 10 (z :: t) 0 0).1,
          (scan_digits 10 (z :: t) 0 0).2.2)) ≠ none
      ↔ ('0' ≤ z ∧ z ≤ '9') := by
  by_cases hz : z = '0'
  · subst hz
    simp only [beq_self_eq_true, if_true]
    constructor
    · intro _; decide
    · intro _
      cases t with
      | nil => simp
      | cons x u => simp only []; split <;> simp
  · have hz2 : (z == '0') = false := by simpa using hz
    simp only [hz2, Bool.false_eq_true, if_false]
    have := scan_digits_none z t
    by_cases hn : (scan_digits 10 (z :: t) 0 0).2.1 = 0
    · simp only [hn, if_true]
      constructor
      · intro h; exact absurd rfl h
      · intro h; exact absurd h (this.1 hn)
    · simp only [hn, if_false]
      constructor
      · intro _
        by_contra hno
        exact hn (this.2 hno)
      · intro _; simp

/-- The conversion `%i` reads a number exactly from the strings that begin with a
number. -/
theorem scan_i_iff (tok : List Char) : scan_i tok ≠ none ↔ begins_with_number tok = true := by
  unfold scan_i begins_with_number
  rw [← skip_space_eq]
  cases skip_space tok with
  | nil => simp
  | cons c cs =>
    simp only [scan_sign]
    by_cases hm : c = '-'
    · subst hm
      simp only [beq_self_eq_true, if_true, Bool.true_or]
      cases cs with
      | nil => simp
      | cons z t =>
        simp only [decide_eq_true_eq]
        exact scan_i_head true z t
    · have hm2 : (c == '-') = false := by simpa using hm
      by_cases hp : c = '+'
      · subst hp
        simp only [hm2, Bool.false_eq_true, if_false, beq_self_eq_true, if_true, Bool.or_true]
        cases cs with
        | nil => simp
        | cons z t =>
          simp only [decide_eq_true_eq]
          exact scan_i_head false z t
      · have hp2 : (c == '+') = false := by simpa using hp
        simp only [hm2, hp2, Bool.false_eq_true, if_false, Bool.or_self, decide_eq_true_eq]
        exact scan_i_head false c cs

/-- A token from which `%i` reads a number is translated. -/
theorem parse_field_of_number (i : Nat) (tok : List Char) (h : scan_i tok ≠ none) :
    parse_field i tok ≠ none := by
  rw [parse_field_number i tok h]
  cases hs : scan_i tok with
  | none => exact absurd hs h
  | some pr =>
    obtain ⟨v, rest⟩ := pr
    have h1 : sscanf fmt_i tok = [ScanVal.int v] := by
      simp [sscanf, fmt_i, hs]
    split
    · simp
    · rw [h1]
      simp

/-- The chain of lines 372-410 translates exactly the tokens of `accepted_field`. -/
theorem parse_field_accepts (i : Nat) (tok : List Char) :
    parse_field i tok ≠ none ↔ accepted_field i tok = true := by
  by_cases hnum : scan_i tok ≠ none
  · have hb := (scan_i_iff tok).1 hnum
    constructor
    · intro _
      simp [accepted_field, hb]
    · intro _
      exact parse_field_of_number i tok hnum
  · have hnone : scan_i tok = none := by simpa using hnum
    have hb : begins_with_number tok = false := by
      cases hbb : begins_with_number tok with
      | false => rfl
      | true => exact absurd ((scan_i_iff tok).2 hbb) hnum
    have h1 : sscanf fmt_i_slash_i tok = [] := by simp [sscanf, fmt_i_slash_i, hnone]
    have h2 : sscanf fmt_i tok = [] := by simp [sscanf, fmt_i, hnone]
    unfold parse_field accepted_field first_field_names
    rw [h1, h2, hb]
    simp only [List.any_cons, List.any_nil, Bool.or_false]
    generalize strcasecmp_eq tok "ANY".toList = b0
    generalize strcasecmp_eq tok "NOTE".toList = b1
    generalize strcasecmp_eq tok "NOTEOFF".toList = b2
    generalize strcasecmp_eq tok "NOTEON".toList = b3
    generalize strcasecmp_eq tok "KeyPressure".toList = b4
    generalize strcasecmp_eq tok "CC".toList = b5
    generalize strcasecmp_eq tok "PGM".toList = b6
    generalize strcasecmp_eq tok "ChanPressure".toList = b7
    generalize strcasecmp_eq tok "Pitch".toList = b8
    generalize strcasecmp_eq tok "Pos".toList = b9
    generalize strcasecmp_eq tok "Song".toList = b10
    generalize strcasecmp_eq tok "Start".toList = b11
    generalize strcasecmp_eq tok "Cont".toList = b12
    generalize strcasecmp_eq tok "Stop".toList = b13
    cases b0
    swap
    · simp
    by_cases hi : i = 0
    swap
    · simp [hi]
    simp only [hi, true_and, decide_True, Bool.true_and, Bool.false_eq_true, if_false,
      Bool.false_or]
    cases b1
    swap
    · simp
    cases b2
    swap
    · simp
    cases b3
    swap
    · simp
    cases b4
    swap
    · simp
    cases b5
    swap
    · simp
    cases b6
    swap
    · simp
    cases b7
    swap
    · simp
    cases b8
    swap
    · simp
    cases b9
    swap
    · simp
    cases b10
    swap
    · simp
    cases b11
    swap
    · simp
    cases b12
    swap
    · simp
    cases b13 <;> simp

/-- The outcome of the loop of `new_rule` in terms of the tokens: with one to three tokens
that are all translated, the loop ends with `i` at their number and their pairs stored;
otherwise it ends with `i` at 0 or -1. -/
theorem new_rule_loop_outcome (toks : List (List Char)) :
    ((1 ≤ toks.length ∧ toks.length ≤ 3
        ∧ ∀ i, i < toks.length → parse_field i (toks.getD i []) ≠ none) →
      ∃ r : Rule, new_rule_loop toks 0 zero_rule = ((toks.length : Int), r)
        ∧ r.len = 0 ∧ r.message_count = 0 ∧ r.msg = []
        ∧ ∀ i, i < toks.length →
            parse_field i (toks.getD i []) = some (r.mask.get i, r.match_.get i))
    ∧ ((toks.length = 0 ∨ 3 < toks.length
        ∨ ∃ i, i < toks.length ∧ parse_field i (toks.getD i []) = none) →
      (new_rule_loop toks 0 zero_rule).1 = 0 ∨ (new_rule_loop toks 0 zero_rule).1 = -1) := by
  rcases toks with _ | ⟨t0, _ | ⟨t1, _ | ⟨t2, _ | ⟨t3, rest⟩⟩⟩⟩
  · -- no token
    refine ⟨fun h => absurd h.1 (by simp), fun _ => Or.inl (by simp [new_rule_loop])⟩
  · -- one token
    cases h0 : parse_field 0 t0 with
    | none =>
      refine ⟨fun h => absurd h0 (h.2.2 0 (by simp)), fun _ => Or.inr ?_⟩
      simp [new_rule_loop, h0]
    | some p0 =>
      refine ⟨fun _ => ⟨_, by simp [new_rule_loop, h0]; rfl, rfl, rfl, rfl, ?_⟩, ?_⟩
      · intro i hi
        have : i = 0 := by simpa using hi
        subst this
        simp [h0, Bytes3.set, Bytes3.get, zero_rule]
      · rintro (h | h | ⟨i, hi, hp⟩)
        · simp at h
        · simp at h
        · have : i = 0 := by simpa using hi
          subst this
          simp [h0] at hp
  · -- two tokens
    cases h0 : parse_field 0 t0 with
    | none =>
      refine ⟨fun h => absurd h0 (h.2.2 0 (by simp)), fun _ => Or.inr ?_⟩
      simp [new_rule_loop, h0]
    | some p0 =>
      cases h1 : parse_field 1 t1 with
      | none =>
        refine ⟨fun h => absurd h1 (h.2.2 1 (by simp)), fun _ => Or.inr ?_⟩
        simp [new_rule_loop, h0, h1]
      | some p1 =>
        refine ⟨fun _ => ⟨_, by simp [new_rule_loop, h0, h1]; rfl, rfl, rfl, rfl, ?_⟩, ?_⟩
        · intro i hi
          have : i = 0 ∨ i = 1 := by simp at hi; omega
          rcases this with rfl | rfl
          · simp [h0, Bytes3.set, Bytes3.get, zero_rule]
          · simp [h1, Bytes3.set, Bytes3.get, zero_rule]
        · rintro (h | h | ⟨i, hi, hp⟩)
          · simp at h
          · simp at h
          · have : i = 0 ∨ i = 1 := by simp at hi; omega
            rcases this with rfl | rfl
            · simp [h0] at hp
            · simp [h1] at hp
  · -- three tokens
    cases h0 : parse_field 0 t0 with
    | none =>
      refine ⟨fun h => absurd h0 (h.2.2 0 (by simp)), fun _ => Or.inr ?_⟩
      simp [new_rule_loop, h0]
    | some p0 =>
      cases h1 : parse_field 1 t1 with
      | none =>
        refine ⟨fun h => absurd h1 (h.2.2 1 (by simp)), fun _ => Or.inr ?_⟩
        simp [new_rule_loop, h0, h1]
      | some p1 =>
        cases h2 : parse_field 2 t2 with
        | none =>
          refine ⟨fun h => absurd h2 (h.2.2 2 (by simp)), fun _ => Or.inr ?_⟩
          simp [new_rule_loop, h0, h1, h2]
        | some p2 =>
          refine ⟨fun _ => ⟨_, by simp [new_rule_loop, h0, h1, h2]; rfl, rfl, rfl, rfl, ?_⟩,
            ?_⟩
          · intro i hi
            have : i = 0 ∨ i = 1 ∨ i = 2 := by simp at hi; omega
            rcases this with rfl | rfl | rfl
            · simp [h0, Bytes3.set, Bytes3.get, zero_rule]
            · simp [h1, Bytes3.set, Bytes3.get, zero_rule]
            · simp [h2, Bytes3.set, Bytes3.get, zero_rule]
          · rintro (h | h | ⟨i, hi, hp⟩)
            · simp at h
            · simp at h
            · have : i = 0 ∨ i = 1 ∨ i = 2 := by simp at hi; omega
              rcases this with rfl | rfl | rfl
              · simp [h0] at hp
              · simp [h1] at hp
              · simp [h2] at hp
  · -- four tokens or more
    refine ⟨fun h => absurd h.2.1 (by simp), fun _ => Or.inr ?_⟩
    cases h0 : parse_field 0 t0 <;> cases h1 : parse_field 1 t1 <;>
      cases h2 : parse_field 2 t2 <;> simp [new_rule_loop, h0, h1, h2]

/-- C15, refuted as stated: with a valid field-spec read as the field-spec grammar of the
specification, the line `ANY NOTEON` has two valid field-specs and `new_rule` fails on it,
and the lines `7x` and `144/` hold one invalid field-spec each and `new_rule` appends a
rule of length 1 for them. -/
theorem C15_counterexample :
    ¬ (∀ flt : List Char,
        (1 ≤ (strtok_all flt []).length ∧ (strtok_all flt []).length ≤ 3
          ∧ ∀ tok ∈ strtok_all flt [], spec_valid_field tok = true) →
        (new_rule flt ⟨[], 0⟩).1 ≠ none)
    ∧ ¬ (∀ flt : List Char,
        (∃ tok ∈ strtok_all flt [], spec_valid_field tok = false) →
        (new_rule flt ⟨[], 0⟩).1 = none)
    ∧ (strtok_all "ANY NOTEON".toList [] = ["ANY".toList, "NOTEON".toList]
        ∧ spec_valid_field "ANY".toList = true ∧ spec_valid_field "NOTEON".toList = true
        ∧ new_rule "ANY NOTEON".toList ⟨[], 0⟩ = (none, ⟨[zero_rule], 0⟩))
    ∧ (strtok_all "7x".toList [] = ["7x".toList] ∧ spec_valid_field "7x".toList = false
        ∧ new_rule "7x".toList ⟨[], 0⟩
            = (some 0, ⟨[⟨⟨0xff, 0, 0⟩, ⟨7, 0, 0⟩, 1, 0, []⟩], 1⟩))
    ∧ (strtok_all "144/".toList [] = ["144/".toList]
        ∧ spec_valid_field "144/".toList = false
        ∧ new_rule "144/".toList ⟨[], 0⟩
            = (some 0, ⟨[⟨⟨0xff, 0, 0⟩, ⟨144, 0, 0⟩, 1, 0, []⟩], 1⟩)) := by
  refine ⟨fun h => ?_, fun h => ?_, by decide, by decide, by decide⟩
  · have := h "ANY NOTEON".toList (by decide)
    revert this
    decide
  · have := h "7x".toList (by decide)
    revert this
    decide

/-- C15, amended: `new_rule` on a filter line of one to three tokens, each of them taken
at its position (`ANY` in every field, another class name in the first field only, letter
case apart, or any token that begins with a number), appends at the end of the table a rule
whose length is the number of tokens and whose fields hold the pairs of the tokens; on a
line without token, with more than three tokens or with a token that is not taken at its
position it returns NULL and leaves the rule count and the rules stored before as they
were. -/
theorem C15_new_rule_accepts_one_to_three_fields (flt : List Char) (tbl : RuleTable)
    (hwf : tbl.rule_count ≤ tbl.rules.length) :
    ((1 ≤ (strtok_all flt []).length ∧ (strtok_all flt []).length ≤ 3
        ∧ ∀ i, i < (strtok_all flt []).length →
            accepted_field i ((strtok_all flt []).getD i []) = true) →
      ∃ r : Rule,
        new_rule flt tbl
          = (some tbl.rule_count,
             ⟨tbl.rules.take tbl.rule_count ++ [r], tbl.rule_count + 1⟩)
        ∧ r.len = (strtok_all flt []).length ∧ r.message_count = 0
        ∧ ∀ i, i < (strtok_all flt []).length →
            parse_field i ((strtok_all flt []).getD i []) = some (r.mask.get i, r.match_.get i))
    ∧ (((strtok_all flt []).length = 0 ∨ 3 < (strtok_all flt []).length
        ∨ ∃ i, i < (strtok_all flt []).length
            ∧ accepted_field i ((strtok_all flt []).getD i []) = false) →
      (new_rule flt tbl).1 = none
        ∧ (new_rule flt tbl).2.rule_count = tbl.rule_count
        ∧ (new_rule flt tbl).2.rules.take tbl.rule_count
            = tbl.rules.take tbl.rule_count) := by
  obtain ⟨hacc, hrej⟩ := new_rule_loop_outcome (strtok_all flt [])
  constructor
  · intro h
    obtain ⟨r, hloop, hlen, hmc, hmsg, hfields⟩ :=
      hacc ⟨h.1, h.2.1, fun i hi => (parse_field_accepts i _).2 (h.2.2 i hi)⟩
    refine ⟨{ r with len := (strtok_all flt []).length }, ?_, rfl, hmc, hfields⟩
    unfold new_rule
    rw [hloop]
    have h1 : ¬ (((strtok_all flt []).length : Int) < 1 ∨ ((strtok_all flt []).length : Int) > 3) := by
      omega
    simp only [h1, if_false, Int.toNat_ofNat]
  · intro h
    have h2 : (strtok_all flt []).length = 0 ∨ 3 < (strtok_all flt []).length
        ∨ ∃ i, i < (strtok_all flt []).length
            ∧ parse_field i ((strtok_all flt []).getD i []) = none := by
      rcases h with h | h | ⟨i, hi, hno⟩
      · exact Or.inl h
      · exact Or.inr (Or.inl h)
      · refine Or.inr (Or.inr ⟨i, hi, ?_⟩)
        by_contra hsome
        rw [(parse_field_accepts i _).1 hsome] at hno
        exact absurd hno (by decide)
    have htake : (tbl.rules.take tbl.rule_count ++
        [(new_rule_loop (strtok_all flt []) 0 zero_rule).2]).take tbl.rule_count
        = tbl.rules.take tbl.rule_count := by
      rw [List.take_append_of_le_length (by simp [List.length_take]; omega)]
      simp
    have hbad : (new_rule_loop (strtok_all flt []) 0 zero_rule).1 < 1
        ∨ (new_rule_loop (strtok_all flt []) 0 zero_rule).1 > 3 := by
      rcases hrej h2 with h0 | h0 <;> rw [h0] <;> omega
    unfold new_rule
    simp only [hbad, if_true]
    exact ⟨trivial, trivial, htake⟩

/-- C15 amended, at the line `CC 7x 0/0x40`, which is accepted, and at the line
`ANY NOTEON`, which is rejected, on the empty table. -/
theorem C15_new_rule_accepts_one_to_three_fields_witness :
    (∃ r : Rule,
        new_rule "CC 7x 0/0x40".toList ⟨[], 0⟩ = (some 0, ⟨List.take 0 [] ++ [r], 0 + 1⟩)
        ∧ r.len = (strtok_all "CC 7x 0/0x40".toList []).length ∧ r.message_count = 0
        ∧ ∀ i, i < (strtok_all "CC 7x 0/0x40".toList []).length →
            parse_field i ((strtok_all "CC 7x 0/0x40".toList []).getD i [])
              = some (r.mask.get i, r.match_.get i))
    ∧ ((new_rule "ANY NOTEON".toList ⟨[], 0⟩).1 = none
        ∧ (new_rule "ANY NOTEON".toList ⟨[], 0⟩).2.rule_count = 0
        ∧ (new_rule "ANY NOTEON".toList ⟨[], 0⟩).2.rules.take 0 = List.take 0 []) :=
  ⟨(C15_new_rule_accepts_one_to_three_fields "CC 7x 0/0x40".toList ⟨[], 0⟩ (by decide)).1
      (by decide),
   (C15_new_rule_accepts_one_to_three_fields "ANY NOTEON".toList ⟨[], 0⟩ (by decide)).2
      (Or.inr (Or.inr ⟨1, by decide, by decide⟩))⟩

/-- The predicate `accepted_field` and the grammar `spec_valid_field` on sample tokens:
they agree on `CC`, `0x90/0xf0` and `64` in the first field and on `x`, and differ on
`NOTEON` in the second field and on `7x`, `144/` and `1e3`. -/
theorem accepted_field_examples :
    (accepted_field 0 "CC".toList = true ∧ spec_valid_field "CC".toList = true)
    ∧ (accepted_field 0 "0x90/0xf0".toList = true ∧ spec_valid_field "0x90/0xf0".toList = true)
    ∧ (accepted_field 0 "64".toList = true ∧ spec_valid_field "64".toList = true)
    ∧ (accepted_field 0 "x".toList = false ∧ spec_valid_field "x".toList = false)
    ∧ (accepted_field 1 "NOTEON".toList = false ∧ spec_valid_field "NOTEON".toList = true)
    ∧ (accepted_field 0 "7x".toList = true ∧ spec_valid_field "7x".toList = false)
    ∧ (accepted_field 0 "144/".toList = true ∧ spec_valid_field "144/".toList = false)
    ∧ (accepted_field 0 "1e3".toList = true ∧ spec_valid_field "1e3".toList = false) := by
  decide

/-- C18, refuted as stated: the name `NOTEON` is translated to `(0xf0, 0x90)` in field 0
only; in field 1 it is not translated and `new_rule` rejects the line `ANY NOTEON`. -/
theorem C18_counterexample :
    ¬ (∀ i, i < 3 → parse_field i "NOTEON".toList = some (0xf0, 0x90))
    ∧ parse_field 1 "NOTEON".toList = none
    ∧ new_rule "ANY NOTEON".toList ⟨[], 0⟩ = (none, ⟨[⟨⟨0, 0, 0⟩, ⟨0, 0, 0⟩, 0, 0, []⟩], 0⟩) := by
  refine ⟨fun h => ?_, by decide, by decide⟩
  have := h 1 (by decide)
  revert this
  decide

/-- C18, amended: the chain of lines 372-410 translates a token found equal, letter case
apart, to `ANY` into `(0x00, 0x00)` in every field; a token found equal to one of the
other names into the pair of the table in field 0 and into nothing in fields 1 and 2, where
`new_rule` then fails; a token scanned by `%i/%i` as `match/mask` into
`(mask & 0xff, match & 0xff)`; and a token from which `%i/%i` does not read two numbers
and `%i` reads `n` into the mask 0xff in field 0 and 0x7f in the other fields, with the
match `n & 0xff`. -/
theorem C18_field_spec_table (i : Nat) (tok : List Char) :
    (strcasecmp_eq tok "ANY".toList = true → parse_field i tok = some (0x00, 0x00))
    ∧ (strcasecmp_eq tok "NOTE".toList = true →
        parse_field i tok = if i = 0 then some (0xe0, 0x80) else none)
    ∧ (strcasecmp_eq tok "NOTEOFF".toList = true →
        parse_field i tok = if i = 0 then some (0xf0, 0x80) else none)
    ∧ (strcasecmp_eq tok "NOTEON".toList = true →
        parse_field i tok = if i = 0 then some (0xf0, 0x90) else none)
    ∧ (strcasecmp_eq tok "KeyPressure".toList = true →
        parse_field i tok = if i = 0 then some (0xf0, 0xa0) else none)
    ∧ (strcasecmp_eq tok "CC".toList = true →
        parse_field i tok = if i = 0 then some (0xf0, 0xb0) else none)
    ∧ (strcasecmp_eq tok "PGM".toList = true →
        parse_field i tok = if i = 0 then some (0xf0, 0xc0) else none)
    ∧ (strcasecmp_eq tok "ChanPressure".toList = true →
        parse_field i tok = if i = 0 then some (0xf0, 0xd0) else none)
    ∧ (strcasecmp_eq tok "Pitch".toList = true →
        parse_field i tok = if i = 0 then some (0xf0, 0xe0) else none)
    ∧ (strcasecmp_eq tok "Pos".toList = true →
        parse_field i tok = if i = 0 then some (0xff, 0xf2) else none)
    ∧ (strcasecmp_eq tok "Song".toList = true →
        parse_field i tok = if i = 0 then some (0xff, 0xf3) else none)
    ∧ (strcasecmp_eq tok "Start".toList = true →
        parse_field i tok = if i = 0 then some (0xff, 0xfa) else none)
    ∧ (strcasecmp_eq tok "Cont".toList = true →
        parse_field i tok = if i = 0 then some (0xff, 0xfb) else none)
    ∧ (strcasecmp_eq tok "Stop".toList = true →
        parse_field i tok = if i = 0 then some (0xff, 0xfc) else none)
    ∧ (∀ a b : Int, sscanf fmt_i_slash_i tok = [ScanVal.int a, ScanVal.int b] →
        parse_field i tok = some (low_byte b, low_byte a))
    ∧ (∀ a : Int, sscanf fmt_i tok = [ScanVal.int a] →
        (sscanf fmt_i_slash_i tok).length ≠ 2 →
        parse_field i tok = some (if i = 0 then 0xff else 0x7f, low_byte a)) := by
  have hname : ∀ (n0 : Char) (ns : List Char) (p0 p1 : Option (Nat × Nat)),
      ('a' ≤ tolower n0 ∧ tolower n0 ≤ 'z') →
      parse_field 0 (n0 :: ns) = p0 → parse_field 1 (n0 :: ns) = p1 →
      strcasecmp_eq tok (n0 :: ns) = true →
      parse_field i tok = if i = 0 then p0 else p1 := by
    intro n0 ns p0 p1 hl h0 h1 heq
    rw [parse_field_name i tok n0 ns hl heq, h0, h1]
  have hnum : ∀ v rest, scan_i tok = some (v, rest) → scan_i tok ≠ none := by
    intro v rest h
    rw [h]
    simp
  refine ⟨?_, hname 'N' "OTE".toList _ _ (by decide) (by decide) (by decide),
    hname 'N' "OTEOFF".toList _ _ (by decide) (by decide) (by decide),
    hname 'N' "OTEON".toList _ _ (by decide) (by decide) (by decide),
    hname 'K' "eyPressure".toList _ _ (by decide) (by decide) (by decide),
    hname 'C' "C".toList _ _ (by decide) (by decide) (by decide),
    hname 'P' "GM".toList _ _ (by decide) (by decide) (by decide),
    hname 'C' "hanPressure".toList _ _ (by decide) (by decide) (by decide),
    hname 'P' "itch".toList _ _ (by decide) (by decide) (by decide),
    hname 'P' "os".toList _ _ (by decide) (by decide) (by decide),
    hname 'S' "ong".toList _ _ (by decide) (by decide) (by decide),
    hname 'S' "tart".toList _ _ (by decide) (by decide) (by decide),
    hname 'C' "ont".toList _ _ (by decide) (by decide) (by decide),
    hname 'S' "top".toList _ _ (by decide) (by decide) (by decide), ?_, ?_⟩
  · intro h
    have := hname 'A' "NY".toList (some (0, 0)) (some (0, 0)) (by decide) (by decide)
      (by decide) h
    simpa using this
  · intro a b h
    have hs : scan_i tok ≠ none := by
      intro hn
      simp [sscanf, fmt_i_slash_i, hn] at h
    rw [parse_field_number i tok hs, h]
  · intro a h hnot
    have hs : scan_i tok ≠ none := by
      intro hn
      simp [sscanf, fmt_i, hn] at h
    rw [parse_field_number i tok hs]
    split
    · rename_i p0 p1 heq
      exact absurd (by rw [heq]; rfl) hnot
    · rw [h]

/-- C18 at field 1 and the tokens `cc`, `0x3c/0x7f` and `64`. -/
theorem C18_field_spec_table_witness :
    parse_field 1 "cc".toList = none
    ∧ parse_field 1 "0x3c/0x7f".toList = some (0x7f, 0x3c)
    ∧ parse_field 1 "64".toList = some (0x7f, 64) :=
  ⟨((C18_field_spec_table 1 "cc".toList).2.2.2.2.2.1 (by decide)).trans (by decide),
   ((C18_field_spec_table 1 "0x3c/0x7f".toList).2.2.2.2.2.2.2.2.2.2.2.2.2.2.1 0x3c 0x7f
      (by decide)).trans (by decide),
   ((C18_field_spec_table 1 "64".toList).2.2.2.2.2.2.2.2.2.2.2.2.2.2.2 64 (by decide)
      (by decide)).trans (by decide)⟩

/-- The loop of `process` stores, in order, the records of the events of size 1 to 3 for
which the ring buffer has room. -/
theorem process_loop_content (tme : Nat) :
    ∀ (events : List jack_midi_event_t) (wakeup : Bool) (h : Handoff),
      (process_loop tme events wakeup h).2.rb.content
        = h.rb.content
          ++ ((events.filter (fun ev => decide (1 ≤ ev.size ∧ ev.size ≤ 3))).take
                (jack_ringbuffer_write_space h.rb / sizeof_MidiMessage)).map
              (fun ev => stored_record ev tme) := by
  intro events
  induction events with
  | nil => intro wakeup h; simp [process_loop]
  | cons ev evs ih =>
    intro wakeup h
    obtain ⟨⟨space, content⟩, d⟩ := h
    simp only [process_loop]
    rw [ih]
    by_cases hsz : 1 ≤ ev.size ∧ ev.size ≤ 3
    · by_cases hroom : sizeof_MidiMessage * content.length + sizeof_MidiMessage ≤ space
      · rw [process_jmidi_event_stores ev tme space content d hsz hroom]
        have hfree : jack_ringbuffer_write_space ⟨space, content⟩ / sizeof_MidiMessage
            = jack_ringbuffer_write_space ⟨space, content ++ [stored_record ev tme]⟩
                / sizeof_MidiMessage + 1 := by
          simp only [jack_ringbuffer_write_space, sizeof_MidiMessage, List.length_append,
            List.length_singleton] at hroom ⊢
          omega
        rw [List.filter_cons_of_pos (by simpa using hsz), hfree, List.take_succ_cons]
        simp
      · have hfull : jack_ringbuffer_write_space ⟨space, content⟩ / sizeof_MidiMessage = 0 := by
          simp only [jack_ringbuffer_write_space, sizeof_MidiMessage] at hroom ⊢
          omega
        have hdrop : (process_jmidi_event ev tme ⟨⟨space, content⟩, d⟩).2.rb
            = ⟨space, content⟩ := by
          have h1 : ¬ (ev.size < 1 ∨ ev.size > 3) := by omega
          have h2 : ¬ jack_ringbuffer_write_space ⟨space, content⟩ ≥ sizeof_MidiMessage := by
            simp only [jack_ringbuffer_write_space, sizeof_MidiMessage] at hroom ⊢
            omega
          simp only [process_jmidi_event, h1, if_false, h2]
        rw [hdrop, hfull]
        simp
    · have hskip : process_jmidi_event ev tme ⟨⟨space, content⟩, d⟩
          = (0, ⟨⟨space, content⟩, d⟩) := by
        have h1 : ev.size < 1 ∨ ev.size > 3 := by omega
        simp only [process_jmidi_event, h1, if_true]
      rw [hskip]
      rw [List.filter_cons_of_neg (by simpa using hsz)]

/-- C17: a call of `process` while the program is running appends to the ring buffer, in
order, one record for each event of size 1 to 3 that finds room; the record carries the
time stamp `last_frame_time + time`, with `nframes` added in the relative mode and nothing
added in the immediate and absolute modes, reduced modulo 2^32, the event size as length,
the event bytes in order and 0 in the bytes beyond the size. -/
theorem C17_capture_builds_timestamped_records (sync_mode : SyncMode)
    (nframes last_frame_time : Nat) (events : List jack_midi_event_t) (h : Handoff) :
    (process RunState.Running sync_mode nframes last_frame_time events h).2.rb.content
      = h.rb.content
        ++ ((events.filter (fun ev => decide (1 ≤ ev.size ∧ ev.size ≤ 3))).take
              (jack_ringbuffer_write_space h.rb / sizeof_MidiMessage)).map
            (fun ev =>
              ⟨(last_frame_time + (if sync_mode = SyncMode.SyncRelative then nframes else 0)
                  + ev.time) % 4294967296,
               ⟨event_byte ev 0, if 2 ≤ ev.size then event_byte ev 1 else 0,
                if 3 ≤ ev.size then event_byte ev 2 else 0⟩,
               ev.size⟩) := by
  have hrec : ∀ ev : jack_midi_event_t,
      stored_record ev (frametime sync_mode nframes last_frame_time)
        = ⟨(last_frame_time + (if sync_mode = SyncMode.SyncRelative then nframes else 0)
              + ev.time) % 4294967296,
           ⟨event_byte ev 0, if 2 ≤ ev.size then event_byte ev 1 else 0,
            if 3 ≤ ev.size then event_byte ev 2 else 0⟩,
           ev.size⟩ := by
    intro ev
    simp only [stored_record, frametime]
    congr 1
    omega
  simp only [process, ne_eq, not_true_eq_false, if_false, process_loop_content, hrec]

/-- A cycle in the relative mode: of four events the one of size 4 is left out, the others
are stored with 256 frames added to their time. -/
theorem process_relative_example :
    process RunState.Running SyncMode.SyncRelative 256 1000
        [⟨3, 3, [0x90, 60, 100]⟩, ⟨5, 4, [0xf0, 1, 2, 0xf7]⟩, ⟨9, 2, [0xc1, 7]⟩, ⟨12, 1, [0xfa]⟩]
        ⟨⟨511, []⟩, 0⟩
      = (true, ⟨⟨511, [⟨1259, ⟨0x90, 60, 100⟩, 3⟩, ⟨1265, ⟨0xc1, 7, 0⟩, 2⟩,
                        ⟨1268, ⟨0xfa, 0, 0⟩, 1⟩]⟩, 0⟩) := by
  decide

/-- Clearing `j_client` keeps what holds of a dispatched record. -/
theorem dispatch_timed_mono (cfg : Setup) (jc : Bool) (mmsg : MidiMessage) (now : Option Nat)
    (h : dispatch_timed cfg jc mmsg now) : dispatch_timed cfg false mmsg now := by
  refine ⟨h.1, fun hd => ?_⟩
  obtain ⟨t, ht, hor⟩ := h.2 hd
  rcases hor with h1 | h1 | _
  · exact ⟨t, ht, Or.inl h1⟩
  · exact ⟨t, ht, Or.inr (Or.inl h1)⟩
  · exact ⟨t, ht, Or.inr (Or.inr rfl)⟩

/-- The invariant on the clock readings holds when `main` enters its loop. -/
theorem timed_init (cfg : Setup) : Timed cfg init_state := by
  simp [Timed, init_state]

/-- The return of `pthread_cond_wait` keeps the invariant on the clock readings. -/
theorem timed_wake (cfg : Setup) (s : State) (h : Timed cfg s) : Timed cfg (wake s) := by
  unfold wake
  split
  · rename_i hpc
    exact ⟨h.1, by simp⟩
  · exact h

/-- An advance of the consumer loop keeps the invariant on the clock readings. -/
theorem timed_consumer (cfg : Setup) (now : Nat) (s : State) (h : Timed cfg s) :
    Timed cfg (consumer_step cfg now s) := by
  obtain ⟨hd, hpc⟩ := h
  unfold consumer_step
  split
  · split
    · exact ⟨hd, by simp⟩
    · exact ⟨hd, by simp⟩
  · rename_i i mqlen heq
    by_cases hlt : i < mqlen
    · simp only [hlt, if_true]
      cases hrd : jack_ringbuffer_read s.handoff.rb with
      | mk got rb =>
        simp only []
        by_cases hdz : cfg.deadzone > 0
        · simp only [hdz, if_true]
          exact ⟨hd, hdz⟩
        · simp only [hdz, if_false]
          refine ⟨hd, ?_⟩
          have h0 : cfg.deadzone = 0 := by omega
          exact ⟨fun _ => rfl, fun hp => absurd hp (by omega)⟩
    · simp only [hlt, if_false]
      exact ⟨hd, by simp⟩
  · rename_i i mqlen mmsg t heq
    rw [heq] at hpc
    simp only at hpc
    split
    · rename_i hc
      split
      · rename_i hg
        exact ⟨hd, hpc, Or.inr (Or.inl hg)⟩
      · exact ⟨hd, hpc⟩
    · rename_i hc
      refine ⟨hd, hpc, ?_⟩
      by_cases hr : s.run = RunState.Terminate
      · exact Or.inr (Or.inr (Or.inr hr))
      · by_cases hj : s.j_client = true
        · left
          have : ¬ t < (mmsg.tme + cfg.deadzone) % 4294967296 := fun ht => hc ⟨hr, hj, ht⟩
          omega
        · exact Or.inr (Or.inr (Or.inl (by simpa using hj)))
  · rename_i i mqlen mmsg t heq
    rw [heq] at hpc
    simp only at hpc
    split
    · exact ⟨hd, by simp⟩
    · rename_i hr
      refine ⟨hd, fun h0 => absurd h0 (by omega), fun _ => ⟨t, rfl, ?_⟩⟩
      rcases hpc.2 with h1 | h1 | h1 | h1
      · exact Or.inl h1
      · exact Or.inr (Or.inl h1)
      · exact Or.inr (Or.inr h1)
      · exact absurd h1 hr
  · rename_i i mqlen mmsg t heq
    rw [heq] at hpc
    simp only at hpc
    have hall : ∀ rec ∈ s.dispatched ++ [⟨mmsg, t⟩],
        dispatch_timed cfg s.j_client rec.mmsg rec.now := by
      intro rec hrec
      rcases List.mem_append.1 hrec with h1 | h1
      · exact hd rec h1
      · simp only [List.mem_singleton] at h1
        subst h1
        exact hpc
    split
    · exact ⟨hall, by simp⟩
    · exact ⟨hall, by simp⟩
  · rename_i heq
    exact ⟨hd, by rw [heq]; simp⟩
  · rename_i heq
    exact ⟨hd, by rw [heq]; simp⟩
  · rename_i f heq
    exact ⟨hd, by rw [heq]; simp⟩

/-- Every input keeps the invariant on the clock readings. -/
theorem timed_step (cfg : Setup) (s : State) (inp : Input) (h : Timed cfg s) :
    Timed cfg (step cfg s inp) := by
  cases inp with
  | signal =>
    apply timed_wake
    obtain ⟨hd, hpc⟩ := h
    refine ⟨hd, ?_⟩
    simp only []
    split <;> rename_i heq <;> simp only [heq] at hpc
    · exact hpc
    · exact ⟨hpc.1, Or.inr (Or.inr (Or.inr trivial))⟩
    · exact hpc
    · trivial
  | shutdown =>
    apply timed_wake
    obtain ⟨hd, hpc⟩ := h
    refine ⟨fun rec hrec => dispatch_timed_mono cfg _ _ _ (hd rec hrec), ?_⟩
    simp only []
    split <;> rename_i heq <;> simp only [heq] at hpc
    · exact hpc
    · exact ⟨hpc.1, Or.inr (Or.inr (Or.inl trivial))⟩
    · exact dispatch_timed_mono cfg _ _ _ hpc
    · trivial
  | midi ev tme => exact h
  | wakeup => exact timed_wake cfg s h
  | consumer now => exact timed_consumer cfg now s h

/-- The invariant on the clock readings holds after every sequence of inputs. -/
theorem timed_run_inputs (cfg : Setup) :
    ∀ (inputs : List Input) (s : State), Timed cfg s → Timed cfg (run_inputs cfg inputs s) := by
  intro inputs
  induction inputs with
  | nil => intro s h; exact h
  | cons inp rest ih => intro s h; exact ih _ (timed_step cfg s inp h)

/-- C19, refuted as stated: in the relative mode with a dead zone of 24 frames an event
stamped 0xffffff00 is handed to rule matching on the clock reading 5, which is below the
deadline 0xffffff18, while no termination was requested and JACK is up: the test of line
1024 has ended the wait. -/
theorem C19_counterexample :
    0 < (demo_setup SyncMode.SyncRelative).deadzone
    ∧ (5 : Nat) < (0xffffff00 + (demo_setup SyncMode.SyncRelative).deadzone) % 4294967296
    ∧ (run_inputs (demo_setup SyncMode.SyncRelative)
        [Input.midi ⟨0, 3, [0x91, 0x3C, 0x7F]⟩ 0xffffff00, Input.consumer 5, Input.consumer 5,
         Input.consumer 5, Input.consumer 5, Input.consumer 5] init_state).dispatched
        = [⟨⟨0xffffff00, ⟨0x91, 0x3C, 0x7F⟩, 3⟩, some 5⟩]
    ∧ (run_inputs (demo_setup SyncMode.SyncRelative)
        [Input.midi ⟨0, 3, [0x91, 0x3C, 0x7F]⟩ 0xffffff00, Input.consumer 5, Input.consumer 5,
         Input.consumer 5, Input.consumer 5, Input.consumer 5] init_state).run
        = RunState.Running
    ∧ (run_inputs (demo_setup SyncMode.SyncRelative)
        [Input.midi ⟨0, 3, [0x91, 0x3C, 0x7F]⟩ 0xffffff00, Input.consumer 5, Input.consumer 5,
         Input.consumer 5, Input.consumer 5, Input.consumer 5] init_state).j_client
        = true := by
  decide

/-- C19, amended: whatever the other threads and the clock do, every record the consumer
loop has handed to rule matching was handed over, in the immediate mode and whenever the
dead zone is 0, without a reading of the frame clock, and with a dead zone on a last
reading `t` of the frame clock that had reached the deadline `tme + deadzone` (modulo
2^32), unless the test of line 1024 had ended the wait or `j_client` had been cleared by
the shutdown of JACK. -/
theorem C19_dispatch_waits_for_deadline (cfg : Setup) (inputs : List Input) :
    ∀ rec ∈ (run_inputs cfg inputs init_state).dispatched,
      (cfg.sync_mode = SyncMode.SyncImmediate → rec.now = none)
      ∧ (cfg.deadzone = 0 → rec.now = none)
      ∧ (0 < cfg.deadzone → ∃ t, rec.now = some t
          ∧ ((rec.mmsg.tme + cfg.deadzone) % 4294967296 ≤ t
              ∨ (rec.mmsg.tme &&& 0x8000000) ^^^ (t &&& 0x8000000) ≠ 0
              ∨ (run_inputs cfg inputs init_state).j_client = false)) := by
  intro rec hrec
  have h := (timed_run_inputs cfg inputs init_state (timed_init cfg)).1 rec hrec
  refine ⟨fun hm => h.1 ?_, h.1, h.2⟩
  simp [Setup.deadzone, hm]

/-- C19 at a run in the relative mode in which the event stamped 1000 is handed over on the
clock reading 1030, past the deadline 1024. -/
theorem C19_dispatch_waits_for_deadline_witness :
    ((demo_setup SyncMode.SyncRelative).sync_mode = SyncMode.SyncImmediate →
        (Dispatch.mk ⟨1000, ⟨0x91, 0x3C, 0x7F⟩, 3⟩ (some 1030)).now = none)
    ∧ ((demo_setup SyncMode.SyncRelative).deadzone = 0 →
        (Dispatch.mk ⟨1000, ⟨0x91, 0x3C, 0x7F⟩, 3⟩ (some 1030)).now = none)
    ∧ (0 < (demo_setup SyncMode.SyncRelative).deadzone →
        ∃ t, (Dispatch.mk ⟨1000, ⟨0x91, 0x3C, 0x7F⟩, 3⟩ (some 1030)).now = some t
          ∧ (((Dispatch.mk ⟨1000, ⟨0x91, 0x3C, 0x7F⟩, 3⟩ (some 1030)).mmsg.tme
                + (demo_setup SyncMode.SyncRelative).deadzone) % 4294967296 ≤ t
              ∨ ((Dispatch.mk ⟨1000, ⟨0x91, 0x3C, 0x7F⟩, 3⟩ (some 1030)).mmsg.tme &&& 0x8000000)
                  ^^^ (t &&& 0x8000000) ≠ 0
              ∨ (run_inputs (demo_setup SyncMode.SyncRelative)
                  [Input.midi ⟨0, 3, [0x91, 0x3C, 0x7F]⟩ 1000, Input.consumer 0,
                   Input.consumer 900, Input.consumer 1010, Input.consumer 1030,
                   Input.consumer 0, Input.consumer 0, Input.consumer 0]
                  init_state).j_client = false)) :=
  C19_dispatch_waits_for_deadline (demo_setup SyncMode.SyncRelative)
    [Input.midi ⟨0, 3, [0x91, 0x3C, 0x7F]⟩ 1000, Input.consumer 0,
     Input.consumer 900, Input.consumer 1010, Input.consumer 1030,
     Input.consumer 0, Input.consumer 0, Input.consumer 0]
    ⟨⟨1000, ⟨0x91, 0x3C, 0x7F⟩, 3⟩, some 1030⟩ (by decide)

/-- Once the consumer has seen the termination request, no input makes it hand a record
to rule matching or a message to the transport. -/
theorem winding_down_step (cfg : Setup) (s : State) (inp : Input) (h : winding_down s) :
    winding_down (step cfg s inp)
      ∧ (step cfg s inp).dispatched = s.dispatched ∧ (step cfg s inp).sent = s.sent := by
  obtain ⟨hrun, hpc⟩ := h
  have hwake : ∀ s : State, winding_down s →
      winding_down (wake s) ∧ (wake s).dispatched = s.dispatched ∧ (wake s).sent = s.sent := by
    intro s hs
    unfold wake
    split
    · exact ⟨⟨hs.1, Or.inr (Or.inr (Or.inl rfl))⟩, rfl, rfl⟩
    · exact ⟨hs, rfl, rfl⟩
  cases inp with
  | signal => exact hwake _ ⟨rfl, hpc⟩
  | shutdown => exact hwake _ ⟨hrun, hpc⟩
  | midi ev tme => exact ⟨⟨hrun, hpc⟩, rfl, rfl⟩
  | wakeup => exact hwake s ⟨hrun, hpc⟩
  | consumer now =>
    simp only [step]
    rcases hpc with ⟨i, mqlen, mmsg, t, hp⟩ | hp | hp | hp
    · simp [consumer_step, hp, hrun, winding_down]
    · simp [consumer_step, hp, hrun, winding_down]
    · simp [consumer_step, hp, hrun, winding_down]
    · simp [consumer_step, hp, hrun, winding_down]

/-- When the termination flag is set as the delay loop of an event ends, that event and
the events still stored are never handed to rule matching and no message is sent any more,
whatever happens next. -/
theorem termination_after_delay_stops_dispatch (cfg : Setup) :
    ∀ (inputs : List Input) (s : State), winding_down s →
      (run_inputs cfg inputs s).dispatched = s.dispatched
        ∧ (run_inputs cfg inputs s).sent = s.sent
        ∧ winding_down (run_inputs cfg inputs s) := by
  intro inputs
  induction inputs with
  | nil => intro s h; exact ⟨rfl, rfl, h⟩
  | cons inp rest ih =>
    intro s h
    obtain ⟨h1, h2, h3⟩ := winding_down_step cfg s inp h
    obtain ⟨i1, i2, i3⟩ := ih _ h1
    exact ⟨i1.trans h2, i2.trans h3, i3⟩

/-- C20: in the relative mode a termination request that arrives while the consumer is in
the delay loop of an event makes it leave the delay loop and the `for` loop without
dispatching, but not the `while` loop: it goes to `pthread_cond_wait` at line 1051 with
the flag set, and no number of further advances of the consumer alone takes it out of
there. -/
theorem C20_consumer_waits_after_termination :
    (run_inputs (demo_setup SyncMode.SyncRelative)
      [Input.midi ⟨0, 3, [0x91, 0x3C, 0x7F]⟩ 1000, Input.consumer 0, Input.consumer 900,
       Input.consumer 910, Input.signal, Input.consumer 920, Input.consumer 930] init_state)
      = { run := RunState.Terminate, j_client := true,
          handoff := ⟨⟨511, []⟩, 0⟩, pc := Pc.cond_wait,
          enqueued := [⟨1000, ⟨0x91, 0x3C, 0x7F⟩, 3⟩], dispatched := [], sent := [] }
    ∧ ∀ (n now : Nat),
        (run_inputs (demo_setup SyncMode.SyncRelative) (List.replicate n (Input.consumer now))
          { run := RunState.Terminate, j_client := true,
            handoff := ⟨⟨511, []⟩, 0⟩, pc := Pc.cond_wait,
            enqueued := [⟨1000, ⟨0x91, 0x3C, 0x7F⟩, 3⟩], dispatched := [], sent := [] }).pc
          = Pc.cond_wait := by
  refine ⟨by decide, ?_⟩
  intro n now
  induction n with
  | zero => rfl
  | succ n ih =>
    rw [List.replicate_succ]
    exact ih

/-- When the loop of `append_osc_message` runs to its end it has stored one parameter
string for each descriptor character. -/
theorem scan_params_complete :
    ∀ (desc t0 : List Char), (scan_params desc t0).2 = true →
      (scan_params desc t0).1.length = desc.length := by
  intro desc
  induction desc with
  | nil => intro t0 _; simp [scan_params]
  | cons ch rest ih =>
    intro t0
    unfold scan_params
    cases h1 : skip_to_quote t0 with
    | nil => simp
    | cons x t1 =>
      simp only []
      cases h2 : (if (ch != 's') = true then skip_blanks t1 else t1) with
      | nil => simp
      | cons c2 t2 =>
        simp only []
        cases h3 : until_quote (c2 :: t2) with
        | none => simp
        | some pr =>
          obtain ⟨p, t3⟩ := pr
          simp only []
          by_cases h4 : (p.isEmpty = true ∧ (ch != 's') = true)
          · rw [if_pos h4]
            simp
          · rw [if_neg h4]
            intro h
            simp only [List.length_cons]
            rw [ih t3 h]

/-- A call of `append_osc_message` with a descriptor that fits the array `desc` keeps the
templates of the rule sound. -/
theorem append_osc_message_sound (r : Rule) (path desc param : List Char)
    (hr : templates_sound r) (hdesc : desc.length < DESC_SIZE) :
    templates_sound (append_osc_message r path desc param).2 := by
  obtain ⟨hcount, hall⟩ := hr
  have hlen : (r.msg.take r.message_count).length = r.message_count := by
    simp [List.length_take]; omega
  have hdt : desc.take DESC_SIZE = desc := List.take_of_length_le (by omega)
  have hold : ∀ slot : OSCMessageTemplate,
      (r.msg.take r.message_count ++ [slot]).take r.message_count
        = r.msg.take r.message_count := by
    intro slot
    rw [List.take_append_of_le_length (by omega)]
    simp
  have hnew : ∀ slot : OSCMessageTemplate,
      (r.msg.take r.message_count ++ [slot]).take (r.message_count + 1)
        = r.msg.take r.message_count ++ [slot] := by
    intro slot
    apply List.take_of_length_le
    simp [hlen]
  unfold append_osc_message
  by_cases hpl : desc.length = 0
  · simp only [hpl, if_true]
    refine ⟨by simp [hlen], ?_⟩
    simp only [hnew]
    intro t ht
    rcases List.mem_append.1 ht with h1 | h1
    · exact hall t h1
    · simp only [List.mem_singleton] at h1
      subst h1
      simp [hdt, hpl]
  · simp only [hpl, if_false]
    by_cases hok : (scan_params desc param).2 = true
    · simp only [hok, if_true]
      refine ⟨by simp [hlen], ?_⟩
      simp only [hnew]
      intro t ht
      rcases List.mem_append.1 ht with h1 | h1
      · exact hall t h1
      · simp only [List.mem_singleton] at h1
        subst h1
        have hc := scan_params_complete desc param hok
        refine ⟨by simp [hdt, hc], ?_⟩
        intro po hpo
        simp only [hc, Nat.sub_self, List.replicate_zero, List.append_nil, List.mem_map] at hpo
        obtain ⟨p, _, hp⟩ := hpo
        rw [← hp]
        simp
    · have hok2 : (scan_params desc param).2 = false := by simpa using hok
      simp only [hok2, Bool.false_eq_true, if_false]
      refine ⟨by simp [hlen], ?_⟩
      simp only [hold]
      exact hall

/-- C13: after any sequence of `append_osc_message` calls whose descriptors fit the array
`desc` (fewer than 16 characters), starting from a rule whose live templates have one stored
parameter per descriptor character, every live template of the rule has exactly one stored
parameter string, none of them NULL, per descriptor character, and so none at all when its
descriptor is empty. -/
theorem C13_one_parameter_per_descriptor_character
    (calls : List (List Char × List Char × List Char)) (r : Rule)
    (hr : templates_sound r) (hdesc : ∀ c ∈ calls, c.2.1.length < DESC_SIZE) :
    (append_all calls r).message_count ≤ (append_all calls r).msg.length
    ∧ ∀ t ∈ (append_all calls r).msg.take (append_all calls r).message_count,
        t.param.length = t.desc.length ∧ (∀ po ∈ t.param, po ≠ none)
          ∧ (t.desc = [] → t.param = []) := by
  have hsound : templates_sound (append_all calls r) := by
    induction calls generalizing r with
    | nil => exact hr
    | cons c cs ih =>
      obtain ⟨path, desc, param⟩ := c
      simp only [append_all]
      apply ih
      · exact append_osc_message_sound r path desc param hr (hdesc (path, desc, param) (by simp))
      · intro c hc
        exact hdesc c (by simp [hc])
  refine ⟨hsound.1, fun t ht => ⟨(hsound.2 t ht).1, (hsound.2 t ht).2, fun hd => ?_⟩⟩
  have := (hsound.2 t ht).1
  rw [hd] at this
  exact List.length_eq_zero.1 this

/-- C13 at three calls on the rule that `new_rule` leaves: a template with two parameters,
a line that lacks a parameter and is not kept, and a template without parameter. -/
theorem C13_one_parameter_per_descriptor_character_witness :
    (append_all
      [("/a".toList, "is".toList, "\"%1\" \"on\"".toList),
       ("/b".toList, "ii".toList, "\"1\"".toList),
       ("/c".toList, [], [])] zero_rule).message_count
      ≤ (append_all
      [("/a".toList, "is".toList, "\"%1\" \"on\"".toList),
       ("/b".toList, "ii".toList, "\"1\"".toList),
       ("/c".toList, [], [])] zero_rule).msg.length
    ∧ ∀ t ∈ (append_all
      [("/a".toList, "is".toList, "\"%1\" \"on\"".toList),
       ("/b".toList, "ii".toList, "\"1\"".toList),
       ("/c".toList, [], [])] zero_rule).msg.take (append_all
      [("/a".toList, "is".toList, "\"%1\" \"on\"".toList),
       ("/b".toList, "ii".toList, "\"1\"".toList),
       ("/c".toList, [], [])] zero_rule).message_count,
        t.param.length = t.desc.length ∧ (∀ po ∈ t.param, po ≠ none)
          ∧ (t.desc = [] → t.param = []) :=
  C13_one_parameter_per_descriptor_character _ zero_rule
    ⟨by decide, by intro t ht; simp [zero_rule] at ht⟩ (by decide)

/-- The three calls of the witness for C13 leave two live templates. -/
theorem append_all_example :
    append_all
      [("/a".toList, "is".toList, "\"%1\" \"on\"".toList),
       ("/b".toList, "ii".toList, "\"1\"".toList),
       ("/c".toList, [], [])] zero_rule
      = ⟨⟨0, 0, 0⟩, ⟨0, 0, 0⟩, 0, 2,
          [⟨"/a".toList, "is".toList, [some "%1".toList, some "on".toList]⟩,
           ⟨"/c".toList, [], []⟩]⟩ := by
  decide

/-- C14: inside a rule, the line `"/a" "i" "1" "2"`, which has more parameters than its
descriptor has characters, adds a template with the first parameter, and the line
`"/a" "ii"`, which has no parameter at all, adds a template with an empty descriptor,
whatever the rule and whatever is left in the array `c`. -/
theorem C14_mismatched_lines_add_templates (junk : List Char) (r : Rule) :
    rule_message_line junk "\"/a\" \"i\" \"1\" \"2\"".toList r
      = Except.ok { r with
          message_count := r.message_count + 1,
          msg := r.msg.take r.message_count
            ++ [⟨"/a".toList, "i".toList, [some "1".toList]⟩] }
    ∧ rule_message_line junk "\"/a\" \"ii\"".toList r
      = Except.ok { r with
          message_count := r.message_count + 1,
          msg := r.msg.take r.message_count ++ [⟨"/a".toList, [], []⟩] } := by
  have h1 : sscanf fmt_message "\"/a\" \"i\" \"1\" \"2\"".toList
      = [ScanVal.str "/a".toList, ScanVal.str "i".toList, ScanVal.str "\"1\" \"2\"".toList] := by
    decide
  have h2 : sscanf fmt_message "\"/a\" \"ii\"".toList
      = [ScanVal.str "/a".toList, ScanVal.str "ii".toList] := by
    decide
  have h3 : sscanf fmt_message_empty "\"/a\" \"ii\"".toList = [ScanVal.str "/a".toList] := by
    decide
  have hp : scan_params "i".toList ("\"1\" \"2\"".toList ++ junk) = (["1".toList], true) := by
    simp [scan_params, skip_to_quote, skip_blanks, until_quote]
  constructor
  · unfold rule_message_line
    rw [h1]
    simp only [overruns]
    unfold append_osc_message
    rw [hp]
    simp [PATH_SIZE, DESC_SIZE]
  · unfold rule_message_line
    rw [h2, h3]
    simp only [overruns]
    unfold append_osc_message
    simp [PATH_SIZE, DESC_SIZE]

/-- A configuration with a rule and the two lines of C14: `read_config` ends without error
and the rule holds two templates. -/
theorem read_config_mismatched_lines_example :
    read_config (fun _ => [])
        "[rule]\nNOTEON\n\"/a\" \"i\" \"1\" \"2\"\n\"/b\" \"ii\"\n".toList ⟨[], 0⟩
      = Except.ok
          ⟨⟨[⟨⟨0xf0, 0, 0⟩, ⟨0x90, 0, 0⟩, 1, 2,
               [⟨"/a".toList, "i".toList, [some "1".toList]⟩, ⟨"/b".toList, [], []⟩]⟩], 1⟩,
           some 0, ParserState.InRule, [], 0, 4⟩ := by
  decide

/-- C12: the rule set read from a configuration with the rule `NOTEON ANY 64` holds one rule
with mask 0x7f and match 0x40 in its third field; `dump_cfg` prints the second field in
place of the third (line 574), and reading its output back yields a rule with mask 0 and
match 0 in the third field. -/
theorem C12_dump_prints_second_field_for_third :
    Except.map Parser.tbl
        (read_config (fun _ => []) "[rule]\nNOTEON ANY 64\n\"/x\" \"i\" \"%2\"\n".toList
          ⟨[], 0⟩)
      = Except.ok
          ⟨[⟨⟨0xf0, 0, 0x7f⟩, ⟨0x90, 0, 0x40⟩, 3, 1,
              [⟨"/x".toList, "i".toList, [some "%2".toList]⟩]⟩], 1⟩
    ∧ dump_cfg none none
        ⟨[⟨⟨0xf0, 0, 0x7f⟩, ⟨0x90, 0, 0x40⟩, 3, 1,
            [⟨"/x".toList, "i".toList, [some "%2".toList]⟩]⟩], 1⟩
      = ("\n# ----- CFG DUMP -----\n[config]\n\n# rule 0\n[rule]\n"
          ++ "0x90/0xf0 0x00/0x00 0x00/0x00\n\"/x\" \"i\" \"%2\"\n\n"
          ++ "# --------------------\n").toList
    ∧ Except.map Parser.tbl
        (read_config (fun _ => [])
          (dump_cfg none none
            ⟨[⟨⟨0xf0, 0, 0x7f⟩, ⟨0x90, 0, 0x40⟩, 3, 1,
                [⟨"/x".toList, "i".toList, [some "%2".toList]⟩]⟩], 1⟩) ⟨[], 0⟩)
      = Except.ok
          ⟨[⟨⟨0xf0, 0, 0⟩, ⟨0x90, 0, 0⟩, 3, 1,
              [⟨"/x".toList, "i".toList, [some "%2".toList]⟩]⟩], 1⟩ := by
  decide

/-- A rule set whose rules have one or two fields comes back unchanged from `dump_cfg` and
`read_config`. -/
theorem dump_round_trip_two_fields_example :
    Except.map Parser.tbl
        (read_config (fun _ => [])
          (dump_cfg (some ("localhost".toList, "3819".toList)) none
            ⟨[⟨⟨0xf0, 0x7f, 0⟩, ⟨0xb0, 7, 0⟩, 2, 2,
                [⟨"/cc".toList, "is".toList, [some "%2 [0,100]".toList, some "".toList]⟩,
                 ⟨"/y".toList, [], []⟩]⟩,
              ⟨⟨0xe0, 0, 0⟩, ⟨0x80, 0, 0⟩, 1, 0, []⟩], 2⟩) ⟨[], 0⟩)
      = Except.ok
          ⟨[⟨⟨0xf0, 0x7f, 0⟩, ⟨0xb0, 7, 0⟩, 2, 2,
              [⟨"/cc".toList, "is".toList, [some "%2 [0,100]".toList, some "".toList]⟩,
               ⟨"/y".toList, [], []⟩]⟩,
            ⟨⟨0xe0, 0, 0⟩, ⟨0x80, 0, 0⟩, 1, 0, []⟩], 2⟩ := by
  decide

/-- An `int` within the 32-bit range is left as it is by `wrap32`. -/
theorem wrap32_of_range (x : Int) (h : -2147483648 ≤ x ∧ x < 2147483648) : wrap32 x = x := by
  unfold wrap32
  omega

/-- On a placeholder expression with a valid source range and equal target bounds, an
event whose selected field value lies strictly inside the source range makes `expand_int32`
divide by zero at line 656. -/
theorem expand_int32_equal_targets (tpl : List Char) (m : MidiMessage) (e : IntExpr)
    (val : Int) (h0 : tpl.head? = some '%') (hscan : scan_int_expr tpl = some e)
    (hrange : e.s0 < e.s1 ∧ 0 ≤ e.s0 ∧ e.s1 ≤ 127)
    (hval : select_field e.x m = some val) (hin : e.s0 < val ∧ val < e.s1)
    (heq : e.t0 = e.t1) :
    expand_int32 tpl m = Except.error Fault.div_by_zero := by
  have hr : ¬ (e.s0 ≥ e.s1 ∨ e.s0 < 0 ∨ e.s1 > 0x7f) := by
    have : (0x7f : Int) = 127 := by norm_num
    omega
  have h1 : ¬ val ≤ e.s0 := by omega
  have h2 : ¬ val ≥ e.s1 := by omega
  have hz : wrap32 (e.t1 - e.t0) = 0 := by
    rw [heq]
    simp [wrap32]
  rw [expand_int32_placeholder tpl m h0, hscan]
  simp only [hr, if_false, hval, h1, h2, hz, c_div, if_true]

/-- On a placeholder expression with a valid source range and target bounds that differ by
at most 2^24 and lie within 2^30 of zero, an event whose selected field value `val` lies
strictly inside the source range makes `expand_int32` return `t0 + (val - s0)`: the product
of line 656 is divided by the factor `t1 - t0` it was formed with. -/
theorem expand_int32_interior (tpl : List Char) (m : MidiMessage) (e : IntExpr)
    (val : Int) (h0 : tpl.head? = some '%') (hscan : scan_int_expr tpl = some e)
    (hrange : e.s0 < e.s1 ∧ 0 ≤ e.s0 ∧ e.s1 ≤ 127)
    (hval : select_field e.x m = some val) (hin : e.s0 < val ∧ val < e.s1)
    (hne : e.t0 ≠ e.t1)
    (hsmall : -16777216 ≤ e.t1 - e.t0 ∧ e.t1 - e.t0 ≤ 16777216
      ∧ -1073741824 ≤ e.t0 ∧ e.t0 ≤ 1073741824) :
    expand_int32 tpl m = Except.ok (e.t0 + (val - e.s0)) := by
  have hr : ¬ (e.s0 ≥ e.s1 ∨ e.s0 < 0 ∨ e.s1 > 0x7f) := by
    have : (0x7f : Int) = 127 := by norm_num
    omega
  have h1 : ¬ val ≤ e.s0 := by omega
  have h2 : ¬ val ≥ e.s1 := by omega
  have hd : wrap32 (e.t1 - e.t0) = e.t1 - e.t0 := wrap32_of_range _ (by omega)
  have hv : wrap32 (val - e.s0) = val - e.s0 := wrap32_of_range _ (by omega)
  have hdne : e.t1 - e.t0 ≠ 0 := by omega
  have hprod : -2147483648 ≤ (val - e.s0) * (e.t1 - e.t0)
      ∧ (val - e.s0) * (e.t1 - e.t0) < 2147483648 := by
    have ha : 0 ≤ val - e.s0 := by omega
    have hb : val - e.s0 ≤ 127 := by omega
    constructor
    · nlinarith
    · nlinarith
  have hp : wrap32 ((val - e.s0) * (e.t1 - e.t0)) = (val - e.s0) * (e.t1 - e.t0) :=
    wrap32_of_range _ hprod
  have hq : Int.tdiv ((val - e.s0) * (e.t1 - e.t0)) (e.t1 - e.t0) = val - e.s0 :=
    Int.mul_tdiv_cancel _ hdne
  have hnot : ¬ ((val - e.s0) * (e.t1 - e.t0) = -2147483648 ∧ e.t1 - e.t0 = -1) := by
    rintro ⟨ha, hb⟩
    rw [hb] at ha
    omega
  have hres : wrap32 (e.t0 + (val - e.s0)) = e.t0 + (val - e.s0) :=
    wrap32_of_range _ (by omega)
  rw [expand_int32_placeholder tpl m h0, hscan]
  simp only [hr, if_false, hval, h1, h2, hd, hv, hp, c_div, hdne, hnot, hq, hres]

/-- C21: on the expression `%1 [0,10]` (source range 0..127 by default, valid) and an event
whose second byte is 64, `expand_int32` returns 64, which lies outside the target range
from 0 to 10; the interpolation `t0 + (val - s0) * (t1 - t0) / (s1 - s0)` gives 5. -/
theorem C21_result_leaves_target_range :
    scan_int_expr "%1 [0,10]".toList = some ⟨'1', 0, 10, 0, 127⟩
    ∧ select_field '1' ⟨0, ⟨0x90, 64, 0x7f⟩, 3⟩ = some 64
    ∧ expand_int32 "%1 [0,10]".toList ⟨0, ⟨0x90, 64, 0x7f⟩, 3⟩ = Except.ok 64
    ∧ ¬ ((64 : Int) ≤ max 0 10)
    ∧ (0 + Int.tdiv ((64 - 0) * (10 - 0)) (127 - 0) : Int) = 5 := by
  decide

/-- C22: on the expression `%1 [5,5]`, which passes the validation of the source range, and
an event whose second byte is 64, `expand_int32` divides by `t1 - t0 = 0` at line 656. -/
theorem C22_equal_targets_divide_by_zero :
    scan_int_expr "%1 [5,5]".toList = some ⟨'1', 5, 5, 0, 127⟩
    ∧ select_field '1' ⟨0, ⟨0x90, 64, 0x7f⟩, 3⟩ = some 64
    ∧ expand_int32 "%1 [5,5]".toList ⟨0, ⟨0x90, 64, 0x7f⟩, 3⟩
        = Except.error Fault.div_by_zero := by
  decide

/-- C23: on a placeholder expression on the field `0` or `s` with a valid source range and
an event whose first byte is a byte from 0x80 on, `expand_int32` returns the target upper
bound, whatever the other bytes of the event. -/
theorem C23_status_fields_give_upper_bound (tpl : List Char) (m : MidiMessage) (e : IntExpr)
    (h0 : tpl.head? = some '%') (hscan : scan_int_expr tpl = some e)
    (hx : e.x = '0' ∨ e.x = 's')
    (hrange : e.s0 < e.s1 ∧ 0 ≤ e.s0 ∧ e.s1 ≤ 127)
    (hstatus : 0x80 ≤ m.d.get 0 ∧ m.d.get 0 < 256) :
    expand_int32 tpl m = Except.ok e.t1 := by
  have hr : ¬ (e.s0 ≥ e.s1 ∨ e.s0 < 0 ∨ e.s1 > 0x7f) := by
    have : (0x7f : Int) = 127 := by norm_num
    omega
  have hbig : ∃ v : Nat, select_field e.x m = some (v : Int) ∧ 128 ≤ v := by
    rcases hx with hx | hx
    · refine ⟨m.d.get 0 &&& 0xff, by simp [select_field, hx], ?_⟩
      have : m.d.get 0 &&& 0xff = m.d.get 0 % 256 := Nat.and_pow_two_sub_one_eq_mod _ 8
      rw [this]
      omega
    · refine ⟨m.d.get 0 &&& 0xf0, by simp [select_field, hx], ?_⟩
      rw [and_0xf0]
      omega
  obtain ⟨v, hv, h128⟩ := hbig
  have h1 : ¬ ((v : Int) ≤ e.s0) := by omega
  have h2 : (v : Int) ≥ e.s1 := by omega
  rw [expand_int32_placeholder tpl m h0, hscan]
  simp only [hr, if_false, hv, h1, h2, if_true]

/-- C23 at the expressions `%0 [1,9] [0,100]` and `%s [1,9]` and a note-on event. -/
theorem C23_status_fields_give_upper_bound_witness :
    expand_int32 "%0 [1,9] [0,100]".toList demo_event = Except.ok 9
    ∧ expand_int32 "%s [1,9]".toList demo_event = Except.ok 9 :=
  ⟨C23_status_fields_give_upper_bound "%0 [1,9] [0,100]".toList demo_event
      ⟨'0', 1, 9, 0, 100⟩ (by decide) (by decide) (by decide) (by decide) (by decide),
   C23_status_fields_give_upper_bound "%s [1,9]".toList demo_event
      ⟨'s', 1, 9, 0, 127⟩ (by decide) (by decide) (by decide) (by decide) (by decide)⟩

/-- Every string that the loop of `append_osc_message` stores for a descriptor character
other than `s` is not empty, whether or not the loop runs to its end. -/
theorem scan_params_nonempty :
    ∀ (desc t0 : List Char) (j : Nat) (ch : Char) (p : List Char),
      desc[j]? = some ch → ch ≠ 's' → (scan_params desc t0).1[j]? = some p → p ≠ [] := by
  intro desc
  induction desc with
  | nil => intro t0 j ch p h; simp at h
  | cons c0 rest ih =>
    intro t0 j ch p
    unfold scan_params
    cases h1 : skip_to_quote t0 with
    | nil => simp
    | cons x t1 =>
      simp only []
      cases h2 : (if (c0 != 's') = true then skip_blanks t1 else t1) with
      | nil => simp
      | cons c2 t2 =>
        simp only []
        cases h3 : until_quote (c2 :: t2) with
        | none => simp
        | some pr =>
          obtain ⟨q, t3⟩ := pr
          simp only []
          by_cases h4 : (q.isEmpty = true ∧ (c0 != 's') = true)
          · rw [if_pos h4]
            simp
          · rw [if_neg h4]
            cases j with
            | zero =>
              intro hch hs hp
              simp only [List.getElem?_cons_zero, Option.some.injEq] at hch hp
              subst hch
              subst hp
              intro hq
              apply h4
              simp [hq, hs]
            | succ k =>
              intro hch hs hp
              simp only [List.getElem?_cons_succ] at hch hp
              exact ih t3 k ch p hch hs hp

/-- An entry of the array `param` that holds a string is one of the strings stored by the
loop: the entries left by `calloc` are NULL. -/
theorem stored_param_at (ps : List (List Char)) (k j : Nat) (p : List Char)
    (h : (ps.map some ++ List.replicate k none)[j]? = some (some p)) : ps[j]? = some p := by
  by_cases hj : j < ps.length
  · rw [List.getElem?_append_left (by simpa using hj)] at h
    simpa using h
  · rw [List.getElem?_append_right (by simpa using hj)] at h
    rw [List.getElem?_replicate] at h
    split at h <;> simp at h

/-- A string that is not empty passes the assertion at the top of `expand_int32`. -/
theorem expand_int32_asserts (tpl : List Char) (m : MidiMessage) (h : tpl ≠ []) :
    expand_int32 tpl m ≠ Except.error Fault.assert_failed := by
  cases tpl with
  | nil => exact absurd rfl h
  | cons c0 cs =>
    unfold expand_int32
    simp only []
    split
    · simp
    · split
      · simp
      · split
        · simp
        · split
          · simp
          · split
            · simp
            · split
              · simp
              · unfold c_div
                split
                · rename_i f hf
                  split at hf
                  · simp at hf
                    rw [← hf]
                    simp
                  · split at hf
                    · simp at hf
                      rw [← hf]
                      simp
                    · simp at hf
                · simp

/-- In the slot that a call of `append_osc_message` writes (the last of the array `msg`),
every string stored for a descriptor character other than `s` is not empty, whether the
call keeps the template or not. -/
theorem append_osc_message_stores_nonempty (r0 : Rule) (path desc prm : List Char)
    (slot : OSCMessageTemplate) (j : Nat) (ch : Char) (q : List Char)
    (hslot : (append_osc_message r0 path desc prm).2.msg.getLast? = some slot)
    (hch : desc[j]? = some ch) (hs : ch ≠ 's') (hq : slot.param[j]? = some (some q)) :
    q ≠ [] := by
  have hkey : slot.param = []
      ∨ slot.param = (scan_params desc prm).1.map some
          ++ List.replicate (desc.length - (scan_params desc prm).1.length) none := by
    unfold append_osc_message at hslot
    simp only [] at hslot
    split at hslot
    · simp only [List.getLast?_append, List.getLast?_singleton, Option.or,
        Option.some.injEq] at hslot
      rw [← hslot]
      exact Or.inl rfl
    · split at hslot
      · simp only [List.getLast?_append, List.getLast?_singleton, Option.or,
          Option.some.injEq] at hslot
        rw [← hslot]
        exact Or.inr rfl
      · simp only [List.getLast?_append, List.getLast?_singleton, Option.or,
          Option.some.injEq] at hslot
        rw [← hslot]
        exact Or.inr rfl
  rcases hkey with h | h
  · rw [h] at hq
    simp at hq
  · rw [h] at hq
    exact scan_params_nonempty desc prm j ch q hch hs (stored_param_at _ _ j q hq)

/-- A call of `append_osc_message` with a descriptor that fits the array `desc` keeps the
parameters of the live templates of the rule ready. -/
theorem append_osc_message_ready (r : Rule) (path desc param : List Char)
    (hr : params_ready r) (hdesc : desc.length < DESC_SIZE) :
    params_ready (append_osc_message r path desc param).2 := by
  obtain ⟨hcount, hall⟩ := hr
  have hlen : (r.msg.take r.message_count).length = r.message_count := by
    simp [List.length_take]; omega
  have hdt : desc.take DESC_SIZE = desc := List.take_of_length_le (by omega)
  have hold : ∀ slot : OSCMessageTemplate,
      (r.msg.take r.message_count ++ [slot]).take r.message_count
        = r.msg.take r.message_count := by
    intro slot
    rw [List.take_append_of_le_length (by omega)]
    simp
  have hnew : ∀ slot : OSCMessageTemplate,
      (r.msg.take r.message_count ++ [slot]).take (r.message_count + 1)
        = r.msg.take r.message_count ++ [slot] := by
    intro slot
    apply List.take_of_length_le
    simp [hlen]
  unfold append_osc_message
  by_cases hpl : desc.length = 0
  · simp only [hpl, if_true]
    refine ⟨by simp [hlen], ?_⟩
    simp only [hnew]
    intro t ht
    rcases List.mem_append.1 ht with h1 | h1
    · exact hall t h1
    · simp only [List.mem_singleton] at h1
      subst h1
      intro c ch hch
      have : desc = [] := List.length_eq_zero.1 hpl
      simp [this] at hch
  · simp only [hpl, if_false]
    by_cases hok : (scan_params desc param).2 = true
    · simp only [hok, if_true]
      refine ⟨by simp [hlen], ?_⟩
      simp only [hnew]
      intro t ht
      rcases List.mem_append.1 ht with h1 | h1
      · exact hall t h1
      · simp only [List.mem_singleton] at h1
        subst h1
        have hc := scan_params_complete desc param hok
        intro c ch hch
        simp only [hdt] at hch
        have hlt : c < (scan_params desc param).1.length := by
          rw [hc]
          exact (List.getElem?_eq_some.1 hch).1
        refine ⟨(scan_params desc param).1[c], ?_, ?_⟩
        · simp only [param_at, hc, Nat.sub_self, List.replicate_zero, List.append_nil,
            List.getElem?_map, List.getElem?_eq_getElem hlt, Option.map_some']
        · intro hs
          exact scan_params_nonempty desc param c ch _ hch hs (List.getElem?_eq_getElem hlt)
    · have hok2 : (scan_params desc param).2 = false := by simpa using hok
      simp only [hok2, Bool.false_eq_true, if_false]
      refine ⟨by simp [hlen], ?_⟩
      simp only [hold]
      exact hall

/-- The branch of `read_config` on a line inside a rule keeps the parameters of the live
templates of the rule ready. -/
theorem rule_message_line_ready (junk line : List Char) (r r2 : Rule)
    (hr : params_ready r) (h : rule_message_line junk line r = Except.ok r2) :
    params_ready r2 := by
  unfold rule_message_line at h
  by_cases hov : overruns (sscanf fmt_message line) = true
  · simp [hov] at h
  · simp only [hov, Bool.false_eq_true, if_false] at h
    split at h
    · rename_i a b c heq
      simp only [Except.ok.injEq] at h
      subst h
      apply append_osc_message_ready r a b (c ++ junk) hr
      rw [heq] at hov
      simp only [overruns, Bool.or_eq_true, decide_eq_true_eq, not_or, not_le] at hov
      exact hov.2
    · split at h
      · rename_i a heq
        simp only [Except.ok.injEq] at h
        subst h
        exact append_osc_message_ready r a [] [] hr (by decide)
      · simp only [Except.ok.injEq] at h
        subst h
        exact hr

/-- The loop of `new_rule` leaves the templates of the rule alone. -/
theorem new_rule_loop_templates :
    ∀ (toks : List (List Char)) (i : Nat) (r : Rule),
      (new_rule_loop toks i r).2.message_count = r.message_count
        ∧ (new_rule_loop toks i r).2.msg = r.msg := by
  intro toks
  induction toks with
  | nil => intro i r; simp [new_rule_loop]
  | cons prt rest ih =>
    intro i r
    unfold new_rule_loop
    by_cases h3 : i ≥ 3
    · simp [h3]
    · simp only [h3, if_false]
      cases hp : parse_field i prt with
      | none => simp
      | some pr =>
        obtain ⟨mk, mt⟩ := pr
        simp only []
        exact ih (i + 1) _

/-- A rule without live template has its parameters ready. -/
theorem params_ready_of_no_template (r : Rule) (h : r.message_count = 0) : params_ready r := by
  refine ⟨by omega, ?_⟩
  rw [h]
  intro t ht
  simp at ht

/-- The function `new_rule` keeps the parameters of the templates of all rules ready. -/
theorem new_rule_ready (flt : List Char) (tbl : RuleTable)
    (htbl : ∀ r ∈ tbl.rules, params_ready r) :
    ∀ r ∈ (new_rule flt tbl).2.rules, params_ready r := by
  have hloop := new_rule_loop_templates (strtok_all flt []) 0 zero_rule
  have hzero : (new_rule_loop (strtok_all flt []) 0 zero_rule).2.message_count = 0 := by
    rw [hloop.1]; rfl
  have hkeep : ∀ r ∈ tbl.rules.take tbl.rule_count, params_ready r :=
    fun r hr => htbl r (List.mem_of_mem_take hr)
  intro r hr
  unfold new_rule at hr
  simp only [] at hr
  split at hr
  · simp only [List.mem_append, List.mem_singleton] at hr
    rcases hr with h | h
    · exact hkeep r h
    · subst h
      exact params_ready_of_no_template _ hzero
  · simp only [List.mem_append, List.mem_singleton] at hr
    rcases hr with h | h
    · exact hkeep r h
    · subst h
      exact params_ready_of_no_template _ hzero

/-- The body of the loop of `read_config` keeps the parameters of the templates of all
rules ready. -/
theorem read_config_line_ready (junk raw : List Char) (st st2 : Parser)
    (hst : ∀ r ∈ st.tbl.rules, params_ready r)
    (h : read_config_line junk raw st = Except.ok st2) :
    ∀ r ∈ st2.tbl.rules, params_ready r := by
  unfold read_config_line at h
  simp only [] at h
  split at h
  · simp only [Except.ok.injEq] at h; subst h; exact hst
  · split at h
    · simp only [Except.ok.injEq] at h; subst h; exact hst
    · split at h
      · split at h <;> (simp only [Except.ok.injEq] at h; subst h; exact hst)
      · split at h
        · split at h <;> (simp only [Except.ok.injEq] at h; subst h; exact hst)
        · split at h
          · split at h
            · simp at h
            · split at h
              · simp at h
              · rename_i idx _ r hidx
                split at h
                · simp at h
                · rename_i r2 hline
                  simp only [Except.ok.injEq] at h
                  subst h
                  intro q hq
                  rcases List.mem_or_eq_of_mem_set hq with h1 | h1
                  · exact hst q h1
                  · subst h1
                    exact rule_message_line_ready junk _ r _
                      (hst r (List.getElem?_mem hidx)) hline
          · split at h
            · split at h
              · rename_i idx tbl hnew
                simp only [Except.ok.injEq] at h
                subst h
                have := new_rule_ready (rtrim raw) st.tbl hst
                rw [hnew] at this
                exact this
              · rename_i tbl hnew
                simp only [Except.ok.injEq] at h
                subst h
                have := new_rule_ready (rtrim raw) st.tbl hst
                rw [hnew] at this
                exact this
            · split at h <;> (simp only [Except.ok.injEq] at h; subst h; exact hst)

/-- The loop of `read_config` keeps the parameters of the templates of all rules ready. -/
theorem read_config_loop_ready (junk : Nat → List Char) :
    ∀ (chunks : List (List Char)) (st st2 : Parser),
      (∀ r ∈ st.tbl.rules, params_ready r) →
      read_config_loop junk chunks st = Except.ok st2 →
      ∀ r ∈ st2.tbl.rules, params_ready r := by
  intro chunks
  induction chunks with
  | nil =>
    intro st st2 hst h
    simp only [read_config_loop, Except.ok.injEq] at h
    subst h
    exact hst
  | cons raw rest ih =>
    intro st st2 hst h
    unfold read_config_loop at h
    cases hline : read_config_line (junk (st.lineno + 1)) raw
        { st with lineno := st.lineno + 1 } with
    | error f => rw [hline] at h; simp at h
    | ok st1 =>
      rw [hline] at h
      simp only [] at h
      have h1 := read_config_line_ready _ raw { st with lineno := st.lineno + 1 } st1 hst hline
      by_cases hrv : st1.rv ≠ 0
      · rw [if_pos hrv] at h
        simp only [Except.ok.injEq] at h
        subst h
        exact h1
      · rw [if_neg hrv] at h
        exact ih st1 st2 h1 h

/-- C24: after `read_config` has read a configuration without fault, the rule table having
ready parameters on entry, every live template of every rule has, for each descriptor
character other than `s`, a stored parameter string that is not empty, on which neither
`expand_int32` nor `expand_float` fails the assertion at its top, whatever the event; and
in the slot that any call of `append_osc_message` writes, every string stored for a
descriptor character other than `s` is not empty. -/
theorem C24_stored_parameters_pass_assertion (junk : Nat → List Char) (text : List Char)
    (tbl : RuleTable) (st : Parser) (m : MidiMessage)
    (htbl : ∀ r ∈ tbl.rules, params_ready r)
    (hrun : read_config junk text tbl = Except.ok st)
    (r : Rule) (hr : r ∈ st.tbl.rules)
    (t : OSCMessageTemplate) (ht : t ∈ r.msg.take r.message_count)
    (c : Nat) (ch : Char) (hch : t.desc[c]? = some ch) (hs : ch ≠ 's') :
    (∃ p, param_at t.param c = some p ∧ p ≠ []
      ∧ expand_int32 p m ≠ Except.error Fault.assert_failed
      ∧ expand_float p m ≠ Except.error Fault.assert_failed)
    ∧ ∀ (r0 : Rule) (path desc prm : List Char) (slot : OSCMessageTemplate) (j : Nat)
        (ch0 : Char) (q : List Char),
        (append_osc_message r0 path desc prm).2.msg.getLast? = some slot →
        desc[j]? = some ch0 → ch0 ≠ 's' → slot.param[j]? = some (some q) → q ≠ [] := by
  have hready := read_config_loop_ready junk (fgets_all text []) _ st htbl hrun
  obtain ⟨p, hp, hne⟩ := (hready r hr).2 t ht c ch hch
  refine ⟨⟨p, hp, hne hs, expand_int32_asserts p m (hne hs), ?_⟩, ?_⟩
  · cases p with
    | nil => exact absurd rfl (hne hs)
    | cons x xs => simp [expand_float]
  · intro r0 path desc prm slot j ch0 q
    exact append_osc_message_stores_nonempty r0 path desc prm slot j ch0 q

/-- C24 at a configuration with one rule and the message line `"/a" "is" " %1" "on"`, at
the integer parameter of its template. -/
theorem C24_stored_parameters_pass_assertion_witness :
    (∃ p, param_at [some "%1".toList, some "on".toList] 0 = some p ∧ p ≠ []
      ∧ expand_int32 p demo_event ≠ Except.error Fault.assert_failed
      ∧ expand_float p demo_event ≠ Except.error Fault.assert_failed)
    ∧ ∀ (r0 : Rule) (path desc prm : List Char) (slot : OSCMessageTemplate) (j : Nat)
        (ch0 : Char) (q : List Char),
        (append_osc_message r0 path desc prm).2.msg.getLast? = some slot →
        desc[j]? = some ch0 → ch0 ≠ 's' → slot.param[j]? = some (some q) → q ≠ [] :=
  C24_stored_parameters_pass_assertion (fun _ => [])
    "[rule]\nNOTEON\n\"/a\" \"is\" \" %1\" \"on\"\n".toList ⟨[], 0⟩
    ⟨⟨[⟨⟨0xf0, 0, 0⟩, ⟨0x90, 0, 0⟩, 1, 1,
         [⟨"/a".toList, "is".toList, [some "%1".toList, some "on".toList]⟩]⟩], 1⟩,
     some 0, ParserState.InRule, [], 0, 3⟩
    demo_event (fun r hr => absurd hr (List.not_mem_nil r)) (by decide)
    ⟨⟨0xf0, 0, 0⟩, ⟨0x90, 0, 0⟩, 1, 1,
      [⟨"/a".toList, "is".toList, [some "%1".toList, some "on".toList]⟩]⟩
    (by decide)
    ⟨"/a".toList, "is".toList, [some "%1".toList, some "on".toList]⟩ (by decide)
    0 'i' (by decide) (by decide)

/-- Lines whose parameter for an integer or float descriptor is empty or blank add no
template: `"/a" "i" ""`, `"/a" "f" "  "` and `"/a" "si" "" ""`; the line `"/a" "s" ""`
adds a template with an empty string. -/
theorem read_config_empty_parameter_example :
    Except.map Parser.tbl (read_config (fun _ => [])
        ("[rule]\nNOTEON\n\"/a\" \"i\" \"\"\n\"/a\" \"f\" \"  \"\n\"/a\" \"si\" \"\" \"\"\n"
          ++ "\"/a\" \"s\" \"\"\n").toList ⟨[], 0⟩)
      = Except.ok ⟨[⟨⟨0xf0, 0, 0⟩, ⟨0x90, 0, 0⟩, 1, 1,
          [⟨"/a".toList, "s".toList, [some []]⟩]⟩], 1⟩ := by
  decide

/-- The call `strncasecmp (a, b, strlen (a))` returns 0 exactly when `a` agrees, case aside,
with the first `strlen (a)` characters of `b`. -/
theorem strncasecmp_eq_iff (a : List Char) :
    ∀ b : List Char, strncasecmp_eq a b a.length = true
      ↔ a.map tolower = (b.take a.length).map tolower := by
  induction a with
  | nil => intro b; simp [strncasecmp_eq]
  | cons x as ih =>
    intro b
    cases b with
    | nil => simp [strncasecmp_eq]
    | cons y bs =>
      simp only [List.length_cons, strncasecmp_eq, Bool.and_eq_true, beq_iff_eq, ih bs,
        List.take_succ_cons, List.map_cons, List.cons.injEq]

/-- A string that abbreviates a name starts, case aside, with the first letter of the
name. -/
theorem abbreviates_head (arg name : List Char) (h : abbreviates arg name) :
    (arg.map tolower).head? = (name.map tolower).head? := by
  obtain ⟨hne, heq⟩ := h
  cases arg with
  | nil => exact absurd rfl hne
  | cons x as =>
    cases name with
    | nil => simp at heq
    | cons y ns =>
      simp only [List.length_cons, List.take_succ_cons, List.map_cons, List.cons.injEq] at heq
      simp [heq.1]

/-- C25: `parse_sync_mode` returns 0 with the mode set to `SyncImmediate`, `SyncAbsolute` or
`SyncRelative` exactly on the non-empty strings that agree, case aside, with the first
characters of `Immediate`, `Absolute` or `Relative` respectively; no string does so for two
of the names; on every other string, and on the NULL argument, it returns -1 and leaves the
mode as it was.  The empty string and `Absolutely` are among the other strings. -/
theorem C25_parse_sync_mode_accepts_abbreviations (arg : List Char) (mode0 : SyncMode) :
    (parse_sync_mode (some arg) mode0 = (0, SyncMode.SyncImmediate)
        ↔ abbreviates arg "Immediate".toList)
    ∧ (parse_sync_mode (some arg) mode0 = (0, SyncMode.SyncAbsolute)
        ↔ abbreviates arg "Absolute".toList)
    ∧ (parse_sync_mode (some arg) mode0 = (0, SyncMode.SyncRelative)
        ↔ abbreviates arg "Relative".toList)
    ∧ (parse_sync_mode (some arg) mode0 = (-1, mode0)
        ↔ ¬ (abbreviates arg "Immediate".toList ∨ abbreviates arg "Absolute".toList
              ∨ abbreviates arg "Relative".toList))
    ∧ ¬ (abbreviates arg "Immediate".toList ∧ abbreviates arg "Absolute".toList)
    ∧ ¬ (abbreviates arg "Immediate".toList ∧ abbreviates arg "Relative".toList)
    ∧ ¬ (abbreviates arg "Absolute".toList ∧ abbreviates arg "Relative".toList)
    ∧ parse_sync_mode none mode0 = (-1, mode0)
    ∧ parse_sync_mode (some []) mode0 = (-1, mode0)
    ∧ parse_sync_mode (some "Absolutely".toList) mode0 = (-1, mode0) := by
  have hIA : ¬ (abbreviates arg "Immediate".toList ∧ abbreviates arg "Absolute".toList) := by
    rintro ⟨h1, h2⟩
    have := (abbreviates_head _ _ h1).symm.trans (abbreviates_head _ _ h2)
    revert this
    decide
  have hIR : ¬ (abbreviates arg "Immediate".toList ∧ abbreviates arg "Relative".toList) := by
    rintro ⟨h1, h2⟩
    have := (abbreviates_head _ _ h1).symm.trans (abbreviates_head _ _ h2)
    revert this
    decide
  have hAR : ¬ (abbreviates arg "Absolute".toList ∧ abbreviates arg "Relative".toList) := by
    rintro ⟨h1, h2⟩
    have := (abbreviates_head _ _ h1).symm.trans (abbreviates_head _ _ h2)
    revert this
    decide
  have hnull : parse_sync_mode none mode0 = (-1, mode0) := rfl
  have hempty : parse_sync_mode (some []) mode0 = (-1, mode0) := by
    simp [parse_sync_mode]
  have hlong : parse_sync_mode (some "Absolutely".toList) mode0 = (-1, mode0) := by
    have h1 : strncasecmp_eq "Absolutely".toList "Immediate".toList 10 = false := by decide
    have h2 : strncasecmp_eq "Absolutely".toList "Absolute".toList 10 = false := by decide
    have h3 : strncasecmp_eq "Absolutely".toList "Relative".toList 10 = false := by decide
    have hl : "Absolutely".toList.length = 10 := by decide
    unfold parse_sync_mode
    simp only [hl, h1, h2, h3]
    simp
  refine ⟨?_, ?_, ?_, ?_, hIA, hIR, hAR, hnull, hempty, hlong⟩
  all_goals
    by_cases hne : arg = []
    · subst hne
      simp [parse_sync_mode, abbreviates]
    · have hlen : ¬ arg.length < 1 := by
        have := List.length_pos.2 hne
        omega
      have hI := strncasecmp_eq_iff arg "Immediate".toList
      have hA := strncasecmp_eq_iff arg "Absolute".toList
      have hR := strncasecmp_eq_iff arg "Relative".toList
      have aI : abbreviates arg "Immediate".toList
          ↔ strncasecmp_eq arg "Immediate".toList arg.length = true := by
        rw [hI]; exact ⟨fun h => h.2, fun h => ⟨hne, h⟩⟩
      have aA : abbreviates arg "Absolute".toList
          ↔ strncasecmp_eq arg "Absolute".toList arg.length = true := by
        rw [hA]; exact ⟨fun h => h.2, fun h => ⟨hne, h⟩⟩
      have aR : abbreviates arg "Relative".toList
          ↔ strncasecmp_eq arg "Relative".toList arg.length = true := by
        rw [hR]; exact ⟨fun h => h.2, fun h => ⟨hne, h⟩⟩
      rw [aI, aA] at hIA
      rw [aI, aR] at hIR
      rw [aA, aR] at hAR
      simp only [aI, aA, aR]
      unfold parse_sync_mode
      simp only [hlen, if_false]
      cases h1 : strncasecmp_eq arg "Immediate".toList arg.length <;>
        cases h2 : strncasecmp_eq arg "Absolute".toList arg.length <;>
        cases h3 : strncasecmp_eq arg "Relative".toList arg.length <;>
        simp_all

/-- The function `parse_sync_mode` on `rel`, `IMM`, `a`, `Absolute`, `sync` and
`Relative ` with a trailing blank. -/
theorem parse_sync_mode_examples :
    parse_sync_mode (some "rel".toList) SyncMode.SyncImmediate = (0, SyncMode.SyncRelative)
    ∧ parse_sync_mode (some "IMM".toList) SyncMode.SyncRelative = (0, SyncMode.SyncImmediate)
    ∧ parse_sync_mode (some "a".toList) SyncMode.SyncImmediate = (0, SyncMode.SyncAbsolute)
    ∧ parse_sync_mode (some "Absolute".toList) SyncMode.SyncImmediate
        = (0, SyncMode.SyncAbsolute)
    ∧ parse_sync_mode (some "sync".toList) SyncMode.SyncAbsolute = (-1, SyncMode.SyncAbsolute)
    ∧ parse_sync_mode (some "Relative ".toList) SyncMode.SyncAbsolute
        = (-1, SyncMode.SyncAbsolute) := by
  decide

end JackMidi2Osc

